import Mathlib

/-! keep-core: DKG group bookkeeping and signing-group finalisation

A shallow embedding of

* `pkg/beacon/relay/gjkr/group.go` (the `Group` membership tracker),
* `pkg/tbtc/node.go` (`finalSigningGroup`, the result submitter, the fate
  decision and the DKG retry loop),
* `pkg/sortition/internal/local/chain.go` (the local sortition chain),
* `pkg/tecdsa/dkg/marshaling.go` (unmarshaling of the DKG messages), and
* `pkg/tecdsa/commitment.go` (trapdoor commitments),

together with the properties proved about them.

Conventions of the embedding:

* a Go slice is an `Option (List α)`: `none` is the `nil` slice and `some l`
  a non-nil slice with elements `l`;
* a Go `error` is an `Option String`: `none` is `nil`;
* a method with a pointer receiver takes the receiver's state and, when it
  can be observed to change it, returns the new state;
* Go `int` is `Int`; Go `uint8` is a `Nat` below `256`, with `% 256` written
  out wherever the source's arithmetic can wrap.
-/

namespace Go

/-- Go slice: `none` is `nil`, `some l` is a non-nil slice holding `l`. -/
abbrev Slice (α : Type) := Option (List α)

/-- The elements a `range` loop over the slice visits, in order. -/
def Slice.elems {α : Type} : Slice α → List α
  | none => []
  | some l => l

/-- Go `len(s)`. -/
def Slice.len {α : Type} (s : Slice α) : Int := (s.elems.length : Int)

/-- Go `append(s, x)`: always a non-nil slice. -/
def Slice.append {α : Type} (s : Slice α) (x : α) : Slice α :=
  some (s.elems ++ [x])

/-- Go `make([]T, 0)`: the empty, non-nil slice. -/
def Slice.makeEmpty {α : Type} : Slice α := some []

end Go

namespace Gjkr

open Go

/-- The type `member.Index`; only equality of indexes is used by `Group`. -/
abbrev MemberIndex := Nat

/-- Modelled from the spec: `member.Index.Validate`, whose package
(`pkg/beacon/relay/member`) is not among the sources. The spec says that
registration "fails with `InvalidMemberIndex` if `id` is outside
`[1, maxIndex]`"; `maxIndex` is a parameter. -/
def Validate (maxIndex : Nat) (id : MemberIndex) : Option String :=
  if 1 ≤ id ∧ id ≤ maxIndex then none else some "InvalidMemberIndex"

/-- The struct `Group`. -/
structure Group where
  dishonestThreshold : Int
  memberIDs : Slice MemberIndex
  disqualifiedMemberIDs : Slice MemberIndex
  inactiveMemberIDs : Slice MemberIndex
  deriving DecidableEq, Repr

/-- The loop `for _, id := range ids { if id == memberID { return true } };
return false` that `RegisterMemberID`, `isInGroup`, `isInactive` and
`isDisqualified` all run over one of the lists. -/
def rangeFinds (memberID : MemberIndex) : List MemberIndex → Bool
  | [] => false
  | id :: rest => if id == memberID then true else rangeFinds memberID rest

/-- `MemberIDs`. -/
def MemberIDs (g : Group) : Slice MemberIndex := g.memberIDs

/-- `RegisterMemberID`: the returned pair is the error and the group after
the call. `validate` is the method `memberID.Validate()` of the package
`member`, which is not among the sources. -/
def RegisterMemberID (validate : MemberIndex → Option String) (g : Group)
    (memberID : MemberIndex) : Option String × Group :=
  match validate memberID with
  | some err => (some ("cannot register member ID in the group [" ++ err ++ "]"), g)
  | none =>
    if rangeFinds memberID g.memberIDs.elems then
      (none, g) -- already there
    else
      (none, { g with memberIDs := g.memberIDs.append memberID })

/-- `isInGroup`. -/
def isInGroup (g : Group) (memberID : MemberIndex) : Bool :=
  rangeFinds memberID g.memberIDs.elems

/-- `isInactive`. -/
def isInactive (g : Group) (memberID : MemberIndex) : Bool :=
  rangeFinds memberID g.inactiveMemberIDs.elems

/-- `isDisqualified`. -/
def isDisqualified (g : Group) (memberID : MemberIndex) : Bool :=
  rangeFinds memberID g.disqualifiedMemberIDs.elems

/-- `isOperating`. -/
def isOperating (g : Group) (memberID : MemberIndex) : Bool :=
  isInGroup g memberID && !isInactive g memberID && !isDisqualified g memberID

/-- The loop of `OperatingMemberIDs` over the remaining members, with the
slice collected so far. -/
def operatingLoop (g : Group) : List MemberIndex → Slice MemberIndex → Slice MemberIndex
  | [], operatingMembers => operatingMembers
  | member :: rest, operatingMembers =>
    if isOperating g member then
      operatingLoop g rest (operatingMembers.append member)
    else
      operatingLoop g rest operatingMembers

/-- `OperatingMemberIDs`: the returned pair is the result and the group after
the call. -/
def OperatingMemberIDs (g : Group) : Slice MemberIndex × Group :=
  (operatingLoop g g.memberIDs.elems Slice.makeEmpty, g)

/-- `MarkMemberAsDisqualified`. -/
def MarkMemberAsDisqualified (g : Group) (memberID : MemberIndex) : Group :=
  if isOperating g memberID then
    { g with disqualifiedMemberIDs := g.disqualifiedMemberIDs.append memberID }
  else g

/-- `MarkMemberAsInactive`. -/
def MarkMemberAsInactive (g : Group) (memberID : MemberIndex) : Group :=
  if isOperating g memberID then
    { g with inactiveMemberIDs := g.inactiveMemberIDs.append memberID }
  else g

/-- `eliminatedMembersCount`. -/
def eliminatedMembersCount (g : Group) : Int :=
  g.disqualifiedMemberIDs.len + g.inactiveMemberIDs.len

/-- `isThresholdSatisfied`; Go's `/` on `int` truncates towards zero. -/
def isThresholdSatisfied (g : Group) : Bool :=
  decide (eliminatedMembersCount g ≤ Int.tdiv g.dishonestThreshold 2)

/-- One call of a state-changing method of `Group`. -/
inductive GroupCall where
  | register (memberID : MemberIndex)
  | markDisqualified (memberID : MemberIndex)
  | markInactive (memberID : MemberIndex)
  deriving DecidableEq, Repr

/-- The group after one call (the error of `RegisterMemberID` is dropped). -/
def GroupCall.run (validate : MemberIndex → Option String) (g : Group) :
    GroupCall → Group
  | .register memberID => (RegisterMemberID validate g memberID).2
  | .markDisqualified memberID => MarkMemberAsDisqualified g memberID
  | .markInactive memberID => MarkMemberAsInactive g memberID

/-- The group after a finite sequence of calls, first call first. -/
def runCalls (validate : MemberIndex → Option String) (g : Group)
    (calls : List GroupCall) : Group :=
  calls.foldl (GroupCall.run validate) g

/-- A group with no members and no exclusions (each list `nil` or empty). -/
def Group.isEmpty (g : Group) : Prop :=
  g.memberIDs.elems = [] ∧ g.disqualifiedMemberIDs.elems = [] ∧
    g.inactiveMemberIDs.elems = []

/-- The ids whose registration passes validation, in call order. -/
def registeredIDs (validate : MemberIndex → Option String) :
    List GroupCall → List MemberIndex
  | [] => []
  | .register memberID :: rest =>
    if (validate memberID).isNone then
      memberID :: registeredIDs validate rest
    else registeredIDs validate rest
  | _ :: rest => registeredIDs validate rest

/-- First-registration order, in the spec's words: every id once, at the
place of its first occurrence. -/
def firstOccurrences : List MemberIndex → List MemberIndex
  | [] => []
  | id :: rest => id :: (firstOccurrences rest).filter (fun x => x != id)

/-- The invariant of the exclusion lists. -/
def Group.ExclusionsOk (g : Group) : Prop :=
  List.Disjoint g.disqualifiedMemberIDs.elems g.inactiveMemberIDs.elems ∧
  g.disqualifiedMemberIDs.elems.Nodup ∧
  g.inactiveMemberIDs.elems.Nodup ∧
  (∀ id ∈ g.disqualifiedMemberIDs.elems, id ∈ g.memberIDs.elems) ∧
  (∀ id ∈ g.inactiveMemberIDs.elems, id ∈ g.memberIDs.elems)

end Gjkr

namespace Go

/-- The outcome of running a function that can hit a run-time panic (here:
an index out of range) before it returns. -/
inductive Run (α : Type) where
  | panic : Run α
  | ret (a : α) : Run α

/-- One insertion step of `sortSlice`: `x` goes in front of the first element
it is `less` than. -/
def insertSorted {α : Type} (less : α → α → Bool) (x : α) : List α → List α
  | [] => [x]
  | y :: ys => if less x y then x :: y :: ys else y :: insertSorted less x ys

/-- The standard library's `sort.Slice(s, less)`, as the insertion sort it
runs on short slices: the elements of `s` rearranged so that no element is
`less` than one before it. -/
def sortSlice {α : Type} (less : α → α → Bool) (s : List α) : List α :=
  s.foldl (fun sorted x => insertSorted less x sorted) []

end Go

namespace Tbtc

open Go

/-- The type `chain.Address`, a string. -/
abbrev Address := String

/-- The type `group.MemberIndex`, a `uint8` (the package `pkg/protocol/group`
is not among the sources; `pkg/tecdsa/dkg/marshaling.go` narrows wire values to
it after checking them against `group.MaxMemberIndex`, which is `255`): a
`Nat` below `256`. -/
abbrev MemberIndex := Nat

/-- The fields of `ChainConfig` that `node.go` reads (the declaration is not
among the sources): three `int`s and a `uint64`. -/
structure ChainConfig where
  GroupSize : Int
  GroupQuorum : Int
  HonestThreshold : Int
  ResultPublicationBlockStep : Nat
  deriving DecidableEq, Repr

/-- A Go `map[group.MemberIndex]group.MemberIndex` seen through its lookups:
`none` is an absent key. -/
abbrev IndexMap := MemberIndex → Option MemberIndex

/-- Go `make(map[group.MemberIndex]group.MemberIndex, n)`. -/
def IndexMap.empty : IndexMap := fun _ => none

/-- Go `m[key] = value`. -/
def IndexMap.set (m : IndexMap) (key value : MemberIndex) : IndexMap :=
  fun k => if k = key then some value else m k

/-- The three values `finalSigningGroup` returns; a `nil` slice, map or error
is `none`. -/
structure FinalSigningGroupResult where
  signingGroupOperators : Slice Address
  signingGroupMembersIndexes : Option IndexMap
  err : Option String

/-- The `for i, operatingMemberID := range operatingMembersIndexes` loop of
`finalSigningGroup`, from iteration `i` on, over the indexes still to visit.
Both indexings can panic; `operatingMemberID-1` is `uint8` arithmetic and
`group.MemberIndex(i + 1)` narrows an `int` to `uint8`. -/
def finalSigningGroupLoop (selectedOperators : List Address) :
    Nat → List MemberIndex → List Address → IndexMap → Run (List Address × IndexMap)
  | _, [], signingGroupOperators, signingGroupMembersIndexes =>
    .ret (signingGroupOperators, signingGroupMembersIndexes)
  | i, operatingMemberID :: rest, signingGroupOperators, signingGroupMembersIndexes =>
    match selectedOperators[(operatingMemberID + 256 - 1) % 256]? with
    | none => .panic
    | some operator =>
      if i < signingGroupOperators.length then
        finalSigningGroupLoop selectedOperators (i + 1) rest
          (signingGroupOperators.set i operator)
          (signingGroupMembersIndexes.set operatingMemberID ((i + 1) % 256))
      else .panic

/-- `finalSigningGroup`. A `nil` argument slice is the empty list. The sort is
in place, so the caller's `operatingMembersIndexes` is left sorted; the value
returned here does not record that. -/
def finalSigningGroup (selectedOperators : List Address)
    (operatingMembersIndexes : List MemberIndex) (chainConfig : ChainConfig) :
    Run FinalSigningGroupResult :=
  if (selectedOperators.length : Int) ≠ chainConfig.GroupSize ∨
      (operatingMembersIndexes.length : Int) < chainConfig.HonestThreshold then
    .ret ⟨none, none, some "invalid input parameters"⟩
  else
    let sorted := sortSlice (fun a b => decide (a < b)) operatingMembersIndexes
    match finalSigningGroupLoop selectedOperators 0 sorted
        (List.replicate sorted.length "") IndexMap.empty with
    | .panic => .panic
    | .ret (signingGroupOperators, signingGroupMembersIndexes) =>
      .ret ⟨some signingGroupOperators, some signingGroupMembersIndexes, none⟩

/-! ### Result submission and the fate decision (`pkg/tbtc/node.go`)

The chain is reached through the interface `Chain`, whose implementations are
not part of `node.go`. A run of a function is modelled against a record of the
answers the chain gives, and yields the list of chain calls made, in order,
next to the values returned. A `select` is served by one of its channels;
which one is an input of the run. -/

/-- The number of values of a `uint64`. -/
def uint64Size : Nat := 2 ^ 64

/-- The type `DKGState` with its constant `AwaitingResult` (the declaration
is not among the sources). -/
inductive DKGState where
  | Idle
  | AwaitingSeed
  | AwaitingResult
  | Challenge
  deriving DecidableEq, Repr

/-- The fields of `DKGResultSubmittedEvent` that `node.go` reads. -/
structure DKGResultSubmittedEvent where
  GroupPublicKeyBytes : List Nat
  Misbehaved : List MemberIndex
  BlockNumber : Nat
  deriving DecidableEq, Repr

/-- What `node.go` observes of a `*dkg.Result`: the two values returned by
`result.GroupPublicKeyBytes()` and the list `result.Group.MemberIDs()`. -/
structure Result where
  GroupPublicKeyBytes : List Nat × Option String
  MemberIDs : List MemberIndex
  deriving DecidableEq, Repr

/-- The entries of a `map[group.MemberIndex][]byte`, one per key; `len` of
the map is the length of the list. -/
abbrev Signatures := List (MemberIndex × List Nat)

/-- A call on the chain interface (or on what it handed out). -/
inductive ChainCall where
  | OnDKGResultSubmitted
  | Unsubscribe
  | GetDKGState
  | BlockCounter
  | BlockHeightWaiter (blockHeight : Nat)
  | SubmitDKGResult (memberIndex : MemberIndex) (result : Result)
      (signatures : Signatures)
  deriving DecidableEq, Repr

/-- Whether the call is a `SubmitDKGResult`. -/
def ChainCall.isSubmitDKGResult : ChainCall → Bool
  | .SubmitDKGResult _ _ _ => true
  | _ => false

/-- The answers of the chain: the configuration, the two values of
`GetDKGState()`, the error of `BlockCounter()`, of `BlockHeightWaiter(height)`
and of `SubmitDKGResult(memberIndex, result, signatures)`. -/
structure Chain where
  GetConfig : ChainConfig
  GetDKGState : DKGState × Option String
  BlockCounter : Option String
  BlockHeightWaiter : Nat → Option String
  SubmitDKGResult : MemberIndex → Result → Signatures → Option String

/-- Which case of the `select` in `SubmitResult` is served, with the block
number received. -/
inductive SubmitSelect where
  | submitterEligibleChan (blockNumber : Nat)
  | resultSubmittedChan (blockNumber : Nat)
  deriving DecidableEq, Repr

/-- Which case of the `select` in `waitForDkgResultEvent` is served. -/
inductive WaitSelect where
  | dkgResultChannel (dkgResultEvent : DKGResultSubmittedEvent)
  | timeoutBlockChannel
  deriving DecidableEq, Repr

/-- The local `eligibleBlockHeight` of `setupEligibilityQueue`:
`blockWaitTime := (uint64(memberIndex) - 1) * ResultPublicationBlockStep`,
then `startBlockNumber + blockWaitTime`, all in `uint64`. -/
def eligibleBlockHeight (resultPublicationBlockStep startBlockNumber : Nat)
    (memberIndex : MemberIndex) : Nat :=
  let blockWaitTime :=
    ((memberIndex + uint64Size - 1) % uint64Size * resultPublicationBlockStep) % uint64Size
  (startBlockNumber + blockWaitTime) % uint64Size

/-- `setupEligibilityQueue`: the chain calls made and the error returned (the
waiter channel is returned exactly when the error is `nil`). -/
def setupEligibilityQueue (chain : Chain) (startBlockNumber : Nat)
    (memberIndex : MemberIndex) : List ChainCall × Option String :=
  let height := eligibleBlockHeight chain.GetConfig.ResultPublicationBlockStep
    startBlockNumber memberIndex
  match chain.BlockCounter with
  | some err => ([.BlockCounter], some ("could not get block counter [" ++ err ++ "]"))
  | none =>
    match chain.BlockHeightWaiter height with
    | some err =>
      ([.BlockCounter, .BlockHeightWaiter height],
        some ("block height waiter failure [" ++ err ++ "]"))
    | none => ([.BlockCounter, .BlockHeightWaiter height], none)

/-- `SubmitResult`: the chain calls made and the error returned. The deferred
`subscription.Unsubscribe()` is the last call of every run that subscribed. -/
def SubmitResult (chain : Chain) (served : SubmitSelect) (memberIndex : MemberIndex)
    (result : Result) (signatures : Signatures) (startBlockNumber : Nat) :
    List ChainCall × Option String :=
  if (signatures.length : Int) < chain.GetConfig.HonestThreshold then
    ([], some ("could not submit result with [" ++ toString signatures.length ++
      "] signatures for signature honest threshold [" ++
      toString chain.GetConfig.HonestThreshold ++ "]"))
  else
    match chain.GetDKGState with
    | (_, some err) =>
      ([.OnDKGResultSubmitted, .GetDKGState, .Unsubscribe],
        some ("could not check DKG state: [" ++ err ++ "]"))
    | (dkgState, none) =>
      if dkgState ≠ DKGState.AwaitingResult then
        ([.OnDKGResultSubmitted, .GetDKGState, .Unsubscribe], none)
      else
        match setupEligibilityQueue chain startBlockNumber memberIndex with
        | (calls, some err) =>
          ([.OnDKGResultSubmitted, .GetDKGState] ++ calls ++ [.Unsubscribe],
            some ("cannot set up eligibility queue: [" ++ err ++ "]"))
        | (calls, none) =>
          match served with
          | .submitterEligibleChan _ =>
            match result.GroupPublicKeyBytes with
            | (_, some err) =>
              ([.OnDKGResultSubmitted, .GetDKGState] ++ calls ++
                [.Unsubscribe, .Unsubscribe],
                some ("cannot get public key bytes [" ++ err ++ "]"))
            | (_, none) =>
              ([.OnDKGResultSubmitted, .GetDKGState] ++ calls ++
                [.Unsubscribe, .SubmitDKGResult memberIndex result signatures,
                  .Unsubscribe],
                chain.SubmitDKGResult memberIndex result signatures)
          | .resultSubmittedChan _ =>
            ([.OnDKGResultSubmitted, .GetDKGState] ++ calls ++ [.Unsubscribe], none)

/-- The local `timeoutBlock` of `waitForDkgResultEvent`, in `uint64`;
`prePublicationBlocks` is the value of `dkg.PrePublicationBlocks()`, which is
not among the sources. -/
def timeoutBlock (config : ChainConfig) (prePublicationBlocks publicationStartBlock : Nat) :
    Nat :=
  ((publicationStartBlock + prePublicationBlocks) % uint64Size +
    ((config.GroupSize % (uint64Size : Int)).toNat * config.ResultPublicationBlockStep)
      % uint64Size) % uint64Size

/-- `waitForDkgResultEvent`: the chain calls made, the event returned (`none`
is `nil`) and the error. -/
def waitForDkgResultEvent (chain : Chain) (prePublicationBlocks : Nat)
    (served : WaitSelect) (publicationStartBlock : Nat) :
    List ChainCall × Option DKGResultSubmittedEvent × Option String :=
  let height := timeoutBlock chain.GetConfig prePublicationBlocks publicationStartBlock
  match chain.BlockCounter with
  | some err => ([.BlockCounter], none, some err)
  | none =>
    match chain.BlockHeightWaiter height with
    | some err => ([.BlockCounter, .BlockHeightWaiter height], none, some err)
    | none =>
      match served with
      | .dkgResultChannel dkgResultEvent =>
        ([.BlockCounter, .BlockHeightWaiter height], some dkgResultEvent, none)
      | .timeoutBlockChannel =>
        ([.BlockCounter, .BlockHeightWaiter height], none,
          some "ECDSA DKG result publication timed out")

/-- A Go `map[group.MemberIndex]struct{}` seen through its lookups. -/
abbrev MemberSet := MemberIndex → Bool

/-- The loop `for _, misbehavedID := range Misbehaved
{ misbehavedSet[misbehavedID] = struct{}{} }`. -/
def misbehavedSetLoop : List MemberIndex → MemberSet → MemberSet
  | [], misbehavedSet => misbehavedSet
  | misbehavedID :: rest, misbehavedSet =>
    misbehavedSetLoop rest (fun k => if k = misbehavedID then true else misbehavedSet k)

/-- The loop of `decideSigningGroupMemberFate` over `result.Group.MemberIDs()`
with the slice collected so far. -/
def operatingMemberIndexesLoop (misbehavedSet : MemberSet) :
    List MemberIndex → Slice MemberIndex → Slice MemberIndex
  | [], operatingMemberIndexes => operatingMemberIndexes
  | memberID :: rest, operatingMemberIndexes =>
    if !misbehavedSet memberID then
      operatingMemberIndexesLoop misbehavedSet rest (operatingMemberIndexes.append memberID)
    else
      operatingMemberIndexesLoop misbehavedSet rest operatingMemberIndexes

/-- `decideSigningGroupMemberFate`: the chain calls made, the slice returned
(`none` is `nil`) and the error. `bytes.Equal` is equality of the contents.
Reading a field of a `nil` event panics (`waitForDkgResultEvent` never
returns one without an error). -/
def decideSigningGroupMemberFate (chain : Chain) (prePublicationBlocks : Nat)
    (served : WaitSelect) (memberIndex : MemberIndex) (publicationStartBlock : Nat)
    (result : Result) : Run (List ChainCall × Slice MemberIndex × Option String) :=
  match waitForDkgResultEvent chain prePublicationBlocks served publicationStartBlock with
  | (calls, _, some err) => .ret (calls, none, some err)
  | (calls, dkgResultEvent, none) =>
    match result.GroupPublicKeyBytes with
    | (_, some err) => .ret (calls, none, some err)
    | (groupPublicKeyBytes, none) =>
      match dkgResultEvent with
      | none => .panic
      | some dkgResultEvent =>
        if groupPublicKeyBytes ≠ dkgResultEvent.GroupPublicKeyBytes then
          .ret (calls, none, some ("[member:" ++ toString memberIndex ++
            "] could not stay in the group because " ++
            "the member do not support the same group public key"))
        else
          let misbehavedSet := misbehavedSetLoop dkgResultEvent.Misbehaved (fun _ => false)
          if misbehavedSet memberIndex then
            .ret (calls, none, some ("[member:" ++ toString memberIndex ++
              "] could not stay in the group because " ++
              "the member is considered as misbehaving"))
          else
            .ret (calls,
              operatingMemberIndexesLoop misbehavedSet result.MemberIDs Slice.makeEmpty,
              none)

/-! ### The DKG retry loop (`pkg/tbtc/node.go`)

`start` loops until an attempt succeeds, the context is done or the random
selection fails; a run is modelled by its iterations, up to a bound on their
number. The context, the attempt function, `dkg.ProtocolBlocks()` and
`retry.EvaluateRetryParticipantsForKeyGeneration` are inputs of the run. Go
`uint` is taken to be 64 bits wide. -/

/-- A Go `map[chain.Address]bool` in which every stored value is `true` (the
only value `node.go` and `chain.Addresses.Set()` store): the list of its keys,
each once, in the order of their first insertion. A `nil` map is the empty
list. -/
abbrev AddressSet := List Address

/-- Go `set[operator]`: `false` for an absent key. -/
def AddressSet.get (set : AddressSet) (operator : Address) : Bool :=
  set.contains operator

/-- Go `set[operator] = true`. -/
def AddressSet.setTrue (set : AddressSet) (operator : Address) : AddressSet :=
  if set.contains operator then set else set ++ [operator]

/-- `chain.Addresses.Set()` (the package `pkg/chain` is not among the
sources): the map holding `true` at every address of the slice. -/
def Addresses.Set (addresses : List Address) : AddressSet :=
  addresses.foldl AddressSet.setTrue []

/-- The struct `dkgRetryLoop`. -/
structure dkgRetryLoop where
  memberIndex : MemberIndex
  selectedOperators : List Address
  inactiveOperatorsSet : AddressSet
  chainConfig : ChainConfig
  attemptCounter : Nat
  attemptStartBlock : Nat
  randomRetryCounter : Nat
  randomRetrySeed : Int
  delayBlocks : Nat
  delayBlocksBumpFrequency : Nat
  delayBlocksBumpFactor : Nat
  deriving DecidableEq, Repr

/-- `seed.Bytes()` of a `*big.Int`: the big-endian bytes of the absolute
value. -/
def bigIntBytes (seed : Int) : List Nat :=
  (Nat.digits 256 seed.natAbs).reverse

/-- `binary.BigEndian.Uint64(b)` on the bytes `b`. -/
def bigEndianUint64 (b : List Nat) : Nat :=
  b.foldl (fun acc byte => acc * 256 + byte) 0

/-- The Go conversion `int64(u)` of a `uint64`. -/
def int64OfUint64 (u : Nat) : Int :=
  if u < 2 ^ 63 then (u : Int) else (u : Int) - 2 ^ 64

/-- `newDkgRetryLoop`; `sha256Sum256` is `sha256.Sum256`. -/
def newDkgRetryLoop (sha256Sum256 : List Nat → List Nat) (seed : Int)
    (initialStartBlock : Nat) (memberIndex : MemberIndex)
    (selectedOperators : List Address) (chainConfig : ChainConfig) : dkgRetryLoop :=
  let seedSha256 := sha256Sum256 (bigIntBytes seed)
  let randomRetrySeed := int64OfUint64 (bigEndianUint64 (seedSha256.take 8))
  { memberIndex := memberIndex,
    selectedOperators := selectedOperators,
    inactiveOperatorsSet := [],
    chainConfig := chainConfig,
    attemptCounter := 0,
    attemptStartBlock := initialStartBlock,
    randomRetryCounter := 0,
    randomRetrySeed := randomRetrySeed,
    delayBlocks := 5,
    delayBlocksBumpFrequency := 100,
    delayBlocksBumpFactor := 20 }

/-- The struct `dkgAttemptParams`. -/
structure dkgAttemptParams where
  index : Nat
  startBlock : Nat
  excludedMembers : List MemberIndex
  deriving DecidableEq, Repr

/-- The error of an attempt, as `start` tells errors apart with `errors.As`:
a `*dkg.InactiveMembersError` with its `InactiveMembersIndexes`, or any other
error. -/
inductive AttemptError where
  | InactiveMembersError (InactiveMembersIndexes : List MemberIndex)
  | other (message : String)
  deriving DecidableEq, Repr

/-- The three values a `dkgAttemptFn` returns. -/
abbrev AttemptReturn := Option Result × Nat × Option AttemptError

/-- The functions of other packages that the retry loop calls:
`dkg.ProtocolBlocks()` and
`retry.EvaluateRetryParticipantsForKeyGeneration(operators, seed, counter,
quorum)` with its two return values. -/
structure RetryExternals where
  ProtocolBlocks : Nat
  EvaluateRetryParticipantsForKeyGeneration :
    List Address → Int → Nat → Nat → List Address × Option String

/-- The loop of `qualifiedOperatorsSet` over `selectedOperators`, with the
slice collected so far. -/
def qualifiedOperatorsLoop (inactiveOperatorsSet : AddressSet) :
    List Address → List Address → List Address
  | [], qualifiedOperators => qualifiedOperators
  | operator :: rest, qualifiedOperators =>
    if !inactiveOperatorsSet.get operator then
      qualifiedOperatorsLoop inactiveOperatorsSet rest (qualifiedOperators ++ [operator])
    else
      qualifiedOperatorsLoop inactiveOperatorsSet rest qualifiedOperators

/-- `qualifiedOperatorsSet`: the map and the error returned, and the loop
state after the call. -/
def qualifiedOperatorsSet (ext : RetryExternals) (drl : dkgRetryLoop) :
    (AddressSet × Option String) × dkgRetryLoop :=
  let fastPath : Option AddressSet :=
    if drl.attemptCounter ≤ 5 ∧ drl.randomRetryCounter = 0 ∧
        0 < drl.inactiveOperatorsSet.length then
      let qualifiedOperators :=
        qualifiedOperatorsLoop drl.inactiveOperatorsSet drl.selectedOperators []
      if drl.chainConfig.GroupQuorum ≤ (qualifiedOperators.length : Int) then
        some (Addresses.Set qualifiedOperators)
      else none
    else none
  match fastPath with
  | some set => ((set, none), drl)
  | none =>
    match ext.EvaluateRetryParticipantsForKeyGeneration drl.selectedOperators
        drl.randomRetrySeed drl.randomRetryCounter
        (drl.chainConfig.GroupQuorum % (uint64Size : Int)).toNat with
    | (_, some err) =>
      (([], some ("random operator selection failed: [" ++ err ++ "]")), drl)
    | (qualifiedOperators, none) =>
      ((Addresses.Set qualifiedOperators, none),
        { drl with randomRetryCounter := (drl.randomRetryCounter + 1) % uint64Size })

/-- The new `attemptStartBlock` of an iteration (after `attemptCounter++`).
The remainder by a zero `delayBlocksBumpFrequency` panics. -/
def nextAttemptStartBlock (ext : RetryExternals) (drl : dkgRetryLoop) : Run Nat :=
  if 1 < drl.attemptCounter then
    if drl.delayBlocksBumpFrequency = 0 then .panic
    else
      let delayBlocks :=
        if drl.attemptCounter % drl.delayBlocksBumpFrequency = 0 then
          (drl.delayBlocks * drl.delayBlocksBumpFactor) % uint64Size
        else drl.delayBlocks
      .ret (((drl.attemptStartBlock + ext.ProtocolBlocks) % uint64Size + delayBlocks)
        % uint64Size)
  else .ret drl.attemptStartBlock

/-- The loop of `start` that collects `excludedMembers` and decides
`attemptSkipped`, from position `i` of `selectedOperators` on; it breaks at the
loop's own member index. -/
def excludedMembersLoop (ownMemberIndex : MemberIndex)
    (qualifiedOperatorsSet : AddressSet) :
    Nat → List Address → List MemberIndex → List MemberIndex × Bool
  | _, [], excludedMembers => (excludedMembers, false)
  | i, operator :: rest, excludedMembers =>
    if !qualifiedOperatorsSet.get operator then
      let memberIndex := (i + 1) % 256
      if memberIndex = ownMemberIndex then
        (excludedMembers ++ [memberIndex], true)
      else
        excludedMembersLoop ownMemberIndex qualifiedOperatorsSet (i + 1) rest
          (excludedMembers ++ [memberIndex])
    else
      excludedMembersLoop ownMemberIndex qualifiedOperatorsSet (i + 1) rest excludedMembers

/-- The loop of `start` over `imErr.InactiveMembersIndexes`; the indexing of
`selectedOperators` can panic. -/
def inactiveMembersLoop (selectedOperators : List Address) :
    List MemberIndex → AddressSet → Run AddressSet
  | [], inactiveOperatorsSet => .ret inactiveOperatorsSet
  | memberIndex :: rest, inactiveOperatorsSet =>
    match selectedOperators[(memberIndex + 256 - 1) % 256]? with
    | none => .panic
    | some operator =>
      inactiveMembersLoop selectedOperators rest (inactiveOperatorsSet.setTrue operator)

/-- How one pass through the body of the loop of `start` ends: with
`continue` (the loop state and the new qualified set), with a `return` of the
three values (and the loop state left behind), or with a panic. -/
inductive LoopStep where
  | next (drl : dkgRetryLoop) (qualifiedOperatorsSet : AddressSet)
  | returned (result : Option Result) (executionEndBlock : Nat) (err : Option String)
      (drl : dkgRetryLoop)
  | panicked
  deriving DecidableEq, Repr

/-- What is observed of one iteration: the qualified set it ran with and, if
the attempt function was invoked, the parameters passed and the values
returned. -/
structure IterationRecord where
  qualifiedOperatorsSet : AddressSet
  attempt : Option (dkgAttemptParams × AttemptReturn)
  deriving DecidableEq, Repr

/-- The end of an iteration that did not succeed: the qualified set is
computed anew and the loop continues, or the error is returned. -/
def requalify (ext : RetryExternals) (drl : dkgRetryLoop) : LoopStep :=
  match qualifiedOperatorsSet ext drl with
  | ((_, some err), drl) =>
    .returned none 0
      (some ("cannot get qualified operators for attempt [" ++
        toString ((drl.attemptCounter + 1) % uint64Size) ++ "]: [" ++ err ++ "]")) drl
  | ((set, none), drl) => .next drl set

/-- The part of an iteration after the attempt function has returned. -/
def afterAttempt (ext : RetryExternals) (drl : dkgRetryLoop) : AttemptReturn → LoopStep
  | (result, executionEndBlock, none) => .returned result executionEndBlock none drl
  | (_, _, some (.InactiveMembersError inactiveMembersIndexes)) =>
    match inactiveMembersLoop drl.selectedOperators inactiveMembersIndexes
        drl.inactiveOperatorsSet with
    | .panic => .panicked
    | .ret set => requalify ext { drl with inactiveOperatorsSet := set }
  | (_, _, some (.other _)) => requalify ext drl

/-- One pass through the body of the `for` loop of `start`. `ctx n` tells
whether `ctx.Err() != nil` at the check made with `attemptCounter = n`. -/
def iteration (ext : RetryExternals) (ctx : Nat → Bool)
    (dkgAttemptFn : dkgAttemptParams → AttemptReturn) (drl : dkgRetryLoop)
    (qualifiedOperatorsSet : AddressSet) : IterationRecord × LoopStep :=
  let drl := { drl with attemptCounter := (drl.attemptCounter + 1) % uint64Size }
  if ctx drl.attemptCounter then
    (⟨qualifiedOperatorsSet, none⟩,
      .returned none 0
        (some ("dkg retry loop received stop signal on attempt [" ++
          toString drl.attemptCounter ++ "]")) drl)
  else
    match nextAttemptStartBlock ext drl with
    | .panic => (⟨qualifiedOperatorsSet, none⟩, .panicked)
    | .ret attemptStartBlock =>
      let drl := { drl with attemptStartBlock := attemptStartBlock }
      match excludedMembersLoop drl.memberIndex qualifiedOperatorsSet 0
          drl.selectedOperators [] with
      | (_, true) => (⟨qualifiedOperatorsSet, none⟩, requalify ext drl)
      | (excludedMembers, false) =>
        let params : dkgAttemptParams :=
          { index := drl.attemptCounter, startBlock := drl.attemptStartBlock,
            excludedMembers := excludedMembers }
        (⟨qualifiedOperatorsSet, some (params, dkgAttemptFn params)⟩,
          afterAttempt ext drl (dkgAttemptFn params))

/-- The loop of `start` for at most `fuel` iterations: the iterations made and
how the last one ended (`next` if the loop is still running). -/
def startLoop (ext : RetryExternals) (ctx : Nat → Bool)
    (dkgAttemptFn : dkgAttemptParams → AttemptReturn) :
    Nat → dkgRetryLoop → AddressSet → List IterationRecord × LoopStep
  | 0, drl, qualifiedOperatorsSet => ([], .next drl qualifiedOperatorsSet)
  | fuel + 1, drl, qualifiedOperatorsSet =>
    match iteration ext ctx dkgAttemptFn drl qualifiedOperatorsSet with
    | (record, .next drl1 set1) =>
      ((record :: (startLoop ext ctx dkgAttemptFn fuel drl1 set1).1),
        (startLoop ext ctx dkgAttemptFn fuel drl1 set1).2)
    | (record, step) => ([record], step)

/-- `start`, for at most `fuel` iterations: all selected operators are
qualified for the first attempt. -/
def start (ext : RetryExternals) (ctx : Nat → Bool)
    (dkgAttemptFn : dkgAttemptParams → AttemptReturn) (fuel : Nat) (drl : dkgRetryLoop) :
    List IterationRecord × LoopStep :=
  startLoop ext ctx dkgAttemptFn fuel drl (Addresses.Set drl.selectedOperators)

/-- The loop state that a pass through the loop body leaves behind, unless it
panicked. -/
def LoopStep.state? : LoopStep → Option dkgRetryLoop
  | .next drl _ => some drl
  | .returned _ _ _ drl => some drl
  | .panicked => none

/-- The two loop states agree on every field except `inactiveOperatorsSet`
and `randomRetryCounter`. -/
def dkgRetryLoop.agreesApartFromEvidence (a b : dkgRetryLoop) : Prop :=
  a.memberIndex = b.memberIndex ∧ a.selectedOperators = b.selectedOperators ∧
  a.chainConfig = b.chainConfig ∧ a.attemptCounter = b.attemptCounter ∧
  a.attemptStartBlock = b.attemptStartBlock ∧ a.randomRetrySeed = b.randomRetrySeed ∧
  a.delayBlocks = b.delayBlocks ∧
  a.delayBlocksBumpFrequency = b.delayBlocksBumpFrequency ∧
  a.delayBlocksBumpFactor = b.delayBlocksBumpFactor

/-- In the spec's words, the start block of attempt `n` absent overflow:
`initialStartBlock + (n-1) * (ProtocolBlocks + 5) + 95 * floor(n/100)`. -/
def escalatedStartBlock (initialStartBlock protocolBlocks n : Nat) : Nat :=
  initialStartBlock + (n - 1) * (protocolBlocks + 5) + 95 * (n / 100)

/-- The list that the claim on `excludedMembers` speaks of: the member
indexes `i+1`, in ascending order, of the positions `i` whose operator is not
in the qualified set; the first position of the list given counts as `first`. -/
def unqualifiedMemberIndexes (qualifiedOperatorsSet : AddressSet) :
    Nat → List Address → List MemberIndex
  | _, [] => []
  | first, operator :: rest =>
    if qualifiedOperatorsSet.get operator then
      unqualifiedMemberIndexes qualifiedOperatorsSet (first + 1) rest
    else
      (first + 1) :: unqualifiedMemberIndexes qualifiedOperatorsSet (first + 1) rest

/-- In the spec's words, the fast-path conditions of `qualifiedOperatorsSet`:
`attemptCounter <= 5`, `randomRetryCounter == 0`, a non-empty
`inactiveOperatorsSet`, and at least `GroupQuorum` positions of
`selectedOperators` whose operator is not in `inactiveOperatorsSet`. -/
def fastPathConditions (drl : dkgRetryLoop) : Bool :=
  decide (drl.attemptCounter ≤ 5) && decide (drl.randomRetryCounter = 0) &&
    decide (drl.inactiveOperatorsSet ≠ []) &&
    decide (drl.chainConfig.GroupQuorum ≤
      ((drl.selectedOperators.countP
        (fun operator => decide (operator ∉ drl.inactiveOperatorsSet)) : Nat) : Int))

/-- The two values the random-selection primitive returns when
`qualifiedOperatorsSet` calls it in the given state. -/
def randomSelection (ext : RetryExternals) (drl : dkgRetryLoop) :
    List Address × Option String :=
  ext.EvaluateRetryParticipantsForKeyGeneration drl.selectedOperators drl.randomRetrySeed
    drl.randomRetryCounter (drl.chainConfig.GroupQuorum % (uint64Size : Int)).toNat

/-- A successful execution of the fallback: a call of `qualifiedOperatorsSet`
in a state where the fast-path conditions do not all hold and the primitive
returns no error. -/
def fallbackSucceeds (ext : RetryExternals) (drl : dkgRetryLoop) : Bool :=
  !fastPathConditions drl && (randomSelection ext drl).2.isNone

/-- The number of successful executions of the fallback in a run of at most
`fuel` iterations. An iteration that continues has called
`qualifiedOperatorsSet`, in the state that it leaves behind except for the
counter, which was the one the iteration began with. -/
def successfulFallbacks (ext : RetryExternals) (ctx : Nat → Bool)
    (dkgAttemptFn : dkgAttemptParams → AttemptReturn) :
    Nat → dkgRetryLoop → AddressSet → Nat
  | 0, _, _ => 0
  | fuel + 1, drl, qualifiedOperatorsSet =>
    match (iteration ext ctx dkgAttemptFn drl qualifiedOperatorsSet).2 with
    | .next drl1 set1 =>
      (if fallbackSucceeds ext
          { drl1 with randomRetryCounter := drl.randomRetryCounter } then 1 else 0)
        + successfulFallbacks ext ctx dkgAttemptFn fuel drl1 set1
    | _ => 0

/-- The counter values that the successful executions of the fallback pass to
the random-selection primitive in a run of at most `fuel` iterations, in the
order of the executions (see `successfulFallbacks`). -/
def fallbackCounters (ext : RetryExternals) (ctx : Nat → Bool)
    (dkgAttemptFn : dkgAttemptParams → AttemptReturn) :
    Nat → dkgRetryLoop → AddressSet → List Nat
  | 0, _, _ => []
  | fuel + 1, drl, qualifiedOperatorsSet =>
    match (iteration ext ctx dkgAttemptFn drl qualifiedOperatorsSet).2 with
    | .next drl1 set1 =>
      (if fallbackSucceeds ext
          { drl1 with randomRetryCounter := drl.randomRetryCounter } then
        [drl.randomRetryCounter] else [])
        ++ fallbackCounters ext ctx dkgAttemptFn fuel drl1 set1
    | _ => []

/-- A configuration used to instantiate the statements: group size `5`,
quorum `4`, honest threshold `3`, publication step `10`. -/
def exampleChainConfig : ChainConfig :=
  { GroupSize := 5, GroupQuorum := 4, HonestThreshold := 3,
    ResultPublicationBlockStep := 10 }

/-- A chain used to instantiate the statements: it awaits the result and
every call on it succeeds. -/
def exampleChain : Chain :=
  { GetConfig := exampleChainConfig,
    GetDKGState := (DKGState.AwaitingResult, none),
    BlockCounter := none,
    BlockHeightWaiter := fun _ => none,
    SubmitDKGResult := fun _ _ _ => none }

/-- A DKG result used to instantiate the statements: key bytes `[4, 2]`,
members `1, 2, 3, 4, 5`. -/
def exampleResult : Result :=
  { GroupPublicKeyBytes := ([4, 2], none), MemberIDs := [1, 2, 3, 4, 5] }

/-- Externals used to instantiate the statements: `50` protocol blocks and a
selection that keeps the first `quorum` operators. -/
def exampleRetryExternals : RetryExternals :=
  { ProtocolBlocks := 50,
    EvaluateRetryParticipantsForKeyGeneration :=
      fun operators _ _ quorum => (operators.take quorum, none) }

/-- An attempt function used to instantiate the statements: the first two
attempts report member `2` as inactive, later ones succeed. -/
def exampleAttemptFn : dkgAttemptParams → AttemptReturn :=
  fun params =>
    if params.index < 3 then (none, 0, some (.InactiveMembersError [2]))
    else (some exampleResult, 999, none)

/-- A retry loop used to instantiate the statements: five operators, start
block `1000`, a digest of `0xff` bytes. -/
def exampleRetryLoop (memberIndex : MemberIndex) : dkgRetryLoop :=
  newDkgRetryLoop (fun _ => List.replicate 32 255) 12345 1000 memberIndex
    ["A", "B", "C", "D", "E"] exampleChainConfig

/-- An attempt function used to instantiate the statements: attempt `n`
fails and reports the member `n + 1` as inactive. -/
def exampleFailingAttemptFn : dkgAttemptParams → AttemptReturn :=
  fun params => (none, 0, some (.InactiveMembersError [params.index + 1]))

/-- An attempt function used to instantiate the statements: every attempt
fails with an error that reports no inactive member. -/
def exampleOtherErrorAttemptFn : dkgAttemptParams → AttemptReturn :=
  fun _ => (none, 0, some (.other "attempt failed"))

/-- The states of the example loop of member `1` in a run in which every
attempt fails without reporting an inactive member: the fields that such a run
never changes, and the two qualified sets it goes through. -/
def exampleRunInvariant (drl : dkgRetryLoop) (qualifiedOperatorsSet : AddressSet) : Prop :=
  drl.memberIndex = 1 ∧ drl.selectedOperators = ["A", "B", "C", "D", "E"] ∧
  drl.inactiveOperatorsSet = [] ∧ drl.chainConfig = exampleChainConfig ∧
  drl.delayBlocks = 5 ∧ drl.delayBlocksBumpFrequency = 100 ∧
  drl.delayBlocksBumpFactor = 20 ∧
  (qualifiedOperatorsSet = ["A", "B", "C", "D", "E"] ∨
    qualifiedOperatorsSet = ["A", "B", "C", "D"])

end Tbtc

namespace Local

open Go

/-! ### The local sortition chain (`pkg/sortition/internal/local/chain.go`)

The mutexes of `Chain` are left out: every method is run on its own, from
the state the previous one left. -/

/-- The type `chain.Address`, a string. -/
abbrev Address := String

/-- A `*big.Int`: `none` is the `nil` pointer. -/
abbrev BigInt := Option Int

/-- `x.Cmp(y)` of the standard library `math/big`: equal pointers compare
equal without being dereferenced (two `nil` pointers are equal pointers);
otherwise both are dereferenced, which panics on a `nil` one. -/
def bigIntCmp : BigInt → BigInt → Run Int
  | none, none => .ret 0
  | some x, some y => .ret (if x < y then -1 else if x = y then 0 else 1)
  | _, _ => .panic

/-- A Go `map[chain.Address]T` seen through its lookups: `none` is an absent
key. -/
abbrev AddressMap (α : Type) := Address → Option α

/-- Go `make(map[chain.Address]T)`. -/
def AddressMap.empty {α : Type} : AddressMap α := fun _ => none

/-- Go `m[key] = value`. -/
def AddressMap.set {α : Type} (m : AddressMap α) (key : Address) (value : α) :
    AddressMap α :=
  fun k => if k = key then some value else m k

/-- Go `v, ok := m[key]` on a `map[chain.Address]chain.Address`: the zero
value `""` and `false` for an absent key. -/
def AddressMap.lookupAddress (m : AddressMap Address) (key : Address) : Address × Bool :=
  match m key with
  | some v => (v, true)
  | none => ("", false)

/-- Go `v, ok := m[key]` on a `map[chain.Address]*big.Int`: the zero value
`nil` and `false` for an absent key. -/
def AddressMap.lookupBigInt (m : AddressMap BigInt) (key : Address) : BigInt × Bool :=
  match m key with
  | some v => (v, true)
  | none => (none, false)

/-- The error `errOperatorUnknown`. -/
def errOperatorUnknown : String := "operator not registered for the staking provider"

/-- The error `errAuthorizationBelowMinimum`. -/
def errAuthorizationBelowMinimum : String := "authorization below the minimum"

/-- The error `errOperatorAlreadyRegisteredInPool`. -/
def errOperatorAlreadyRegisteredInPool : String :=
  "operator is already registered in the pool"

/-- The struct `Chain`. -/
structure Chain where
  operatorAddress : Address
  operatorToStakingProvider : AddressMap Address
  sortitionPool : AddressMap BigInt
  eligibleStake : AddressMap BigInt
  isPoolLocked : Bool

/-- `Connect`. -/
def Connect (operatorAddress : Address) : Chain :=
  { operatorAddress := operatorAddress,
    operatorToStakingProvider := AddressMap.empty,
    sortitionPool := AddressMap.empty,
    eligibleStake := AddressMap.empty,
    isPoolLocked := false }

set_option linter.unusedVariables false in
/-- `RegisterOperator`: the entry is written under `c.operatorAddress`; the
parameter `operator` is not read. -/
def RegisterOperator (c : Chain) (stakingProvider : Address) (operator : Address) : Chain :=
  { c with operatorToStakingProvider :=
      c.operatorToStakingProvider.set c.operatorAddress stakingProvider }

/-- `SetEligibleStake`. -/
def SetEligibleStake (c : Chain) (stakingProvider : Address) (stake : BigInt) : Chain :=
  { c with eligibleStake := c.eligibleStake.set stakingProvider stake }

/-- `CurrentOperatorToStakingProvider`. -/
def CurrentOperatorToStakingProvider (c : Chain) : Address × Bool × Option String :=
  let (stakingProvider, ok) := c.operatorToStakingProvider.lookupAddress c.operatorAddress
  (stakingProvider, ok, none)

/-- `OperatorToStakingProvider`. -/
def OperatorToStakingProvider (c : Chain) (operator : Address) :
    Address × Bool × Option String :=
  let (stakingProvider, ok) := c.operatorToStakingProvider.lookupAddress operator
  (stakingProvider, ok, none)

/-- `EligibleStake`: `big.NewInt(0)` for a staking provider without entry. -/
def EligibleStake (c : Chain) (stakingProvider : Address) : BigInt × Option String :=
  let (eligibleStake, ok) := c.eligibleStake.lookupBigInt stakingProvider
  if !ok then (some 0, none) else (eligibleStake, none)

/-- `IsPoolLocked`. -/
def IsPoolLocked (c : Chain) : Bool × Option String := (c.isPoolLocked, none)

/-- `IsOperatorInPool`. -/
def IsOperatorInPool (c : Chain) : Bool × Option String :=
  let (_, ok) := c.sortitionPool.lookupBigInt c.operatorAddress
  (ok, none)

/-- `IsOperatorUpToDate`; `||` does not evaluate its right operand when the
left one is true. -/
def IsOperatorUpToDate (c : Chain) : Run (Bool × Option String) :=
  let (stakingProvider, isRegistered) :=
    c.operatorToStakingProvider.lookupAddress c.operatorAddress
  if !isRegistered then .ret (false, some errOperatorUnknown)
  else
    let (eligibleStake, hasStake) := c.eligibleStake.lookupBigInt stakingProvider
    let (weight, isInPool) := c.sortitionPool.lookupBigInt c.operatorAddress
    if isInPool then
      match bigIntCmp weight eligibleStake with
      | .panic => .panic
      | .ret r => .ret (decide (r = 0), none)
    else if !hasStake then .ret (true, none)
    else
      match bigIntCmp eligibleStake (some 0) with
      | .panic => .panic
      | .ret r => .ret (decide (r = 0), none)

/-- `JoinSortitionPool`: the returned pair is the error and the chain after
the call. -/
def JoinSortitionPool (c : Chain) : Run (Option String × Chain) :=
  let (stakingProvider, ok) := c.operatorToStakingProvider.lookupAddress c.operatorAddress
  if !ok then .ret (some errOperatorUnknown, c)
  else
    let (eligibleStake, ok) := c.eligibleStake.lookupBigInt stakingProvider
    if !ok then .ret (some errAuthorizationBelowMinimum, c)
    else
      match bigIntCmp eligibleStake (some 0) with
      | .panic => .panic
      | .ret r =>
        if r = 0 then .ret (some errAuthorizationBelowMinimum, c)
        else
          let (_, ok) := c.sortitionPool.lookupBigInt c.operatorAddress
          if ok then .ret (some errOperatorAlreadyRegisteredInPool, c)
          else
            .ret (none,
              { c with sortitionPool := c.sortitionPool.set c.operatorAddress eligibleStake })

/-- `UpdateOperatorStatus`: the returned pair is the error and the chain after
the call. -/
def UpdateOperatorStatus (c : Chain) : Option String × Chain :=
  let (stakingProvider, isRegistered) :=
    c.operatorToStakingProvider.lookupAddress c.operatorAddress
  if !isRegistered then (some errOperatorUnknown, c)
  else
    let eligibleStake := (c.eligibleStake.lookupBigInt stakingProvider).1
    (none, { c with sortitionPool := c.sortitionPool.set c.operatorAddress eligibleStake })

end Local

namespace Dkg

/-! ### Unmarshaling of the DKG messages (`pkg/tecdsa/dkg/marshaling.go`)

The generated protobuf decoders (`pbMsg.Unmarshal`) and
`ephemeral.UnmarshalPublicKey` are parameters; the message structs, declared
outside the sources, have the fields that `marshaling.go` assigns. -/

/-- The type `group.MemberIndex`, a `uint8`: a `Nat` below `256`. -/
abbrev MemberIndex := Nat

/-- Modelled from the spec: the constant `group.MaxMemberIndex`, whose package
(`pkg/protocol/group`) is not among the sources; the largest `uint8`, `255`. -/
def MaxMemberIndex : Nat := 255

/-- The conversion `group.MemberIndex(x)` of a `uint32`: the low 8 bits. -/
def toMemberIndex (x : Nat) : MemberIndex := x % 256

/-- A `map[uint32][]byte` of a decoded protobuf message: its entries in the
order in which the `range` loop visits them. -/
abbrev WireMap := List (Nat × List Nat)

/-- A Go `map[group.MemberIndex]T` seen through its lookups: `none` is an
absent key; a `nil` map has no key. -/
abbrev MemberMap (α : Type) := MemberIndex → Option α

/-- Go `make(map[group.MemberIndex]T, n)`. -/
def MemberMap.empty {α : Type} : MemberMap α := fun _ => none

/-- Go `m[key] = value`. -/
def MemberMap.set {α : Type} (m : MemberMap α) (key : MemberIndex) (value : α) :
    MemberMap α :=
  fun k => if k = key then some value else m k

/-- The fields of `pb.EphemeralPublicKeyMessage`. -/
structure pb.EphemeralPublicKeyMessage where
  SenderID : Nat
  EphemeralPublicKeys : WireMap
  SessionID : String

/-- The fields of `pb.TSSRoundOneMessage`. -/
structure pb.TSSRoundOneMessage where
  SenderID : Nat
  Payload : List Nat
  SessionID : String

/-- The fields of `pb.TSSRoundTwoMessage`. -/
structure pb.TSSRoundTwoMessage where
  SenderID : Nat
  BroadcastPayload : List Nat
  PeersPayload : WireMap
  SessionID : String

/-- The fields of `pb.TSSRoundThreeMessage`. -/
structure pb.TSSRoundThreeMessage where
  SenderID : Nat
  Payload : List Nat
  SessionID : String

/-- The struct `ephemeralPublicKeyMessage`; `PublicKey` is
`*ephemeral.PublicKey`. -/
structure ephemeralPublicKeyMessage (PublicKey : Type) where
  senderID : MemberIndex
  ephemeralPublicKeys : MemberMap PublicKey
  sessionID : String

/-- The struct `tssRoundOneMessage`. -/
structure tssRoundOneMessage where
  senderID : MemberIndex
  payload : List Nat
  sessionID : String

/-- The struct `tssRoundTwoMessage`. -/
structure tssRoundTwoMessage where
  senderID : MemberIndex
  broadcastPayload : List Nat
  peersPayload : MemberMap (List Nat)
  sessionID : String

/-- The struct `tssRoundThreeMessage`. -/
structure tssRoundThreeMessage where
  senderID : MemberIndex
  payload : List Nat
  sessionID : String

/-- `validateMemberIndex`. -/
def validateMemberIndex (protoIndex : Nat) : Option String :=
  if protoIndex > MaxMemberIndex then
    some ("invalid member index value: [" ++ toString protoIndex ++ "]")
  else none

/-- The `range` loop of `unmarshalPublicKeyMap` over the entries still to
visit, with the map filled so far: the two values the function returns. -/
def unmarshalPublicKeyMapLoop {PublicKey : Type}
    (UnmarshalPublicKey : List Nat → Except String PublicKey) :
    WireMap → MemberMap PublicKey → MemberMap PublicKey × Option String
  | [], unmarshalled => (unmarshalled, none)
  | (memberID, publicKeyBytes) :: rest, unmarshalled =>
    match validateMemberIndex memberID with
    | some err => (MemberMap.empty, some err)
    | none =>
      match UnmarshalPublicKey publicKeyBytes with
      | .error err =>
        (MemberMap.empty, some ("could not unmarshal public key [" ++ err ++ "]"))
      | .ok publicKey =>
        unmarshalPublicKeyMapLoop UnmarshalPublicKey rest
          (unmarshalled.set (toMemberIndex memberID) publicKey)

/-- `unmarshalPublicKeyMap`. -/
def unmarshalPublicKeyMap {PublicKey : Type}
    (UnmarshalPublicKey : List Nat → Except String PublicKey) (publicKeys : WireMap) :
    MemberMap PublicKey × Option String :=
  unmarshalPublicKeyMapLoop UnmarshalPublicKey publicKeys MemberMap.empty

/-- `ephemeralPublicKeyMessage.Unmarshal`: the error and the receiver after the
call. `decode` is `pb.EphemeralPublicKeyMessage.Unmarshal`. -/
def ephemeralPublicKeyMessage.Unmarshal {PublicKey : Type}
    (decode : List Nat → Except String pb.EphemeralPublicKeyMessage)
    (UnmarshalPublicKey : List Nat → Except String PublicKey)
    (epkm : ephemeralPublicKeyMessage PublicKey) (bytes : List Nat) :
    Option String × ephemeralPublicKeyMessage PublicKey :=
  match decode bytes with
  | .error err => (some err, epkm)
  | .ok pbMsg =>
    match validateMemberIndex pbMsg.SenderID with
    | some err => (some err, epkm)
    | none =>
      let epkm := { epkm with senderID := toMemberIndex pbMsg.SenderID }
      match unmarshalPublicKeyMap UnmarshalPublicKey pbMsg.EphemeralPublicKeys with
      | (_, some err) => (some err, epkm)
      | (ephemeralPublicKeys, none) =>
        (none, { epkm with ephemeralPublicKeys := ephemeralPublicKeys,
                           sessionID := pbMsg.SessionID })

/-- `tssRoundOneMessage.Unmarshal`: the error and the receiver after the
call. `decode` is `pb.TSSRoundOneMessage.Unmarshal`. -/
def tssRoundOneMessage.Unmarshal
    (decode : List Nat → Except String pb.TSSRoundOneMessage)
    (trom : tssRoundOneMessage) (bytes : List Nat) : Option String × tssRoundOneMessage :=
  match decode bytes with
  | .error err => (some err, trom)
  | .ok pbMsg =>
    match validateMemberIndex pbMsg.SenderID with
    | some err => (some err, trom)
    | none =>
      (none, { senderID := toMemberIndex pbMsg.SenderID, payload := pbMsg.Payload,
               sessionID := pbMsg.SessionID })

/-- The `range` loop of `tssRoundTwoMessage.Unmarshal` over the entries still
to visit, with the map filled so far: the map, or the error returned. -/
def peersPayloadLoop : WireMap → MemberMap (List Nat) → Except String (MemberMap (List Nat))
  | [], peersPayload => .ok peersPayload
  | (receiverID, payload) :: rest, peersPayload =>
    match validateMemberIndex receiverID with
    | some err => .error err
    | none => peersPayloadLoop rest (peersPayload.set (toMemberIndex receiverID) payload)

/-- `tssRoundTwoMessage.Unmarshal`: the error and the receiver after the
call. `decode` is `pb.TSSRoundTwoMessage.Unmarshal`. -/
def tssRoundTwoMessage.Unmarshal
    (decode : List Nat → Except String pb.TSSRoundTwoMessage)
    (trtm : tssRoundTwoMessage) (bytes : List Nat) : Option String × tssRoundTwoMessage :=
  match decode bytes with
  | .error err => (some err, trtm)
  | .ok pbMsg =>
    match validateMemberIndex pbMsg.SenderID with
    | some err => (some err, trtm)
    | none =>
      match peersPayloadLoop pbMsg.PeersPayload MemberMap.empty with
      | .error err => (some err, trtm)
      | .ok peersPayload =>
        (none, { senderID := toMemberIndex pbMsg.SenderID,
                 broadcastPayload := pbMsg.BroadcastPayload,
                 peersPayload := peersPayload,
                 sessionID := pbMsg.SessionID })

/-- `tssRoundThreeMessage.Unmarshal`: the error and the receiver after the
call. `decode` is `pb.TSSRoundThreeMessage.Unmarshal`. -/
def tssRoundThreeMessage.Unmarshal
    (decode : List Nat → Except String pb.TSSRoundThreeMessage)
    (trtm : tssRoundThreeMessage) (bytes : List Nat) :
    Option String × tssRoundThreeMessage :=
  match decode bytes with
  | .error err => (some err, trtm)
  | .ok pbMsg =>
    match validateMemberIndex pbMsg.SenderID with
    | some err => (some err, trtm)
    | none =>
      (none, { senderID := toMemberIndex pbMsg.SenderID, payload := pbMsg.Payload,
               sessionID := pbMsg.SessionID })

end Dkg

namespace Tecdsa

/-! ### Trapdoor commitments (`pkg/tecdsa/commitment.go`)

The library `bn256` is a parameter: three commutative groups, written
additively, their base points, a pairing that is additive in both arguments,
and the `String` method of the target group. -/

/-- What `commitment.go` uses of the package `bn256`. -/
structure Bn256 (G1 G2 GT : Type) [AddCommGroup G1] [AddCommGroup G2]
    [AddCommGroup GT] where
  /-- The base point of `G1`: `ScalarBaseMult(k)` is `k` times it. -/
  g1 : G1
  /-- The base point of `G2`. -/
  g2 : G2
  /-- `bn256.Pair`. -/
  Pair : G1 →+ G2 →+ GT
  /-- The method `String` of `*bn256.GT`. -/
  GTString : GT → String

/-- The constant `bn256.Order` of `go-ethereum/crypto/bn256/cloudflare`. -/
def Order : Int :=
  21888242871839275222246405745257275088548364400416034343698204186575808495617

/-- The struct `Secret`; the pointer `secret` is taken to point to a byte
string. -/
structure Secret where
  secret : List Nat
  r : Int
  deriving DecidableEq, Repr

/-- The struct `Commitment`. -/
structure Commitment (G2 : Type) where
  pubKey : G2
  h : G2
  commitment : G2
  deriving DecidableEq, Repr

/-- `new(big.Int).SetBytes(b)`: the bytes read as a big-endian unsigned
integer. -/
def bigIntSetBytes (b : List Nat) : Int :=
  ((b.foldl (fun acc byte => acc * 256 + byte) 0 : Nat) : Int)

/-- `hash256BigInt`; `sha256Sum256` is `sha256.Sum256`. -/
def hash256BigInt (sha256Sum256 : List Nat → List Nat) (secret : List Nat) : Int :=
  let hash := sha256Sum256 secret
  bigIntSetBytes hash

/-- `GenerateCommitment`. The three arguments `random..` are the outcomes of
the calls `bn256.RandomG2(rand.Reader)`, `bn256.RandomG1(rand.Reader)` and
`bn256.RandomG2(rand.Reader)`, in this order: an error, or the scalar and the
point drawn. -/
def GenerateCommitment {G1 G2 GT : Type} [AddCommGroup G1] [AddCommGroup G2]
    [AddCommGroup GT] (bn : Bn256 G1 G2 GT) (sha256Sum256 : List Nat → List Nat)
    (randomPubKey : Except String (Int × G2)) (randomR : Except String (Int × G1))
    (randomH : Except String (Int × G2)) (secret : List Nat) :
    Except String (Commitment G2 × Secret) :=
  match randomPubKey with
  | .error err => .error err
  | .ok (_, pubKey) =>
    match randomR with
    | .error err => .error err
    | .ok (r, _) =>
      match randomH with
      | .error err => .error err
      | .ok (_, h) =>
        let hash := hash256BigInt sha256Sum256 secret
        let digest := hash % Order
        let he := h + pubKey
        let commitment := digest • bn.g2 + r • he
        .ok ({ pubKey := pubKey, h := h, commitment := commitment },
          { secret := secret, r := r })

/-- `ValidateCommitment`. -/
def ValidateCommitment {G1 G2 GT : Type} [AddCommGroup G1] [AddCommGroup G2]
    [AddCommGroup GT] (bn : Bn256 G1 G2 GT) (sha256Sum256 : List Nat → List Nat)
    (commitment : Commitment G2) (secret : Secret) : Bool × Option String :=
  let hash := hash256BigInt sha256Sum256 secret.secret
  let digest := hash % Order
  let a := secret.r • bn.g1
  let b := commitment.h + commitment.pubKey
  let c := commitment.commitment + -(digest • bn.g2)
  let g := (1 : Int) • bn.g1
  if bn.GTString (bn.Pair a b) ≠ bn.GTString (bn.Pair g c) then
    (false, some "pairings doesn't match")
  else (true, none)

/-- An instance of the library used to instantiate the statements: the
integers for all three groups, base points `1`, the product as pairing. -/
def exampleBn256 : Bn256 Int Int Int :=
  { g1 := 1, g2 := 1, Pair := AddMonoidHom.mul, GTString := fun x => toString x }

end Tecdsa

namespace Gjkr

open Go

/-! ## Lemmas on the group -/

theorem rangeFinds_iff (memberID : MemberIndex) (ids : List MemberIndex) :
    rangeFinds memberID ids = true ↔ memberID ∈ ids := by
  induction ids with
  | nil => simp [rangeFinds]
  | cons id rest ih =>
    by_cases h : id = memberID
    · simp [rangeFinds, h]
    · have h2 : ¬ memberID = id := fun e => h e.symm
      simp [rangeFinds, h, h2, ih]

theorem isOperating_iff (g : Group) (memberID : MemberIndex) :
    isOperating g memberID = true ↔
      memberID ∈ g.memberIDs.elems ∧ memberID ∉ g.inactiveMemberIDs.elems ∧
        memberID ∉ g.disqualifiedMemberIDs.elems := by
  simp only [isOperating, isInGroup, isInactive, isDisqualified, Bool.and_eq_true,
    Bool.not_eq_true', ← Bool.not_eq_true, rangeFinds_iff]
  tauto

theorem elems_append {α : Type} (s : Slice α) (x : α) :
    (s.append x).elems = s.elems ++ [x] := rfl

theorem register_memberIDs (validate : MemberIndex → Option String) (g : Group) (memberID : MemberIndex) :
    (RegisterMemberID validate g memberID).2.memberIDs.elems = g.memberIDs.elems ∨
    (RegisterMemberID validate g memberID).2.memberIDs.elems
      = g.memberIDs.elems ++ [memberID] := by
  unfold RegisterMemberID
  split
  · exact Or.inl rfl
  · split
    · exact Or.inl rfl
    · exact Or.inr rfl

theorem register_exclusions (validate : MemberIndex → Option String) (g : Group) (memberID : MemberIndex) :
    (RegisterMemberID validate g memberID).2.disqualifiedMemberIDs
      = g.disqualifiedMemberIDs ∧
    (RegisterMemberID validate g memberID).2.inactiveMemberIDs = g.inactiveMemberIDs ∧
    (RegisterMemberID validate g memberID).2.dishonestThreshold
      = g.dishonestThreshold := by
  unfold RegisterMemberID
  split
  · exact ⟨rfl, rfl, rfl⟩
  · split
    · exact ⟨rfl, rfl, rfl⟩
    · exact ⟨rfl, rfl, rfl⟩

theorem exclusionsOk_register (validate : MemberIndex → Option String) (g : Group) (memberID : MemberIndex)
    (h : g.ExclusionsOk) : (RegisterMemberID validate g memberID).2.ExclusionsOk := by
  obtain ⟨hd, hn1, hn2, hs1, hs2⟩ := h
  obtain ⟨e1, e2, _⟩ := register_exclusions validate g memberID
  unfold Group.ExclusionsOk
  rw [e1, e2]
  refine ⟨hd, hn1, hn2, ?_, ?_⟩
  · intro id hid
    rcases register_memberIDs validate g memberID with e | e <;> rw [e]
    · exact hs1 id hid
    · exact List.mem_append_left _ (hs1 id hid)
  · intro id hid
    rcases register_memberIDs validate g memberID with e | e <;> rw [e]
    · exact hs2 id hid
    · exact List.mem_append_left _ (hs2 id hid)

theorem exclusionsOk_markDisqualified (g : Group) (memberID : MemberIndex)
    (h : g.ExclusionsOk) : (MarkMemberAsDisqualified g memberID).ExclusionsOk := by
  obtain ⟨hd, hn1, hn2, hs1, hs2⟩ := h
  unfold MarkMemberAsDisqualified
  split
  · rename_i hop
    obtain ⟨hm, hi, hq⟩ := (isOperating_iff g memberID).1 hop
    refine ⟨?_, ?_, hn2, ?_, hs2⟩
    · intro x hx hx2
      simp only [elems_append, List.mem_append, List.mem_singleton] at hx
      rcases hx with hx | hx
      · exact hd hx hx2
      · subst hx; exact hi hx2
    · simp only [elems_append]
      exact List.Nodup.append hn1 (List.nodup_singleton _)
        (by intro x hx hx2; simp at hx2; subst hx2; exact hq hx)
    · intro x hx
      simp only [elems_append, List.mem_append, List.mem_singleton] at hx
      rcases hx with hx | hx
      · exact hs1 x hx
      · subst hx; exact hm
  · exact ⟨hd, hn1, hn2, hs1, hs2⟩

theorem exclusionsOk_markInactive (g : Group) (memberID : MemberIndex)
    (h : g.ExclusionsOk) : (MarkMemberAsInactive g memberID).ExclusionsOk := by
  obtain ⟨hd, hn1, hn2, hs1, hs2⟩ := h
  unfold MarkMemberAsInactive
  split
  · rename_i hop
    obtain ⟨hm, hi, hq⟩ := (isOperating_iff g memberID).1 hop
    refine ⟨?_, hn1, ?_, hs1, ?_⟩
    · intro x hx hx2
      simp only [elems_append, List.mem_append, List.mem_singleton] at hx2
      rcases hx2 with hx2 | hx2
      · exact hd hx hx2
      · subst hx2; exact hq hx
    · simp only [elems_append]
      exact List.Nodup.append hn2 (List.nodup_singleton _)
        (by intro x hx hx2; simp at hx2; subst hx2; exact hi hx)
    · intro x hx
      simp only [elems_append, List.mem_append, List.mem_singleton] at hx
      rcases hx with hx | hx
      · exact hs2 x hx
      · subst hx; exact hm
  · exact ⟨hd, hn1, hn2, hs1, hs2⟩

theorem exclusionsOk_run (validate : MemberIndex → Option String) (g : Group) (c : GroupCall)
    (h : g.ExclusionsOk) : (c.run validate g).ExclusionsOk := by
  cases c with
  | register id => exact exclusionsOk_register validate g id h
  | markDisqualified id => exact exclusionsOk_markDisqualified g id h
  | markInactive id => exact exclusionsOk_markInactive g id h

theorem exclusionsOk_runCalls (validate : MemberIndex → Option String) (calls : List GroupCall) :
    ∀ g : Group, g.ExclusionsOk → (runCalls validate g calls).ExclusionsOk := by
  induction calls with
  | nil => intro g h; exact h
  | cons c rest ih =>
    intro g h
    exact ih _ (exclusionsOk_run validate g c h)

theorem exclusionsOk_of_isEmpty (g : Group) (h : g.isEmpty) : g.ExclusionsOk := by
  obtain ⟨_, h2, h3⟩ := h
  unfold Group.ExclusionsOk
  rw [h2, h3]
  simp

/-! ## Claims on the group -/

/-- C1: in every group reached from an empty group by any finite sequence of
`RegisterMemberID`, `MarkMemberAsDisqualified` and `MarkMemberAsInactive`
calls, the disqualified and the inactive list are disjoint, neither holds a
duplicate, and both hold only ids of `memberIDs`. -/
theorem c1_exclusions_disjoint_nodup_members (validate : MemberIndex → Option String) (g0 : Group)
    (calls : List GroupCall) (h0 : g0.isEmpty) :
    List.Disjoint (runCalls validate g0 calls).disqualifiedMemberIDs.elems
        (runCalls validate g0 calls).inactiveMemberIDs.elems ∧
    (runCalls validate g0 calls).disqualifiedMemberIDs.elems.Nodup ∧
    (runCalls validate g0 calls).inactiveMemberIDs.elems.Nodup ∧
    (∀ id ∈ (runCalls validate g0 calls).disqualifiedMemberIDs.elems,
      id ∈ (runCalls validate g0 calls).memberIDs.elems) ∧
    (∀ id ∈ (runCalls validate g0 calls).inactiveMemberIDs.elems,
      id ∈ (runCalls validate g0 calls).memberIDs.elems) :=
  exclusionsOk_runCalls validate calls g0 (exclusionsOk_of_isEmpty g0 h0)

/-- C1 on the calls register `1`, register `2`, disqualify `1`, inactivate
`1`, inactivate `2`, from the zero-value group. -/
theorem c1_exclusions_disjoint_nodup_members_witness :
    (Group.mk 2 none none none).isEmpty ∧
    List.Disjoint
      (runCalls (Validate 255) (Group.mk 2 none none none)
        [.register 1, .register 2, .markDisqualified 1, .markInactive 1,
          .markInactive 2]).disqualifiedMemberIDs.elems
      (runCalls (Validate 255) (Group.mk 2 none none none)
        [.register 1, .register 2, .markDisqualified 1, .markInactive 1,
          .markInactive 2]).inactiveMemberIDs.elems :=
  ⟨⟨rfl, rfl, rfl⟩,
    (c1_exclusions_disjoint_nodup_members (Validate 255) (Group.mk 2 none none none)
      [.register 1, .register 2, .markDisqualified 1, .markInactive 1,
        .markInactive 2] ⟨rfl, rfl, rfl⟩).1⟩

theorem markDisqualified_fields (g : Group) (memberID : MemberIndex) :
    (MarkMemberAsDisqualified g memberID).memberIDs = g.memberIDs ∧
    (MarkMemberAsDisqualified g memberID).inactiveMemberIDs = g.inactiveMemberIDs ∧
    (MarkMemberAsDisqualified g memberID).dishonestThreshold = g.dishonestThreshold ∧
    g.disqualifiedMemberIDs.elems <+:
      (MarkMemberAsDisqualified g memberID).disqualifiedMemberIDs.elems := by
  unfold MarkMemberAsDisqualified
  split
  · exact ⟨rfl, rfl, rfl, List.prefix_append _ _⟩
  · exact ⟨rfl, rfl, rfl, List.prefix_refl _⟩

theorem markInactive_fields (g : Group) (memberID : MemberIndex) :
    (MarkMemberAsInactive g memberID).memberIDs = g.memberIDs ∧
    (MarkMemberAsInactive g memberID).disqualifiedMemberIDs = g.disqualifiedMemberIDs ∧
    (MarkMemberAsInactive g memberID).dishonestThreshold = g.dishonestThreshold ∧
    g.inactiveMemberIDs.elems <+:
      (MarkMemberAsInactive g memberID).inactiveMemberIDs.elems := by
  unfold MarkMemberAsInactive
  split
  · exact ⟨rfl, rfl, rfl, List.prefix_append _ _⟩
  · exact ⟨rfl, rfl, rfl, List.prefix_refl _⟩

/-- C2: no operation of the group removes an exclusion. For every group,
every id and every call of `RegisterMemberID`, `MarkMemberAsDisqualified` or
`MarkMemberAsInactive` with any argument, an id in the disqualified (resp.
inactive) list before the call is in that same list after it, and
`memberIDs` before the call is a prefix of `memberIDs` after it. -/
theorem c2_exclusions_never_removed (validate : MemberIndex → Option String) (g : Group) (c : GroupCall)
    (id : MemberIndex) :
    (id ∈ g.disqualifiedMemberIDs.elems →
      id ∈ (c.run validate g).disqualifiedMemberIDs.elems) ∧
    (id ∈ g.inactiveMemberIDs.elems →
      id ∈ (c.run validate g).inactiveMemberIDs.elems) ∧
    g.memberIDs.elems <+: (c.run validate g).memberIDs.elems := by
  cases c with
  | register m =>
    obtain ⟨e1, e2, _⟩ := register_exclusions validate g m
    simp only [GroupCall.run, e1, e2]
    refine ⟨fun h => h, fun h => h, ?_⟩
    rcases register_memberIDs validate g m with e | e <;> rw [e]
    · exact List.prefix_append _ _
  | markDisqualified m =>
    obtain ⟨e1, e2, _, p⟩ := markDisqualified_fields g m
    simp only [GroupCall.run, e1, e2]
    exact ⟨fun h => p.subset h, fun h => h, List.prefix_refl _⟩
  | markInactive m =>
    obtain ⟨e1, e2, _, p⟩ := markInactive_fields g m
    simp only [GroupCall.run, e1, e2]
    exact ⟨fun h => h, fun h => p.subset h, List.prefix_refl _⟩

/-- C2 at a group with members `1, 2, 3`, `1` disqualified, and the call
`MarkMemberAsInactive(2)`. -/
theorem c2_exclusions_never_removed_witness :
    (1 ∈ (Group.mk 2 (some [1, 2, 3]) (some [1]) none).disqualifiedMemberIDs.elems) ∧
    (1 ∈ ((GroupCall.markInactive 2).run (Validate 255)
      (Group.mk 2 (some [1, 2, 3]) (some [1]) none)).disqualifiedMemberIDs.elems) :=
  ⟨by decide,
    (c2_exclusions_never_removed (Validate 255) (Group.mk 2 (some [1, 2, 3]) (some [1]) none)
      (.markInactive 2) 1).1 (by decide)⟩

theorem operatingLoop_eq (g : Group) (l : List MemberIndex) :
    ∀ acc : List MemberIndex,
      operatingLoop g l (some acc) = some (acc ++ l.filter (isOperating g)) := by
  induction l with
  | nil => intro acc; simp [operatingLoop]
  | cons m rest ih =>
    intro acc
    by_cases h : isOperating g m = true
    · simp [operatingLoop, h, Slice.append, Slice.elems, ih]
    · simp [operatingLoop, h, ih]

theorem operating_filter (g : Group) :
    g.memberIDs.elems.filter (isOperating g) =
      g.memberIDs.elems.filter (fun id =>
        !decide (id ∈ g.disqualifiedMemberIDs.elems) &&
          !decide (id ∈ g.inactiveMemberIDs.elems)) := by
  apply List.filter_congr
  intro x hx
  have h := isOperating_iff g x
  by_cases hq : x ∈ g.disqualifiedMemberIDs.elems <;>
    by_cases hi : x ∈ g.inactiveMemberIDs.elems <;>
    simp [hq, hi, hx] at h ⊢ <;> simpa using h

/-- C3: for every group, `OperatingMemberIDs()` is `memberIDs` filtered, with
the order kept, to the ids that are in neither `disqualifiedMemberIDs` nor
`inactiveMemberIDs`; the result is never `nil`, it is the empty non-nil list
when no member is operating, and the group is not modified. -/
theorem c3_operatingMemberIDs_filter (g : Group) :
    (OperatingMemberIDs g).1 =
      some (g.memberIDs.elems.filter (fun id =>
        !decide (id ∈ g.disqualifiedMemberIDs.elems) &&
          !decide (id ∈ g.inactiveMemberIDs.elems))) ∧
    ((∀ id ∈ g.memberIDs.elems, isOperating g id = false) →
      (OperatingMemberIDs g).1 = some []) ∧
    (OperatingMemberIDs g).2 = g := by
  have e : (OperatingMemberIDs g).1 = some (g.memberIDs.elems.filter (isOperating g)) := by
    simp [OperatingMemberIDs, Slice.makeEmpty, operatingLoop_eq]
  refine ⟨by rw [e, operating_filter], ?_, rfl⟩
  intro h
  rw [e]
  congr 1
  rw [List.filter_eq_nil_iff]
  intro a ha
  simp [h a ha]

/-- C3 at a group whose two members are both excluded. -/
theorem c3_operatingMemberIDs_filter_witness :
    (∀ id ∈ (Group.mk 2 (some [1, 2]) (some [2]) (some [1])).memberIDs.elems,
      isOperating (Group.mk 2 (some [1, 2]) (some [2]) (some [1])) id = false) ∧
    (OperatingMemberIDs (Group.mk 2 (some [1, 2]) (some [2]) (some [1]))).1 = some [] :=
  ⟨by decide,
    (c3_operatingMemberIDs_filter (Group.mk 2 (some [1, 2]) (some [2]) (some [1]))).2.1
      (by decide)⟩

theorem markDisqualified_not_operating (g : Group) (memberID : MemberIndex) :
    isOperating (MarkMemberAsDisqualified g memberID) memberID = false := by
  rw [← Bool.not_eq_true, isOperating_iff]
  unfold MarkMemberAsDisqualified
  split
  · simp [elems_append]
  · rename_i h
    rw [isOperating_iff] at h
    exact h

theorem markInactive_not_operating (g : Group) (memberID : MemberIndex) :
    isOperating (MarkMemberAsInactive g memberID) memberID = false := by
  rw [← Bool.not_eq_true, isOperating_iff]
  unfold MarkMemberAsInactive
  split
  · simp [elems_append]
  · rename_i h
    rw [isOperating_iff] at h
    exact h

/-- C4: for every group and id, if the id is not operating (not in
`memberIDs`, or already disqualified, or already inactive) both
`MarkMemberAsDisqualified(id)` and `MarkMemberAsInactive(id)` leave the group
unchanged; if it is operating, `MarkMemberAsDisqualified(id)` appends the id
to `disqualifiedMemberIDs` only and `MarkMemberAsInactive(id)` appends it to
`inactiveMemberIDs` only, every other field unchanged. Marking the same id by
the other mechanism afterwards is a no-op. -/
theorem c4_mark_frame (g : Group) (id : MemberIndex) :
    (¬ (id ∈ g.memberIDs.elems ∧ id ∉ g.disqualifiedMemberIDs.elems ∧
          id ∉ g.inactiveMemberIDs.elems) →
      MarkMemberAsDisqualified g id = g ∧ MarkMemberAsInactive g id = g) ∧
    ((id ∈ g.memberIDs.elems ∧ id ∉ g.disqualifiedMemberIDs.elems ∧
          id ∉ g.inactiveMemberIDs.elems) →
      MarkMemberAsDisqualified g id =
        { dishonestThreshold := g.dishonestThreshold,
          memberIDs := g.memberIDs,
          disqualifiedMemberIDs := some (g.disqualifiedMemberIDs.elems ++ [id]),
          inactiveMemberIDs := g.inactiveMemberIDs } ∧
      MarkMemberAsInactive g id =
        { dishonestThreshold := g.dishonestThreshold,
          memberIDs := g.memberIDs,
          disqualifiedMemberIDs := g.disqualifiedMemberIDs,
          inactiveMemberIDs := some (g.inactiveMemberIDs.elems ++ [id]) }) ∧
    MarkMemberAsInactive (MarkMemberAsDisqualified g id) id
      = MarkMemberAsDisqualified g id ∧
    MarkMemberAsDisqualified (MarkMemberAsInactive g id) id
      = MarkMemberAsInactive g id := by
  refine ⟨?_, ?_, ?_, ?_⟩
  · intro h
    have hop : isOperating g id = false := by
      rw [← Bool.not_eq_true, isOperating_iff]
      tauto
    simp [MarkMemberAsDisqualified, MarkMemberAsInactive, hop]
  · intro h
    have hop : isOperating g id = true := by
      rw [isOperating_iff]
      tauto
    simp [MarkMemberAsDisqualified, MarkMemberAsInactive, hop, Slice.append]
  · have h := markDisqualified_not_operating g id
    generalize MarkMemberAsDisqualified g id = g1 at h
    simp [MarkMemberAsInactive, h]
  · have h := markInactive_not_operating g id
    generalize MarkMemberAsInactive g id = g1 at h
    simp [MarkMemberAsDisqualified, h]

/-- C4 at a group with members `1, 2, 3` and `2` inactive: `2` is not
operating, `3` is. -/
theorem c4_mark_frame_witness :
    (¬ (2 ∈ (Group.mk 2 (some [1, 2, 3]) none (some [2])).memberIDs.elems ∧
        2 ∉ (Group.mk 2 (some [1, 2, 3]) none (some [2])).disqualifiedMemberIDs.elems ∧
        2 ∉ (Group.mk 2 (some [1, 2, 3]) none (some [2])).inactiveMemberIDs.elems)) ∧
    (MarkMemberAsDisqualified (Group.mk 2 (some [1, 2, 3]) none (some [2])) 2
      = Group.mk 2 (some [1, 2, 3]) none (some [2])) ∧
    (3 ∈ (Group.mk 2 (some [1, 2, 3]) none (some [2])).memberIDs.elems ∧
        3 ∉ (Group.mk 2 (some [1, 2, 3]) none (some [2])).disqualifiedMemberIDs.elems ∧
        3 ∉ (Group.mk 2 (some [1, 2, 3]) none (some [2])).inactiveMemberIDs.elems) ∧
    (MarkMemberAsDisqualified (Group.mk 2 (some [1, 2, 3]) none (some [2])) 3
      = Group.mk 2 (some [1, 2, 3]) (some [3]) (some [2])) :=
  ⟨by decide,
    ((c4_mark_frame (Group.mk 2 (some [1, 2, 3]) none (some [2])) 2).1 (by decide)).1,
    by decide,
    ((c4_mark_frame (Group.mk 2 (some [1, 2, 3]) none (some [2])) 3).2.1 (by decide)).1⟩

theorem tdiv_two_nonneg (t : Int) (h : 0 ≤ t) : Int.tdiv t 2 = t / 2 :=
  Int.tdiv_eq_ediv h (by decide)

theorem tdiv_two_neg (t : Int) (h : t < 0) : Int.tdiv t 2 = -((-t) / 2) := by
  have e : t = -(-t) := by omega
  conv_lhs => rw [e, Int.neg_tdiv, tdiv_two_nonneg (-t) (by omega)]

/-- C5: for every integer `dishonestThreshold` and every pair of exclusion
lists, `isThresholdSatisfied()` is true if and only if
`len(disqualifiedMemberIDs) + len(inactiveMemberIDs) <= dishonestThreshold / 2`
with Go's truncating integer division, and false if and only if the
eliminated count exceeds `dishonestThreshold / 2`. Without the division: it
is true exactly when twice the count is at most the threshold, or the count
is `0` and the threshold is `-1` (which truncates to `0`). -/
theorem c5_isThresholdSatisfied_iff (t : Int)
    (members disqualified inactive : Slice MemberIndex) :
    (isThresholdSatisfied ⟨t, members, disqualified, inactive⟩ = true ↔
      (disqualified.elems.length : Int) + (inactive.elems.length : Int)
        ≤ Int.tdiv t 2) ∧
    (isThresholdSatisfied ⟨t, members, disqualified, inactive⟩ = false ↔
      Int.tdiv t 2
        < (disqualified.elems.length : Int) + (inactive.elems.length : Int)) ∧
    (isThresholdSatisfied ⟨t, members, disqualified, inactive⟩ = true ↔
      (2 * ((disqualified.elems.length : Int) + (inactive.elems.length : Int)) ≤ t ∨
        ((disqualified.elems.length : Int) + (inactive.elems.length : Int) = 0 ∧
          t = -1))) := by
  have e1 : isThresholdSatisfied ⟨t, members, disqualified, inactive⟩ = true ↔
      (disqualified.elems.length : Int) + (inactive.elems.length : Int)
        ≤ Int.tdiv t 2 := by
    simp [isThresholdSatisfied, eliminatedMembersCount, Slice.len]
  refine ⟨e1, ?_, ?_⟩
  · rw [← Bool.not_eq_true, e1]
    omega
  · rw [e1]
    rcases Int.lt_or_le t 0 with h | h
    · rw [tdiv_two_neg t h]
      omega
    · rw [tdiv_two_nonneg t h]
      omega

/-- C6: `RegisterMemberID(id)` returns an error if and only if the id fails
the member-index validation, which for the validation of the spec means that
the id is outside `[1, maxIndex]`; whenever it returns an error the group
(`memberIDs` and both exclusion lists) is unchanged. -/
theorem c6_register_error_iff (validate : MemberIndex → Option String) (maxIndex : Nat)
    (g : Group) (id : MemberIndex) :
    ((RegisterMemberID validate g id).1.isSome = true ↔ (validate id).isSome = true) ∧
    ((RegisterMemberID (Validate maxIndex) g id).1.isSome = true ↔
      (id < 1 ∨ maxIndex < id)) ∧
    ((RegisterMemberID validate g id).1.isSome = true →
      (RegisterMemberID validate g id).2 = g) := by
  have key : ∀ v : MemberIndex → Option String,
      ((RegisterMemberID v g id).1.isSome = true ↔ (v id).isSome = true) ∧
      ((RegisterMemberID v g id).1.isSome = true → (RegisterMemberID v g id).2 = g) := by
    intro v
    unfold RegisterMemberID
    cases hv : v id with
    | some err => simp
    | none => by_cases hm : rangeFinds id g.memberIDs.elems = true <;> simp [hm]
  refine ⟨(key validate).1, ?_, (key validate).2⟩
  rw [(key (Validate maxIndex)).1]
  unfold Validate
  by_cases h : 1 ≤ id ∧ id ≤ maxIndex
  · have h2 : ¬ (id < 1 ∨ maxIndex < id) := by unfold MemberIndex at *; omega
    simp only [h, h2, and_self, if_true, Option.isSome_none, Bool.false_eq_true]
  · have h2 : id < 1 ∨ maxIndex < id := by unfold MemberIndex at *; omega
    simp only [h, h2, if_false, Option.isSome_some]

/-- C6 at the id `0`, which fails validation, on a group with one member. -/
theorem c6_register_error_iff_witness :
    (RegisterMemberID (Validate 255) (Group.mk 2 (some [1]) none none) 0).1.isSome = true ∧
    (RegisterMemberID (Validate 255) (Group.mk 2 (some [1]) none none) 0).2
      = Group.mk 2 (some [1]) none none :=
  ⟨by decide,
    (c6_register_error_iff (Validate 255) 255 (Group.mk 2 (some [1]) none none) 0).2.2
      (by decide)⟩

theorem firstOccurrences_subset (l : List MemberIndex) :
    ∀ x ∈ firstOccurrences l, x ∈ l := by
  induction l with
  | nil => simp [firstOccurrences]
  | cons a rest ih =>
    intro x hx
    simp only [firstOccurrences, List.mem_cons, List.mem_filter] at hx
    rcases hx with hx | hx
    · exact hx ▸ List.mem_cons_self _ _
    · exact List.mem_cons_of_mem _ (ih x hx.1)

theorem firstOccurrences_nodup (l : List MemberIndex) : (firstOccurrences l).Nodup := by
  induction l with
  | nil => simp [firstOccurrences]
  | cons a rest ih =>
    simp only [firstOccurrences, List.nodup_cons, List.mem_filter]
    exact ⟨by simp, ih.filter _⟩

theorem memberIDs_runCalls (validate : MemberIndex → Option String)
    (calls : List GroupCall) :
    ∀ g : Group, (runCalls validate g calls).memberIDs.elems =
      g.memberIDs.elems ++ (firstOccurrences (registeredIDs validate calls)).filter
        (fun x => !decide (x ∈ g.memberIDs.elems)) := by
  induction calls with
  | nil => intro g; simp [runCalls, registeredIDs, firstOccurrences]
  | cons c rest ih =>
    intro g
    have step : runCalls validate g (c :: rest)
        = runCalls validate (c.run validate g) rest := rfl
    rw [step, ih]
    cases c with
    | register id =>
      cases hv : validate id with
      | some err =>
        simp [GroupCall.run, RegisterMemberID, registeredIDs, hv]
      | none =>
        by_cases hm : id ∈ g.memberIDs.elems
        · have hf : rangeFinds id g.memberIDs.elems = true := (rangeFinds_iff _ _).2 hm
          simp only [GroupCall.run, RegisterMemberID, registeredIDs, hv, hf, if_true,
            Option.isNone_none, firstOccurrences, List.filter_cons, hm, decide_True,
            Bool.not_true, Bool.false_eq_true, if_false, List.filter_filter]
          congr 1
          apply List.filter_congr
          intro x _
          by_cases hx : x ∈ g.memberIDs.elems
          · simp [hx]
          · have : x ≠ id := fun e => hx (e ▸ hm)
            simp [hx, this]
        · have hf : rangeFinds id g.memberIDs.elems = false := by
            rw [← Bool.not_eq_true, rangeFinds_iff]; exact hm
          simp only [GroupCall.run, RegisterMemberID, registeredIDs, hv, hf,
            Bool.false_eq_true, if_false, if_true,
            Option.isNone_none, firstOccurrences, List.filter_cons, hm, decide_False,
            Bool.not_false, List.filter_filter, elems_append, List.append_assoc,
            List.singleton_append]
          congr 2
          apply List.filter_congr
          intro x _
          by_cases hx : x ∈ g.memberIDs.elems <;> by_cases hx2 : x = id <;>
            simp [hx, hx2]
    | markDisqualified id =>
      simp [GroupCall.run, registeredIDs, (markDisqualified_fields g id).1]
    | markInactive id =>
      simp [GroupCall.run, registeredIDs, (markInactive_fields g id).1]

theorem register_twice (validate : MemberIndex → Option String) (g : Group)
    (id : MemberIndex) :
    RegisterMemberID validate (RegisterMemberID validate g id).2 id
      = ((RegisterMemberID validate g id).1, (RegisterMemberID validate g id).2) := by
  unfold RegisterMemberID
  cases hv : validate id with
  | some err => simp [hv]
  | none =>
    by_cases hm : rangeFinds id g.memberIDs.elems = true
    · simp [hm, hv]
    · have h2 : rangeFinds id (g.memberIDs.append id).elems = true := by
        rw [rangeFinds_iff, elems_append]; simp
      simp [hm, hv, h2]

/-- C7: `RegisterMemberID` is an idempotent append. For every group and valid
id, if the id is already in `memberIDs` the group is unchanged, otherwise the
id is appended at the end of `memberIDs` and nothing else changes; registering
the same id a second time changes nothing; and in every group built from an
empty group `memberIDs` has no duplicate and lists the validly registered ids
in the order of their first registration. -/
theorem c7_register_idempotent_append (validate : MemberIndex → Option String)
    (g : Group) (id : MemberIndex) (g0 : Group) (calls : List GroupCall) :
    (validate id = none → id ∈ g.memberIDs.elems →
      RegisterMemberID validate g id = (none, g)) ∧
    (validate id = none → id ∉ g.memberIDs.elems →
      RegisterMemberID validate g id =
        (none, { dishonestThreshold := g.dishonestThreshold,
                 memberIDs := some (g.memberIDs.elems ++ [id]),
                 disqualifiedMemberIDs := g.disqualifiedMemberIDs,
                 inactiveMemberIDs := g.inactiveMemberIDs })) ∧
    (RegisterMemberID validate (RegisterMemberID validate g id).2 id).2
      = (RegisterMemberID validate g id).2 ∧
    (g0.isEmpty →
      (runCalls validate g0 calls).memberIDs.elems.Nodup ∧
      (runCalls validate g0 calls).memberIDs.elems
        = firstOccurrences (registeredIDs validate calls)) := by
  refine ⟨?_, ?_, ?_, ?_⟩
  · intro hv hm
    simp [RegisterMemberID, hv, (rangeFinds_iff _ _).2 hm]
  · intro hv hm
    have hf : rangeFinds id g.memberIDs.elems = false := by
      rw [← Bool.not_eq_true, rangeFinds_iff]; exact hm
    simp [RegisterMemberID, hv, hf, Slice.append]
  · rw [register_twice]
  · intro h0
    have e : (runCalls validate g0 calls).memberIDs.elems
        = firstOccurrences (registeredIDs validate calls) := by
      rw [memberIDs_runCalls, h0.1]
      simp
    exact ⟨e ▸ firstOccurrences_nodup _, e⟩

/-- C7 on the empty group and the registrations `3, 1, 3, 0, 2, 1`. -/
theorem c7_register_idempotent_append_witness :
    Validate 255 3 = none ∧ 3 ∈ (Group.mk 2 (some [3, 1]) none none).memberIDs.elems ∧
    RegisterMemberID (Validate 255) (Group.mk 2 (some [3, 1]) none none) 3
      = (none, Group.mk 2 (some [3, 1]) none none) ∧
    (Group.mk 2 none none none).isEmpty ∧
    (runCalls (Validate 255) (Group.mk 2 none none none)
      [.register 3, .register 1, .register 3, .register 0, .markInactive 3,
        .register 2, .register 1]).memberIDs.elems = [3, 1, 2] :=
  ⟨by decide, by decide,
    (c7_register_idempotent_append (Validate 255) (Group.mk 2 (some [3, 1]) none none) 3
      (Group.mk 2 none none none) []).1 (by decide) (by decide),
    ⟨rfl, rfl, rfl⟩,
    ((c7_register_idempotent_append (Validate 255) (Group.mk 2 none none none) 0
      (Group.mk 2 none none none)
      [.register 3, .register 1, .register 3, .register 0, .markInactive 3,
        .register 2, .register 1]).2.2.2 ⟨rfl, rfl, rfl⟩).2.trans (by decide)⟩

end Gjkr

namespace Go

/-! ## Lemmas on `sortSlice` -/

theorem insertSorted_perm {α : Type} (less : α → α → Bool) (x : α) (l : List α) :
    (insertSorted less x l).Perm (x :: l) := by
  induction l with
  | nil => exact List.Perm.refl _
  | cons y ys ih =>
    unfold insertSorted
    split
    · exact List.Perm.refl _
    · exact ((List.Perm.cons y ih).trans (List.Perm.swap x y ys))

theorem insertSorted_sorted (x : Nat) (l : List Nat) (h : l.Sorted (· ≤ ·)) :
    (insertSorted (fun a b => decide (a < b)) x l).Sorted (· ≤ ·) := by
  induction l with
  | nil => simp [insertSorted]
  | cons y ys ih =>
    obtain ⟨hy, hys⟩ := List.sorted_cons.1 h
    unfold insertSorted
    split
    · rename_i hlt
      have hxy : x < y := by simpa using hlt
      refine List.sorted_cons.2 ⟨?_, h⟩
      intro b hb
      rcases List.mem_cons.1 hb with e | e
      · omega
      · have := hy b e
        omega
    · rename_i hlt
      have hxy : y ≤ x := by
        have : ¬ x < y := by simpa using hlt
        omega
      refine List.sorted_cons.2 ⟨?_, ih hys⟩
      intro b hb
      rcases List.mem_cons.1 ((insertSorted_perm _ x ys).mem_iff.1 hb) with e | e
      · omega
      · exact hy b e

theorem sortSlice_foldl_perm {α : Type} (less : α → α → Bool) (l : List α) :
    ∀ acc : List α,
      (l.foldl (fun sorted x => insertSorted less x sorted) acc).Perm (acc ++ l) := by
  induction l with
  | nil => intro acc; simp
  | cons x xs ih =>
    intro acc
    refine (ih _).trans ?_
    refine ((insertSorted_perm less x acc).append_right xs).trans ?_
    have hm : (acc ++ x :: xs).Perm (x :: (acc ++ xs)) := List.perm_middle
    simpa using hm.symm

theorem sortSlice_perm {α : Type} (less : α → α → Bool) (l : List α) :
    (sortSlice less l).Perm l := by
  simpa [sortSlice] using sortSlice_foldl_perm less l []

theorem sortSlice_foldl_sorted (l : List Nat) :
    ∀ acc : List Nat, acc.Sorted (· ≤ ·) →
      (l.foldl (fun sorted x => insertSorted (fun a b => decide (a < b)) x sorted)
        acc).Sorted (· ≤ ·) := by
  induction l with
  | nil => intro acc h; exact h
  | cons x xs ih => intro acc h; exact ih _ (insertSorted_sorted x acc h)

theorem sortSlice_sorted (l : List Nat) :
    (sortSlice (fun a b => decide (a < b)) l).Sorted (· ≤ ·) :=
  sortSlice_foldl_sorted l [] List.sorted_nil

/-- The sort has one possible result: the ascending rearrangement. -/
theorem sortSlice_eq (l s : List Nat) (hp : s.Perm l) (hs : s.Sorted (· ≤ ·)) :
    sortSlice (fun a b => decide (a < b)) l = s :=
  List.eq_of_perm_of_sorted ((sortSlice_perm _ l).trans hp.symm) (sortSlice_sorted l) hs

theorem sorted_lt_getElem_ge (l : List Nat) :
    ∀ a : Nat, (a :: l).Sorted (· < ·) →
      ∀ j (hj : j < (a :: l).length), a + j ≤ (a :: l)[j] := by
  induction l with
  | nil =>
    intro a _ j hj
    have : j = 0 := by simpa using hj
    subst this
    simp
  | cons b rest ih =>
    intro a h j hj
    obtain ⟨hab, hrest⟩ := List.sorted_cons.1 h
    cases j with
    | zero => simp
    | succ j =>
      have hlt : a < b := hab b (List.mem_cons_self _ _)
      have := ih b hrest j (by simpa using hj)
      simp only [List.getElem_cons_succ]
      omega

end Go

namespace Tbtc

open Go

/-! ## Lemmas on `finalSigningGroup` -/

theorem finalSigningGroupLoop_ret (selectedOperators : List Address) :
    ∀ (rest : List MemberIndex) (i : Nat) (ops : List Address) (idx : IndexMap),
      (∀ k ∈ rest, (k + 256 - 1) % 256 < selectedOperators.length) →
      i + rest.length ≤ ops.length →
      ∃ (ops1 : List Address) (idx1 : IndexMap),
        finalSigningGroupLoop selectedOperators i rest ops idx = .ret (ops1, idx1) ∧
        ops1.length = ops.length ∧
        (∀ j, j < i → ops1[j]? = ops[j]?) ∧
        (∀ j (hj : j < rest.length),
          ops1[i + j]? = selectedOperators[(rest[j] + 256 - 1) % 256]?) ∧
        (∀ k, k ∉ rest → idx1 k = idx k) ∧
        (rest.Nodup → ∀ j (hj : j < rest.length),
          idx1 rest[j] = some ((i + j + 1) % 256)) := by
  intro rest
  induction rest with
  | nil =>
    intro i ops idx _ _
    exact ⟨ops, idx, rfl, rfl, fun _ _ => rfl, fun j hj => absurd hj (by simp),
      fun _ _ => rfl, fun _ j hj => absurd hj (by simp)⟩
  | cons a r ih =>
    intro i ops idx hsel hlen
    have ha : (a + 256 - 1) % 256 < selectedOperators.length :=
      hsel a (List.mem_cons_self _ _)
    have hi : i < ops.length := by
      simp only [List.length_cons] at hlen
      omega
    obtain ⟨ops1, idx1, hret, hl, hpre, hget, hout, hin⟩ :=
      ih (i + 1) (ops.set i selectedOperators[(a + 256 - 1) % 256])
        (idx.set a ((i + 1) % 256))
        (fun k hk => hsel k (List.mem_cons_of_mem _ hk))
        (by simp only [List.length_cons] at hlen; simp only [List.length_set]; omega)
    refine ⟨ops1, idx1, ?_, ?_, ?_, ?_, ?_, ?_⟩
    · simp only [finalSigningGroupLoop, List.getElem?_eq_getElem ha, hi, if_true]
      exact hret
    · rw [hl, List.length_set]
    · intro j hj
      rw [hpre j (by omega), List.getElem?_set_ne (by omega)]
    · intro j hj
      cases j with
      | zero =>
        rw [Nat.add_zero, hpre i (by omega), List.getElem?_set_self hi]
        simp only [List.getElem_cons_zero]
        exact (List.getElem?_eq_getElem ha).symm
      | succ j =>
        have := hget j (by simpa using hj)
        simp only [List.getElem_cons_succ]
        rw [← this]
        congr 1
        omega
    · intro k hk
      have hk1 : k ≠ a := fun e => hk (e ▸ List.mem_cons_self _ _)
      have hk2 : k ∉ r := fun e => hk (List.mem_cons_of_mem _ e)
      rw [hout k hk2]
      simp [IndexMap.set, hk1]
    · intro hnd j hj
      obtain ⟨har, hr⟩ := List.nodup_cons.1 hnd
      cases j with
      | zero =>
        simp only [List.getElem_cons_zero]
        rw [hout a har]
        simp [IndexMap.set]
      | succ j =>
        have := hin hr j (by simpa using hj)
        simp only [List.getElem_cons_succ]
        rw [this]
        congr 2
        omega

theorem finalSigningGroup_valid (selectedOperators : List Address)
    (operatingMembersIndexes : List MemberIndex) (chainConfig : ChainConfig)
    (hc : ¬ ((selectedOperators.length : Int) ≠ chainConfig.GroupSize ∨
      (operatingMembersIndexes.length : Int) < chainConfig.HonestThreshold)) :
    finalSigningGroup selectedOperators operatingMembersIndexes chainConfig =
      match finalSigningGroupLoop selectedOperators 0
          (sortSlice (fun a b => decide (a < b)) operatingMembersIndexes)
          (List.replicate
            (sortSlice (fun a b => decide (a < b)) operatingMembersIndexes).length "")
          IndexMap.empty with
      | .panic => .panic
      | .ret (ops, idx) => .ret ⟨some ops, some idx, none⟩ := by
  unfold finalSigningGroup
  rw [if_neg hc]

theorem finalSigningGroupLoop_panic (selectedOperators : List Address) :
    ∀ (rest : List MemberIndex) (i : Nat) (ops : List Address) (idx : IndexMap),
      (∃ k ∈ rest, ¬ (k + 256 - 1) % 256 < selectedOperators.length) →
      finalSigningGroupLoop selectedOperators i rest ops idx = .panic := by
  intro rest
  induction rest with
  | nil =>
    intro i ops idx h
    obtain ⟨k, hk, _⟩ := h
    exact absurd hk (by simp)
  | cons a r ih =>
    intro i ops idx h
    unfold finalSigningGroupLoop
    by_cases ha : (a + 256 - 1) % 256 < selectedOperators.length
    · have hr : ∃ k ∈ r, ¬ (k + 256 - 1) % 256 < selectedOperators.length := by
        obtain ⟨k, hk, hbad⟩ := h
        rcases List.mem_cons.1 hk with e | e
        · subst e
          exact absurd ha hbad
        · exact ⟨k, e, hbad⟩
      rw [List.getElem?_eq_getElem ha]
      by_cases hi : i < ops.length
      · simp only [hi, if_true]
        exact ih _ _ _ hr
      · simp only [hi, if_false]
    · rw [List.getElem?_eq_none (Nat.le_of_not_lt ha)]

/-- For a `uint8` index `k`, `selectedOperators[k-1]` is in range unless `k`
is above the length, or `k` is `0` (then `k-1` wraps to `255`) and the slice
has at most `255` elements. -/
theorem index_in_range_iff (n k : Nat) (hk : k < 256) :
    ¬ (k + 256 - 1) % 256 < n ↔ ((k = 0 ∧ n < 256) ∨ n < k) := by
  omega

theorem finalSigningGroup_compact_spec (selectedOperators : List Address)
    (operatingMembersIndexes : List MemberIndex) (chainConfig : ChainConfig)
    (s : List MemberIndex)
    (hsize : (selectedOperators.length : Int) = chainConfig.GroupSize)
    (hthreshold : chainConfig.HonestThreshold ≤ (operatingMembersIndexes.length : Int))
    (huint8 : ∀ k ∈ operatingMembersIndexes, k < 256)
    (hdistinct : operatingMembersIndexes.Nodup)
    (hrange : ∀ k ∈ operatingMembersIndexes, 1 ≤ k ∧ (k : Int) ≤ chainConfig.GroupSize)
    (hperm : s.Perm operatingMembersIndexes) (hsorted : s.Sorted (· ≤ ·)) :
    ∃ (ops : List Address) (m : IndexMap),
      finalSigningGroup selectedOperators operatingMembersIndexes chainConfig
        = .ret ⟨some ops, some m, none⟩ ∧
      ops.length = s.length ∧
      (∀ i (hi : i < s.length),
        s[i] - 1 < selectedOperators.length ∧ ops[i]? = selectedOperators[s[i] - 1]?) ∧
      (∀ k, (m k).isSome = true ↔ k ∈ operatingMembersIndexes) ∧
      (∀ i (hi : i < s.length), m s[i] = some (i + 1)) := by
  have hc : ¬ ((selectedOperators.length : Int) ≠ chainConfig.GroupSize ∨
      (operatingMembersIndexes.length : Int) < chainConfig.HonestThreshold) := by
    omega
  have hk : ∀ k ∈ s, 1 ≤ k ∧ k ≤ selectedOperators.length ∧ k < 256 := by
    intro k hks
    have hko := hperm.mem_iff.1 hks
    have h1 := hrange k hko
    have h2 := huint8 k hko
    refine ⟨h1.1, ?_, h2⟩
    have := h1.2
    unfold MemberIndex at *
    omega
  have hsub : ∀ k ∈ s, (k + 256 - 1) % 256 = k - 1 := by
    intro k hks
    obtain ⟨h1, _, h3⟩ := hk k hks
    unfold MemberIndex at *
    omega
  have hnd : s.Nodup := hperm.nodup_iff.2 hdistinct
  have hlt : s.Sorted (· < ·) := hsorted.lt_of_le hnd
  have hpos : ∀ i (hi : i < s.length), i + 1 ≤ s[i] ∧ s[i] < 256 := by
    intro i hi
    have hmem : s[i] ∈ s := List.getElem_mem hi
    refine ⟨?_, (hk _ hmem).2.2⟩
    cases s with
    | nil => exact absurd hi (by simp)
    | cons a l =>
      have h0 : 1 ≤ a := (hk a (List.mem_cons_self _ _)).1
      have := sorted_lt_getElem_ge l a hlt i hi
      unfold MemberIndex at *
      omega
  obtain ⟨ops, m, hret, hl, _, hget, hout, hin⟩ :=
    finalSigningGroupLoop_ret selectedOperators s 0 (List.replicate s.length "")
      IndexMap.empty
      (fun k hks => by
        rw [hsub k hks]
        have := hk k hks
        unfold MemberIndex at *
        omega)
      (by simp)
  refine ⟨ops, m, ?_, ?_, ?_, ?_, ?_⟩
  · rw [finalSigningGroup_valid _ _ _ hc, sortSlice_eq _ s hperm hsorted, hret]
  · rw [hl, List.length_replicate]
  · intro i hi
    have hmem : s[i] ∈ s := List.getElem_mem hi
    have h := hget i hi
    rw [Nat.zero_add, hsub _ hmem] at h
    refine ⟨?_, h⟩
    have := hk _ hmem
    unfold MemberIndex at *
    omega
  · intro k
    rw [← hperm.mem_iff]
    constructor
    · intro hsome
      by_contra hks
      rw [hout k hks] at hsome
      exact absurd hsome (by simp [IndexMap.empty])
    · intro hks
      obtain ⟨i, hi, e⟩ := List.mem_iff_getElem.1 hks
      rw [← e, hin hnd i hi]
      rfl
  · intro i hi
    rw [hin hnd i hi, Nat.zero_add, Nat.mod_eq_of_lt]
    have := hpos i hi
    unfold MemberIndex at *
    omega

/-! ## Claims on `finalSigningGroup` -/

/-- C8: with `selectedOperators = [A, B, C, D, E]`,
`operatingMembersIndexes = [5, 1, 3]`, `GroupSize = 5` and
`HonestThreshold <= 3`, `finalSigningGroup` returns no error,
`signingGroupOperators = [A, C, E]` and the index map `{1: 1, 3: 2, 5: 3}`. -/
theorem c8_finalSigningGroup_example (A B C D E : Address) (chainConfig : ChainConfig)
    (hsize : chainConfig.GroupSize = 5) (hthreshold : chainConfig.HonestThreshold ≤ 3) :
    ∃ m : IndexMap,
      finalSigningGroup [A, B, C, D, E] [5, 1, 3] chainConfig
        = .ret ⟨some [A, C, E], some m, none⟩ ∧
      ∀ k, m k = if k = 1 then some 1 else if k = 3 then some 2
        else if k = 5 then some 3 else none := by
  have hc : ¬ ((([A, B, C, D, E] : List Address).length : Int) ≠ chainConfig.GroupSize ∨
      (([5, 1, 3] : List MemberIndex).length : Int) < chainConfig.HonestThreshold) := by
    simp only [List.length_cons, List.length_nil, hsize]
    omega
  refine ⟨((IndexMap.empty.set 1 1).set 3 2).set 5 3, ?_, ?_⟩
  · rw [finalSigningGroup_valid _ _ _ hc]
    rfl
  · intro k
    by_cases h1 : k = 1
    · subst h1; rfl
    · by_cases h3 : k = 3
      · subst h3; rfl
      · by_cases h5 : k = 5
        · subst h5; rfl
        · simp [IndexMap.set, IndexMap.empty, h1, h3, h5]

/-- C8 with the addresses `"A"` to `"E"` and `HonestThreshold = 3`. -/
theorem c8_finalSigningGroup_example_witness :
    ∃ m : IndexMap,
      finalSigningGroup ["A", "B", "C", "D", "E"] [5, 1, 3]
          { GroupSize := 5, GroupQuorum := 4, HonestThreshold := 3,
            ResultPublicationBlockStep := 1 }
        = .ret ⟨some ["A", "C", "E"], some m, none⟩ ∧
      ∀ k, m k = if k = 1 then some 1 else if k = 3 then some 2
        else if k = 5 then some 3 else none :=
  c8_finalSigningGroup_example "A" "B" "C" "D" "E"
    { GroupSize := 5, GroupQuorum := 4, HonestThreshold := 3,
      ResultPublicationBlockStep := 1 } rfl (by decide)

/-- C9: `finalSigningGroup` returns an error if and only if
`len(selectedOperators) != GroupSize` or
`len(operatingMembersIndexes) < HonestThreshold`; with an error it returns nil
operators and a nil map; in particular it fails whenever fewer than
`HonestThreshold` operating indexes are supplied. -/
theorem c9_finalSigningGroup_error_iff (selectedOperators : List Address)
    (operatingMembersIndexes : List MemberIndex) (chainConfig : ChainConfig) :
    ((∃ r, finalSigningGroup selectedOperators operatingMembersIndexes chainConfig
          = .ret r ∧ r.err.isSome = true) ↔
      ((selectedOperators.length : Int) ≠ chainConfig.GroupSize ∨
        (operatingMembersIndexes.length : Int) < chainConfig.HonestThreshold)) ∧
    (∀ r, finalSigningGroup selectedOperators operatingMembersIndexes chainConfig
          = .ret r → r.err.isSome = true →
      r.signingGroupOperators = none ∧ r.signingGroupMembersIndexes = none) ∧
    ((operatingMembersIndexes.length : Int) < chainConfig.HonestThreshold →
      finalSigningGroup selectedOperators operatingMembersIndexes chainConfig
        = .ret ⟨none, none, some "invalid input parameters"⟩) := by
  have hbad : ((selectedOperators.length : Int) ≠ chainConfig.GroupSize ∨
        (operatingMembersIndexes.length : Int) < chainConfig.HonestThreshold) →
      finalSigningGroup selectedOperators operatingMembersIndexes chainConfig
        = .ret ⟨none, none, some "invalid input parameters"⟩ := by
    intro h
    unfold finalSigningGroup
    rw [if_pos h]
  have hgood : ¬ ((selectedOperators.length : Int) ≠ chainConfig.GroupSize ∨
        (operatingMembersIndexes.length : Int) < chainConfig.HonestThreshold) →
      ∀ r, finalSigningGroup selectedOperators operatingMembersIndexes chainConfig
          = .ret r → r.err = none := by
    intro h r hr
    rw [finalSigningGroup_valid _ _ _ h] at hr
    split at hr
    · exact absurd hr (by simp)
    · injection hr with hr
      rw [← hr]
  refine ⟨⟨?_, ?_⟩, ?_, ?_⟩
  · rintro ⟨r, hr, herr⟩
    by_contra h
    rw [hgood h r hr] at herr
    exact absurd herr (by simp)
  · intro h
    exact ⟨_, hbad h, rfl⟩
  · intro r hr herr
    by_cases h : ((selectedOperators.length : Int) ≠ chainConfig.GroupSize ∨
        (operatingMembersIndexes.length : Int) < chainConfig.HonestThreshold)
    · rw [hbad h] at hr
      injection hr with hr
      rw [← hr]
      exact ⟨rfl, rfl⟩
    · rw [hgood h r hr] at herr
      exact absurd herr (by simp)
  · intro h
    exact hbad (Or.inr h)

/-- C9 with two operating indexes and `HonestThreshold = 3`. -/
theorem c9_finalSigningGroup_error_iff_witness :
    (([1, 2] : List MemberIndex).length : Int) < 3 ∧
    finalSigningGroup ["A", "B", "C", "D", "E"] [1, 2]
        { GroupSize := 5, GroupQuorum := 4, HonestThreshold := 3,
          ResultPublicationBlockStep := 1 }
      = .ret ⟨none, none, some "invalid input parameters"⟩ :=
  ⟨by decide,
    (c9_finalSigningGroup_error_iff ["A", "B", "C", "D", "E"] [1, 2]
      { GroupSize := 5, GroupQuorum := 4, HonestThreshold := 3,
        ResultPublicationBlockStep := 1 }).2.2 (by decide)⟩

/-- C10: for every input that passes validation and whose operating indexes
are distinct and lie in `[1, GroupSize]`, with `s` the operating indexes
sorted ascending, `finalSigningGroup` returns no error,
`signingGroupOperators` of length `len(s)` with
`signingGroupOperators[i] = selectedOperators[s[i]-1]` for every `i`, and an
index map whose keys are exactly the operating indexes, with
`map[s[i]] = i+1`. -/
theorem c10_finalSigningGroup_compact (selectedOperators : List Address)
    (operatingMembersIndexes : List MemberIndex) (chainConfig : ChainConfig)
    (s : List MemberIndex)
    (hsize : (selectedOperators.length : Int) = chainConfig.GroupSize)
    (hthreshold : chainConfig.HonestThreshold ≤ (operatingMembersIndexes.length : Int))
    (huint8 : ∀ k ∈ operatingMembersIndexes, k < 256)
    (hdistinct : operatingMembersIndexes.Nodup)
    (hrange : ∀ k ∈ operatingMembersIndexes, 1 ≤ k ∧ (k : Int) ≤ chainConfig.GroupSize)
    (hperm : s.Perm operatingMembersIndexes) (hsorted : s.Sorted (· ≤ ·)) :
    ∃ (ops : List Address) (m : IndexMap),
      finalSigningGroup selectedOperators operatingMembersIndexes chainConfig
        = .ret ⟨some ops, some m, none⟩ ∧
      ops.length = s.length ∧
      (∀ i (hi : i < s.length),
        s[i] - 1 < selectedOperators.length ∧ ops[i]? = selectedOperators[s[i] - 1]?) ∧
      (∀ k, (m k).isSome = true ↔ k ∈ operatingMembersIndexes) ∧
      (∀ i (hi : i < s.length), m s[i] = some (i + 1)) :=
  finalSigningGroup_compact_spec selectedOperators operatingMembersIndexes chainConfig s
    hsize hthreshold huint8 hdistinct hrange hperm hsorted

/-- C10 on five operators with the operating indexes `5, 1, 3`. -/
theorem c10_finalSigningGroup_compact_witness :
    ∃ (ops : List Address) (m : IndexMap),
      finalSigningGroup ["A", "B", "C", "D", "E"] [5, 1, 3]
          { GroupSize := 5, GroupQuorum := 4, HonestThreshold := 3,
            ResultPublicationBlockStep := 1 }
        = .ret ⟨some ops, some m, none⟩ ∧
      ops.length = ([1, 3, 5] : List MemberIndex).length ∧
      (∀ i (hi : i < ([1, 3, 5] : List MemberIndex).length),
        ([1, 3, 5] : List MemberIndex)[i] - 1
            < (["A", "B", "C", "D", "E"] : List Address).length ∧
          ops[i]? = (["A", "B", "C", "D", "E"] : List Address)[
            ([1, 3, 5] : List MemberIndex)[i] - 1]?) ∧
      (∀ k, (m k).isSome = true ↔ k ∈ ([5, 1, 3] : List MemberIndex)) ∧
      (∀ i (hi : i < ([1, 3, 5] : List MemberIndex).length),
        m ([1, 3, 5] : List MemberIndex)[i] = some (i + 1)) :=
  c10_finalSigningGroup_compact ["A", "B", "C", "D", "E"] [5, 1, 3]
    { GroupSize := 5, GroupQuorum := 4, HonestThreshold := 3,
      ResultPublicationBlockStep := 1 }
    [1, 3, 5] (by decide) (by decide) (by decide) (by decide) (by decide) (by decide)
    (by decide)

/-- C11 (as stated) fails: with five selected operators, `GroupSize = 5`,
`HonestThreshold = 3` and the operating indexes `0, 1, 2` the validation
passes, `operatingMemberID-1` wraps to `255` for the index `0`, and
`selectedOperators[255]` is out of range: the call panics instead of
returning. -/
theorem c11_finalSigningGroup_panics_on_zero :
    finalSigningGroup ["A", "B", "C", "D", "E"] [0, 1, 2]
        { GroupSize := 5, GroupQuorum := 4, HonestThreshold := 3,
          ResultPublicationBlockStep := 1 } = Run.panic ∧
    ¬ ∃ r, finalSigningGroup ["A", "B", "C", "D", "E"] [0, 1, 2]
        { GroupSize := 5, GroupQuorum := 4, HonestThreshold := 3,
          ResultPublicationBlockStep := 1 } = Run.ret r := by
  have h : finalSigningGroup ["A", "B", "C", "D", "E"] [0, 1, 2]
        { GroupSize := 5, GroupQuorum := 4, HonestThreshold := 3,
          ResultPublicationBlockStep := 1 } = Run.panic := rfl
  refine ⟨h, ?_⟩
  rintro ⟨r, hr⟩
  rw [h] at hr
  exact absurd hr (by simp)

/-- C11 (amended): `finalSigningGroup` panics exactly when the validation
passes and some operating index is out of range for `selectedOperators`,
that is, greater than `GroupSize`, or `0` while `GroupSize` is at most `255`;
in every other case (validation fails, or every index is in range, duplicates
included) it returns control to the caller with a result or an error. -/
theorem c11_finalSigningGroup_panics_iff (selectedOperators : List Address)
    (operatingMembersIndexes : List MemberIndex) (chainConfig : ChainConfig)
    (huint8 : ∀ k ∈ operatingMembersIndexes, k < 256) :
    (finalSigningGroup selectedOperators operatingMembersIndexes chainConfig = .panic ↔
      ((selectedOperators.length : Int) = chainConfig.GroupSize ∧
        chainConfig.HonestThreshold ≤ (operatingMembersIndexes.length : Int) ∧
        ∃ k ∈ operatingMembersIndexes,
          (k = 0 ∧ selectedOperators.length < 256) ∨ selectedOperators.length < k)) ∧
    ((∃ r, finalSigningGroup selectedOperators operatingMembersIndexes chainConfig
        = .ret r) ↔
      ¬ ((selectedOperators.length : Int) = chainConfig.GroupSize ∧
        chainConfig.HonestThreshold ≤ (operatingMembersIndexes.length : Int) ∧
        ∃ k ∈ operatingMembersIndexes,
          (k = 0 ∧ selectedOperators.length < 256) ∨ selectedOperators.length < k)) := by
  have hmain : finalSigningGroup selectedOperators operatingMembersIndexes chainConfig
        = .panic ↔
      ((selectedOperators.length : Int) = chainConfig.GroupSize ∧
        chainConfig.HonestThreshold ≤ (operatingMembersIndexes.length : Int) ∧
        ∃ k ∈ operatingMembersIndexes,
          (k = 0 ∧ selectedOperators.length < 256) ∨ selectedOperators.length < k) := by
    by_cases hc : ((selectedOperators.length : Int) ≠ chainConfig.GroupSize ∨
        (operatingMembersIndexes.length : Int) < chainConfig.HonestThreshold)
    · have hret : finalSigningGroup selectedOperators operatingMembersIndexes chainConfig
          = .ret ⟨none, none, some "invalid input parameters"⟩ := by
        unfold finalSigningGroup
        rw [if_pos hc]
      rw [hret]
      constructor
      · intro h
        exact absurd h (by simp)
      · rintro ⟨h1, h2, _⟩
        omega
    · have hv1 : (selectedOperators.length : Int) = chainConfig.GroupSize := by omega
      have hv2 : chainConfig.HonestThreshold ≤ (operatingMembersIndexes.length : Int) := by
        omega
      rw [finalSigningGroup_valid _ _ _ hc]
      have hperm := sortSlice_perm (fun a b : MemberIndex => decide (a < b))
        operatingMembersIndexes
      by_cases hbad : ∃ k ∈ operatingMembersIndexes,
          (k = 0 ∧ selectedOperators.length < 256) ∨ selectedOperators.length < k
      · obtain ⟨k, hk, hkbad⟩ := hbad
        rw [finalSigningGroupLoop_panic selectedOperators _ _ _ _
          ⟨k, hperm.mem_iff.2 hk,
            (index_in_range_iff selectedOperators.length k (huint8 k hk)).2 hkbad⟩]
        exact ⟨fun _ => ⟨hv1, hv2, k, hk, hkbad⟩, fun _ => rfl⟩
      · obtain ⟨ops, m, hret, _⟩ :=
          finalSigningGroupLoop_ret selectedOperators
            (sortSlice (fun a b : MemberIndex => decide (a < b)) operatingMembersIndexes) 0
            (List.replicate
              (sortSlice (fun a b : MemberIndex => decide (a < b))
                operatingMembersIndexes).length "")
            IndexMap.empty
            (fun k hk => by
              have hk2 := hperm.mem_iff.1 hk
              by_contra hout
              exact hbad ⟨k, hk2,
                (index_in_range_iff selectedOperators.length k (huint8 k hk2)).1 hout⟩)
            (by simp)
        rw [hret]
        constructor
        · intro h
          exact absurd h (by simp)
        · rintro ⟨_, _, h⟩
          exact absurd h hbad
  refine ⟨hmain, ?_⟩
  rw [← hmain]
  cases hfs : finalSigningGroup selectedOperators operatingMembersIndexes chainConfig with
  | panic => simp
  | ret r => simp

/-- C11 (amended) at the operating indexes `0, 1, 2` of five operators. -/
theorem c11_finalSigningGroup_panics_iff_witness :
    (∀ k ∈ ([0, 1, 2] : List MemberIndex), k < 256) ∧
    (finalSigningGroup ["A", "B", "C", "D", "E"] [0, 1, 2]
        { GroupSize := 5, GroupQuorum := 4, HonestThreshold := 3,
          ResultPublicationBlockStep := 1 } = .panic ↔
      (((["A", "B", "C", "D", "E"] : List Address).length : Int) = 5 ∧
        (3 : Int) ≤ (([0, 1, 2] : List MemberIndex).length : Int) ∧
        ∃ k ∈ ([0, 1, 2] : List MemberIndex),
          (k = 0 ∧ (["A", "B", "C", "D", "E"] : List Address).length < 256) ∨
            (["A", "B", "C", "D", "E"] : List Address).length < k)) :=
  ⟨by decide,
    (c11_finalSigningGroup_panics_iff ["A", "B", "C", "D", "E"] [0, 1, 2]
      { GroupSize := 5, GroupQuorum := 4, HonestThreshold := 3,
        ResultPublicationBlockStep := 1 } (by decide)).1⟩

/-- C12: the index map returned by `finalSigningGroup` is a dense,
order-preserving renumbering. For every valid input with `n` distinct
operating indexes in `[1, GroupSize]` the map is injective, its values are
exactly `1, ..., n`, `k1 < k2` implies `map[k1] < map[k2]`, and for every
operating index `k`, `signingGroupOperators[map[k]-1] = selectedOperators[k-1]`. -/
theorem c12_finalSigningGroup_dense_renumbering (selectedOperators : List Address)
    (operatingMembersIndexes : List MemberIndex) (chainConfig : ChainConfig)
    (hsize : (selectedOperators.length : Int) = chainConfig.GroupSize)
    (hthreshold : chainConfig.HonestThreshold ≤ (operatingMembersIndexes.length : Int))
    (huint8 : ∀ k ∈ operatingMembersIndexes, k < 256)
    (hdistinct : operatingMembersIndexes.Nodup)
    (hrange : ∀ k ∈ operatingMembersIndexes, 1 ≤ k ∧ (k : Int) ≤ chainConfig.GroupSize) :
    ∃ (ops : List Address) (m : IndexMap),
      finalSigningGroup selectedOperators operatingMembersIndexes chainConfig
        = .ret ⟨some ops, some m, none⟩ ∧
      (∀ k1 k2 v, m k1 = some v → m k2 = some v → k1 = k2) ∧
      (∀ v, (∃ k, m k = some v) ↔ (1 ≤ v ∧ v ≤ operatingMembersIndexes.length)) ∧
      (∀ k1 k2 v1 v2, m k1 = some v1 → m k2 = some v2 → k1 < k2 → v1 < v2) ∧
      (∀ k ∈ operatingMembersIndexes, ∃ v, m k = some v ∧ 1 ≤ v ∧
        k - 1 < selectedOperators.length ∧ ops[v - 1]? = selectedOperators[k - 1]?) := by
  have hperm := sortSlice_perm (fun a b : MemberIndex => decide (a < b))
    operatingMembersIndexes
  have hsorted := sortSlice_sorted operatingMembersIndexes
  obtain ⟨ops, m, hret, _, hget, hkeys, hval⟩ :=
    finalSigningGroup_compact_spec selectedOperators operatingMembersIndexes chainConfig
      _ hsize hthreshold huint8 hdistinct hrange hperm hsorted
  generalize sortSlice (fun a b : MemberIndex => decide (a < b))
    operatingMembersIndexes = s at hperm hsorted hget hval
  have hlen : s.length = operatingMembersIndexes.length := hperm.length_eq
  have hnd : s.Nodup := hperm.nodup_iff.2 hdistinct
  have hlt : s.Sorted (· < ·) := hsorted.lt_of_le hnd
  have hpos : ∀ k v, m k = some v → ∃ (i : Nat) (hi : i < s.length), s[i] = k ∧ v = i + 1 := by
    intro k v hkv
    have hk : k ∈ s := hperm.mem_iff.2 ((hkeys k).1 (by rw [hkv]; rfl))
    obtain ⟨i, hi, e⟩ := List.mem_iff_getElem.1 hk
    refine ⟨i, hi, e, ?_⟩
    have h2 := hval i hi
    rw [e, hkv] at h2
    exact Option.some.inj h2
  refine ⟨ops, m, hret, ?_, ?_, ?_, ?_⟩
  · intro k1 k2 v h1 h2
    obtain ⟨i1, hi1, e1, ev1⟩ := hpos k1 v h1
    obtain ⟨i2, hi2, e2, ev2⟩ := hpos k2 v h2
    have : i1 = i2 := by unfold MemberIndex at *; omega
    subst this
    rw [← e1, ← e2]
  · intro v
    constructor
    · rintro ⟨k, hk⟩
      obtain ⟨i, hi, _, ev⟩ := hpos k v hk
      unfold MemberIndex at *
      omega
    · rintro ⟨h1, h2⟩
      have hi : v - 1 < s.length := by unfold MemberIndex at *; omega
      refine ⟨s[v - 1], ?_⟩
      rw [hval (v - 1) hi]
      congr 1
      unfold MemberIndex at *
      omega
  · intro k1 k2 v1 v2 h1 h2 hk
    obtain ⟨i1, hi1, e1, ev1⟩ := hpos k1 v1 h1
    obtain ⟨i2, hi2, e2, ev2⟩ := hpos k2 v2 h2
    have hij : i1 < i2 := by
      by_contra hcon
      rcases Nat.lt_or_ge i2 i1 with h | h
      · have := List.pairwise_iff_getElem.1 hlt i2 i1 hi2 hi1 h
        rw [e1, e2] at this
        unfold MemberIndex at *
        omega
      · have : i1 = i2 := by omega
        subst this
        rw [e1] at e2
        unfold MemberIndex at *
        omega
    unfold MemberIndex at *
    omega
  · intro k hk
    obtain ⟨i, hi, e⟩ := List.mem_iff_getElem.1 (hperm.mem_iff.2 hk)
    have h1 := hget i hi
    rw [e] at h1
    refine ⟨i + 1, ?_, Nat.le_add_left 1 i, h1.1, ?_⟩
    · rw [← e]
      exact hval i hi
    · rw [Nat.add_sub_cancel]
      exact h1.2

/-- C12 on five operators with the operating indexes `5, 1, 3`. -/
theorem c12_finalSigningGroup_dense_renumbering_witness :
    ∃ (ops : List Address) (m : IndexMap),
      finalSigningGroup ["A", "B", "C", "D", "E"] [5, 1, 3]
          { GroupSize := 5, GroupQuorum := 4, HonestThreshold := 3,
            ResultPublicationBlockStep := 1 }
        = .ret ⟨some ops, some m, none⟩ ∧
      (∀ k1 k2 v, m k1 = some v → m k2 = some v → k1 = k2) ∧
      (∀ v, (∃ k, m k = some v) ↔ (1 ≤ v ∧ v ≤ ([5, 1, 3] : List MemberIndex).length)) ∧
      (∀ k1 k2 v1 v2, m k1 = some v1 → m k2 = some v2 → k1 < k2 → v1 < v2) ∧
      (∀ k ∈ ([5, 1, 3] : List MemberIndex), ∃ v, m k = some v ∧ 1 ≤ v ∧
        k - 1 < (["A", "B", "C", "D", "E"] : List Address).length ∧
        ops[v - 1]? = (["A", "B", "C", "D", "E"] : List Address)[k - 1]?) :=
  c12_finalSigningGroup_dense_renumbering ["A", "B", "C", "D", "E"] [5, 1, 3]
    { GroupSize := 5, GroupQuorum := 4, HonestThreshold := 3,
      ResultPublicationBlockStep := 1 }
    (by decide) (by decide) (by decide) (by decide) (by decide)

/-! ## Lemmas and claims on result submission -/

theorem uint8_sub_one_uint64 (k : Nat) (hk1 : 1 ≤ k) (hk : k < 256) :
    (k + uint64Size - 1) % uint64Size = k - 1 := by
  unfold uint64Size
  omega

theorem eligibleBlockHeight_eq (step start k : Nat) (hk1 : 1 ≤ k) (hk : k < 256) :
    eligibleBlockHeight step start k = (start + (k - 1) * step) % uint64Size := by
  unfold eligibleBlockHeight
  simp only [uint8_sub_one_uint64 k hk1 hk, Nat.add_mod_mod]

/-- C13: the block height for which `setupEligibilityQueue` requests a waiter
is `startBlockNumber + (memberIndex - 1) * ResultPublicationBlockStep` in
`uint64` arithmetic, for every member index `k >= 1` (no other height is ever
requested, and the request is made whenever `BlockCounter()` succeeds); for
member index `1` it is `startBlockNumber`. -/
theorem c13_eligible_block_height (chain : Chain) (startBlockNumber : Nat)
    (memberIndex : MemberIndex) (hk1 : 1 ≤ memberIndex) (huint8 : memberIndex < 256) :
    (chain.BlockCounter = none →
      (setupEligibilityQueue chain startBlockNumber memberIndex).1 =
        [.BlockCounter, .BlockHeightWaiter
          ((startBlockNumber +
            (memberIndex - 1) * chain.GetConfig.ResultPublicationBlockStep) % 2 ^ 64)]) ∧
    (∀ h, ChainCall.BlockHeightWaiter h ∈
        (setupEligibilityQueue chain startBlockNumber memberIndex).1 →
      h = (startBlockNumber +
        (memberIndex - 1) * chain.GetConfig.ResultPublicationBlockStep) % 2 ^ 64) ∧
    (memberIndex = 1 → startBlockNumber < 2 ^ 64 →
      (setupEligibilityQueue chain startBlockNumber memberIndex).1 =
          [.BlockCounter] ∨
      (setupEligibilityQueue chain startBlockNumber memberIndex).1 =
          [.BlockCounter, .BlockHeightWaiter startBlockNumber]) := by
  have hH := eligibleBlockHeight_eq chain.GetConfig.ResultPublicationBlockStep
    startBlockNumber memberIndex hk1 huint8
  have h64 : uint64Size = 2 ^ 64 := rfl
  rw [h64] at hH
  refine ⟨?_, ?_, ?_⟩
  · intro hc
    simp only [setupEligibilityQueue, hc, hH]
    cases chain.BlockHeightWaiter ((startBlockNumber +
      (memberIndex - 1) * chain.GetConfig.ResultPublicationBlockStep) % 2 ^ 64) <;> rfl
  · intro h hmem
    simp only [setupEligibilityQueue, hH] at hmem
    generalize (startBlockNumber +
      (memberIndex - 1) * chain.GetConfig.ResultPublicationBlockStep) % 2 ^ 64 = H at hmem ⊢
    cases hc : chain.BlockCounter with
    | some err => simp [hc] at hmem
    | none =>
      cases hw : chain.BlockHeightWaiter H <;> simpa [hc, hw] using hmem
  · intro h1 hs
    subst h1
    have hH1 : (startBlockNumber +
        (1 - 1) * chain.GetConfig.ResultPublicationBlockStep) % 2 ^ 64 = startBlockNumber := by
      simp only [Nat.sub_self, Nat.zero_mul, Nat.add_zero]
      exact Nat.mod_eq_of_lt hs
    rw [hH1] at hH
    simp only [setupEligibilityQueue, hH]
    cases chain.BlockCounter with
    | some err => exact Or.inl rfl
    | none =>
      right
      cases chain.BlockHeightWaiter startBlockNumber <;> rfl

/-- C13 for member index `3`, start block `100` and step `10`. -/
theorem c13_eligible_block_height_witness :
    (1 ≤ (3 : MemberIndex)) ∧ ((3 : MemberIndex) < 256) ∧ exampleChain.BlockCounter = none ∧
    (setupEligibilityQueue exampleChain 100 3).1 =
      [.BlockCounter, .BlockHeightWaiter
        ((100 + (3 - 1) * exampleChain.GetConfig.ResultPublicationBlockStep) % 2 ^ 64)] :=
  ⟨by decide, by decide, rfl,
    (c13_eligible_block_height exampleChain 100 3 (by decide) (by decide)).1 rfl⟩

/-- C14: `SubmitResult` returns an error before any chain subscription, state
query or submission (no chain call made) if and only if
`len(signatures) < HonestThreshold`; with
`len(signatures) >= HonestThreshold` the check passes and the run goes on to
subscribe. -/
theorem c14_submitResult_threshold_check (chain : Chain) (served : SubmitSelect)
    (memberIndex : MemberIndex) (result : Result) (signatures : Signatures)
    (startBlockNumber : Nat) :
    (((SubmitResult chain served memberIndex result signatures startBlockNumber).2.isSome
          = true ∧
        (SubmitResult chain served memberIndex result signatures startBlockNumber).1 = []) ↔
      (signatures.length : Int) < chain.GetConfig.HonestThreshold) ∧
    (chain.GetConfig.HonestThreshold ≤ (signatures.length : Int) →
      (SubmitResult chain served memberIndex result signatures startBlockNumber).1.head?
        = some .OnDKGResultSubmitted) := by
  have hgo : chain.GetConfig.HonestThreshold ≤ (signatures.length : Int) →
      (SubmitResult chain served memberIndex result signatures startBlockNumber).1.head?
        = some .OnDKGResultSubmitted := by
    intro h
    have hn : ¬ (signatures.length : Int) < chain.GetConfig.HonestThreshold := by omega
    unfold SubmitResult
    rw [if_neg hn]
    split
    · rfl
    · split
      · rfl
      · split
        · rfl
        · split
          · split <;> rfl
          · rfl
  refine ⟨⟨?_, ?_⟩, hgo⟩
  · rintro ⟨_, hnil⟩
    by_contra hn
    have := hgo (by omega)
    rw [hnil] at this
    exact absurd this (by simp)
  · intro h
    unfold SubmitResult
    rw [if_pos h]
    exact ⟨rfl, rfl⟩

/-- C14 with three signatures against the honest threshold `3`. -/
theorem c14_submitResult_threshold_check_witness :
    exampleChain.GetConfig.HonestThreshold ≤ (([(1, []), (2, []), (3, [])] :
      Signatures).length : Int) ∧
    (SubmitResult exampleChain (.resultSubmittedChan 7) 1 exampleResult
      [(1, []), (2, []), (3, [])] 100).1.head? = some .OnDKGResultSubmitted :=
  ⟨by decide,
    (c14_submitResult_threshold_check exampleChain (.resultSubmittedChan 7) 1 exampleResult
      [(1, []), (2, []), (3, [])] 100).2 (by decide)⟩

/-- C15: for every call of `SubmitResult` with enough signatures in which
`GetDKGState` succeeds and reports a state other than `AwaitingResult`,
`SubmitResult` returns nil; it subscribes, queries the state and unsubscribes,
and neither calls `SubmitDKGResult` nor sets up the eligibility waiter. -/
theorem c15_submitResult_not_awaiting (chain : Chain) (served : SubmitSelect)
    (memberIndex : MemberIndex) (result : Result) (signatures : Signatures)
    (startBlockNumber : Nat) (dkgState : DKGState)
    (henough : chain.GetConfig.HonestThreshold ≤ (signatures.length : Int))
    (hstate : chain.GetDKGState = (dkgState, none))
    (hother : dkgState ≠ DKGState.AwaitingResult) :
    SubmitResult chain served memberIndex result signatures startBlockNumber
      = ([.OnDKGResultSubmitted, .GetDKGState, .Unsubscribe], none) ∧
    (∀ c ∈ (SubmitResult chain served memberIndex result signatures startBlockNumber).1,
      c.isSubmitDKGResult = false ∧ c ≠ .BlockCounter ∧ ∀ h, c ≠ .BlockHeightWaiter h) := by
  have hn : ¬ (signatures.length : Int) < chain.GetConfig.HonestThreshold := by omega
  have e : SubmitResult chain served memberIndex result signatures startBlockNumber
      = ([.OnDKGResultSubmitted, .GetDKGState, .Unsubscribe], none) := by
    unfold SubmitResult
    rw [if_neg hn, hstate]
    simp only [hother, ne_eq, not_false_eq_true, if_true]
  refine ⟨e, ?_⟩
  rw [e]
  intro c hc
  simp only [List.mem_cons, List.mem_singleton, List.not_mem_nil, or_false] at hc
  rcases hc with hc | hc | hc <;> subst hc <;> simp [ChainCall.isSubmitDKGResult]

/-- C15 on a chain whose DKG state is `Idle`. -/
theorem c15_submitResult_not_awaiting_witness :
    SubmitResult { exampleChain with GetDKGState := (DKGState.Idle, none) }
        (.submitterEligibleChan 120) 3 exampleResult [(1, []), (2, []), (3, [])] 100
      = ([.OnDKGResultSubmitted, .GetDKGState, .Unsubscribe], none) :=
  (c15_submitResult_not_awaiting { exampleChain with GetDKGState := (DKGState.Idle, none) }
    (.submitterEligibleChan 120) 3 exampleResult [(1, []), (2, []), (3, [])] 100
    DKGState.Idle (by decide) rfl (by decide)).1

theorem setupEligibilityQueue_no_submit (chain : Chain) (startBlockNumber : Nat)
    (memberIndex : MemberIndex) :
    ∀ c ∈ (setupEligibilityQueue chain startBlockNumber memberIndex).1,
      c.isSubmitDKGResult = false := by
  intro c hc
  unfold setupEligibilityQueue at hc
  cases hb : chain.BlockCounter with
  | some err =>
    simp only [hb, List.mem_singleton] at hc
    subst hc
    rfl
  | none =>
    simp only [hb] at hc
    split at hc <;>
      · simp only [List.mem_cons, List.mem_singleton, List.not_mem_nil, or_false] at hc
        rcases hc with hc | hc <;> subst hc <;> rfl

theorem filter_isSubmit_eq_nil (calls : List ChainCall)
    (h : ∀ c ∈ calls, c.isSubmitDKGResult = false) :
    calls.filter ChainCall.isSubmitDKGResult = [] := by
  rw [List.filter_eq_nil_iff]
  intro c hc
  simp [h c hc]

theorem no_submit_framed (calls tail : List ChainCall)
    (hq : ∀ c ∈ calls, c.isSubmitDKGResult = false)
    (ht : ∀ c ∈ tail, c.isSubmitDKGResult = false) :
    ∀ c ∈ [ChainCall.OnDKGResultSubmitted, ChainCall.GetDKGState] ++ calls ++ tail,
      c.isSubmitDKGResult = false := by
  intro c hc
  simp only [List.mem_append, List.mem_cons, List.mem_singleton, List.not_mem_nil,
    or_false] at hc
  rcases hc with (hc | hc) | hc
  · rcases hc with hc | hc <;> subst hc <;> rfl
  · exact hq c hc
  · exact ht c hc

/-- The runs of `SubmitResult`: either no call is a `SubmitDKGResult`, or the
waiter was served, the key bytes were available and the trace ends with
unsubscribe, submit, unsubscribe. -/
theorem submitResult_runs (chain : Chain) (served : SubmitSelect)
    (memberIndex : MemberIndex) (result : Result) (signatures : Signatures)
    (startBlockNumber : Nat) :
    (∀ c ∈ (SubmitResult chain served memberIndex result signatures startBlockNumber).1,
      c.isSubmitDKGResult = false) ∨
    ((∃ blockNumber, served = .submitterEligibleChan blockNumber) ∧
      SubmitResult chain served memberIndex result signatures startBlockNumber =
        ([.OnDKGResultSubmitted, .GetDKGState] ++
          (setupEligibilityQueue chain startBlockNumber memberIndex).1 ++
          [.Unsubscribe, .SubmitDKGResult memberIndex result signatures, .Unsubscribe],
          chain.SubmitDKGResult memberIndex result signatures)) := by
  have hq := setupEligibilityQueue_no_submit chain startBlockNumber memberIndex
  by_cases hn : (signatures.length : Int) < chain.GetConfig.HonestThreshold
  · left
    simp only [SubmitResult, if_pos hn]
    intro c hc
    exact absurd hc (by simp)
  · rcases hst : chain.GetDKGState with ⟨st, _ | err⟩
    · by_cases hs : st = DKGState.AwaitingResult
      · subst hs
        rcases hse : setupEligibilityQueue chain startBlockNumber memberIndex with
          ⟨calls, _ | err⟩
        · rw [hse] at hq
          cases served with
          | submitterEligibleChan b =>
            rcases hk : result.GroupPublicKeyBytes with ⟨bytes, _ | err⟩
            · right
              refine ⟨⟨b, rfl⟩, ?_⟩
              simp only [SubmitResult, if_neg hn, hst, hse, hk, ne_eq, not_true_eq_false,
                if_false]
            · left
              simp only [SubmitResult, if_neg hn, hst, hse, hk, ne_eq, not_true_eq_false,
                if_false]
              exact no_submit_framed calls _ hq (by
                intro c hc
                simp only [List.mem_cons, List.mem_singleton, List.not_mem_nil,
                  or_false] at hc
                rcases hc with hc | hc <;> subst hc <;> rfl)
          | resultSubmittedChan b =>
            left
            simp only [SubmitResult, if_neg hn, hst, hse, ne_eq, not_true_eq_false,
              if_false]
            exact no_submit_framed calls _ hq (by
              intro c hc
              simp only [List.mem_singleton] at hc
              subst hc
              rfl)
        · rw [hse] at hq
          left
          simp only [SubmitResult, if_neg hn, hst, hse, ne_eq, not_true_eq_false,
            if_false]
          exact no_submit_framed calls _ hq (by
            intro c hc
            simp only [List.mem_singleton] at hc
            subst hc
            rfl)
      · left
        simp only [SubmitResult, if_neg hn, hst, ne_eq, hs, not_false_eq_true, if_true]
        intro c hc
        simp only [List.mem_cons, List.mem_singleton, List.not_mem_nil, or_false] at hc
        rcases hc with hc | hc | hc <;> subst hc <;> rfl
    · left
      simp only [SubmitResult, if_neg hn, hst]
      intro c hc
      simp only [List.mem_cons, List.mem_singleton, List.not_mem_nil, or_false] at hc
      rcases hc with hc | hc | hc <;> subst hc <;> rfl

/-- C16: in `SubmitResult`, if the `select` is served by the result-submitted
event of another member, `SubmitDKGResult` is not called and, the `select`
having been reached, nil is returned. A call of `SubmitDKGResult` happens only
when the eligibility waiter is served first; it is then the only such call,
its arguments are the given `memberIndex`, `result` and `signatures`, and its
return value is the return value of `SubmitResult`. When the waiter is served
first and the public key bytes are available the call is made. -/
theorem c16_submitResult_race (chain : Chain) (served : SubmitSelect)
    (memberIndex : MemberIndex) (result : Result) (signatures : Signatures)
    (startBlockNumber : Nat) :
    (∀ blockNumber, served = .resultSubmittedChan blockNumber →
      (∀ c ∈ (SubmitResult chain served memberIndex result signatures startBlockNumber).1,
        c.isSubmitDKGResult = false) ∧
      (chain.GetConfig.HonestThreshold ≤ (signatures.length : Int) →
        chain.GetDKGState = (DKGState.AwaitingResult, none) →
        (setupEligibilityQueue chain startBlockNumber memberIndex).2 = none →
        (SubmitResult chain served memberIndex result signatures startBlockNumber).2
          = none)) ∧
    (∀ c ∈ (SubmitResult chain served memberIndex result signatures startBlockNumber).1,
      c.isSubmitDKGResult = true →
        (∃ blockNumber, served = .submitterEligibleChan blockNumber) ∧
        c = .SubmitDKGResult memberIndex result signatures ∧
        ((SubmitResult chain served memberIndex result signatures startBlockNumber).1.filter
          ChainCall.isSubmitDKGResult).length = 1 ∧
        (SubmitResult chain served memberIndex result signatures startBlockNumber).2
          = chain.SubmitDKGResult memberIndex result signatures) ∧
    (∀ blockNumber, served = .submitterEligibleChan blockNumber →
      chain.GetConfig.HonestThreshold ≤ (signatures.length : Int) →
      chain.GetDKGState = (DKGState.AwaitingResult, none) →
      (setupEligibilityQueue chain startBlockNumber memberIndex).2 = none →
      result.GroupPublicKeyBytes.2 = none →
      ChainCall.SubmitDKGResult memberIndex result signatures ∈
        (SubmitResult chain served memberIndex result signatures startBlockNumber).1) := by
  have hq := setupEligibilityQueue_no_submit chain startBlockNumber memberIndex
  have hruns := submitResult_runs chain served memberIndex result signatures startBlockNumber
  refine ⟨?_, ?_, ?_⟩
  · intro blockNumber hserved
    refine ⟨?_, ?_⟩
    · rcases hruns with h | ⟨⟨b, hb⟩, _⟩
      · exact h
      · rw [hserved] at hb
        exact absurd hb (by simp)
    · intro henough hstate hsetup
      have hn : ¬ (signatures.length : Int) < chain.GetConfig.HonestThreshold := by omega
      rcases hse : setupEligibilityQueue chain startBlockNumber memberIndex with
        ⟨calls, _ | err⟩
      · simp only [SubmitResult, if_neg hn, hstate, hse, hserved, ne_eq, not_true_eq_false,
          if_false]
      · rw [hse] at hsetup
        exact absurd hsetup (by simp)
  · intro c hc hsub
    rcases hruns with h | ⟨hb, e⟩
    · rw [h c hc] at hsub
      exact absurd hsub (by simp)
    · rw [e] at hc ⊢
      refine ⟨hb, ?_, ?_, rfl⟩
      · simp only [List.mem_append, List.mem_cons, List.mem_singleton, List.not_mem_nil,
          or_false] at hc
        rcases hc with (hc | hc) | hc | hc | hc
        · rcases hc with hc | hc <;> subst hc <;> simp [ChainCall.isSubmitDKGResult] at hsub
        · rw [hq c hc] at hsub
          exact absurd hsub (by simp)
        · subst hc
          simp [ChainCall.isSubmitDKGResult] at hsub
        · exact hc
        · subst hc
          simp [ChainCall.isSubmitDKGResult] at hsub
      · simp only [List.filter_append, filter_isSubmit_eq_nil _ hq]
        simp [List.filter, ChainCall.isSubmitDKGResult]
  · intro blockNumber hserved henough hstate hsetup hbytes
    have hn : ¬ (signatures.length : Int) < chain.GetConfig.HonestThreshold := by omega
    rcases hse : setupEligibilityQueue chain startBlockNumber memberIndex with
      ⟨calls, _ | err⟩
    · rcases hk : result.GroupPublicKeyBytes with ⟨bytes, _ | err⟩
      · simp only [SubmitResult, if_neg hn, hstate, hse, hserved, hk, ne_eq,
          not_true_eq_false, if_false]
        simp
      · rw [hk] at hbytes
        exact absurd hbytes (by simp)
    · rw [hse] at hsetup
      exact absurd hsetup (by simp)

/-- C16 on the example chain: with the event served first nothing is
submitted and nil is returned. -/
theorem c16_submitResult_race_witness :
    (SubmitSelect.resultSubmittedChan 7 = .resultSubmittedChan 7) ∧
    exampleChain.GetConfig.HonestThreshold ≤ (([(1, []), (2, []), (3, [])] :
      Signatures).length : Int) ∧
    exampleChain.GetDKGState = (DKGState.AwaitingResult, none) ∧
    (setupEligibilityQueue exampleChain 100 3).2 = none ∧
    (SubmitResult exampleChain (.resultSubmittedChan 7) 3 exampleResult
      [(1, []), (2, []), (3, [])] 100).2 = none :=
  ⟨rfl, by decide, rfl, rfl,
    ((c16_submitResult_race exampleChain (.resultSubmittedChan 7) 3 exampleResult
      [(1, []), (2, []), (3, [])] 100).1 7 rfl).2 (by decide) rfl rfl⟩

/-! ## Lemmas and claims on the fate decision -/

theorem misbehavedSetLoop_eq (l : List MemberIndex) :
    ∀ (set : MemberSet) (k : MemberIndex),
      misbehavedSetLoop l set k = (set k || decide (k ∈ l)) := by
  induction l with
  | nil => intro set k; simp [misbehavedSetLoop]
  | cons a rest ih =>
    intro set k
    rw [misbehavedSetLoop, ih]
    by_cases h : k = a
    · simp [h]
    · simp [h]

theorem operatingMemberIndexesLoop_eq (set : MemberSet) (l : List MemberIndex) :
    ∀ acc : List MemberIndex,
      operatingMemberIndexesLoop set l (some acc)
        = some (acc ++ l.filter (fun id => !set id)) := by
  induction l with
  | nil => intro acc; simp [operatingMemberIndexesLoop]
  | cons a rest ih =>
    intro acc
    by_cases h : set a = true
    · simp [operatingMemberIndexesLoop, h, ih]
    · simp [operatingMemberIndexesLoop, h, ih, Slice.append, Slice.elems]

theorem timeoutBlock_eq (config : ChainConfig) (prePublicationBlocks start : Nat) :
    timeoutBlock config prePublicationBlocks start =
      (start + prePublicationBlocks +
        (config.GroupSize % (2 ^ 64 : Int)).toNat * config.ResultPublicationBlockStep)
          % 2 ^ 64 := by
  unfold timeoutBlock uint64Size
  rw [← Nat.add_mod]
  rfl

theorem waitForDkgResultEvent_served (chain : Chain) (prePublicationBlocks : Nat)
    (served : WaitSelect) (start : Nat)
    (hcounter : chain.BlockCounter = none)
    (hwaiter : chain.BlockHeightWaiter
      (timeoutBlock chain.GetConfig prePublicationBlocks start) = none) :
    waitForDkgResultEvent chain prePublicationBlocks served start =
      match served with
      | .dkgResultChannel dkgResultEvent =>
        ([.BlockCounter,
          .BlockHeightWaiter (timeoutBlock chain.GetConfig prePublicationBlocks start)],
          some dkgResultEvent, none)
      | .timeoutBlockChannel =>
        ([.BlockCounter,
          .BlockHeightWaiter (timeoutBlock chain.GetConfig prePublicationBlocks start)],
          none, some "ECDSA DKG result publication timed out") := by
  simp only [waitForDkgResultEvent, hcounter, hwaiter]

/-- C17: when the submission event arrives in time with a group public key
equal to the member's own and a `Misbehaved` list that does not contain
`memberIndex`, `decideSigningGroupMemberFate` returns no error and the list
`result.Group.MemberIDs()` in its original order with exactly the indexes of
the event's `Misbehaved` list removed. -/
theorem c17_fate_keeps_non_misbehaved (chain : Chain) (prePublicationBlocks : Nat)
    (dkgResultEvent : DKGResultSubmittedEvent) (memberIndex : MemberIndex)
    (publicationStartBlock : Nat) (result : Result)
    (hcounter : chain.BlockCounter = none)
    (hwaiter : chain.BlockHeightWaiter
      (timeoutBlock chain.GetConfig prePublicationBlocks publicationStartBlock) = none)
    (hkey : result.GroupPublicKeyBytes = (dkgResultEvent.GroupPublicKeyBytes, none))
    (hmember : memberIndex ∉ dkgResultEvent.Misbehaved) :
    decideSigningGroupMemberFate chain prePublicationBlocks
        (.dkgResultChannel dkgResultEvent) memberIndex publicationStartBlock result =
      .ret ([.BlockCounter,
          .BlockHeightWaiter
            (timeoutBlock chain.GetConfig prePublicationBlocks publicationStartBlock)],
        some (result.MemberIDs.filter (fun id => !decide (id ∈ dkgResultEvent.Misbehaved))),
        none) := by
  unfold decideSigningGroupMemberFate
  rw [waitForDkgResultEvent_served chain _ _ _ hcounter hwaiter]
  simp only [hkey, ne_eq, not_true_eq_false, if_false, misbehavedSetLoop_eq,
    Bool.false_or, hmember, decide_False, Bool.false_eq_true, Slice.makeEmpty,
    operatingMemberIndexesLoop_eq, List.nil_append]

/-- C17 on the example chain: members `1..5`, misbehaved `2` and `4`, the
member `3` stays with `1, 3, 5`. -/
theorem c17_fate_keeps_non_misbehaved_witness :
    decideSigningGroupMemberFate exampleChain 20
        (.dkgResultChannel
          { GroupPublicKeyBytes := [4, 2], Misbehaved := [4, 2], BlockNumber := 130 })
        3 100 exampleResult =
      .ret ([.BlockCounter, .BlockHeightWaiter (timeoutBlock exampleChain.GetConfig 20 100)],
        some (exampleResult.MemberIDs.filter (fun id => !decide (id ∈ [4, 2]))), none) :=
  c17_fate_keeps_non_misbehaved exampleChain 20
    { GroupPublicKeyBytes := [4, 2], Misbehaved := [4, 2], BlockNumber := 130 }
    3 100 exampleResult rfl rfl rfl (by decide)

/-- C18: given that the submission event arrives and the local group public
key bytes can be computed, `decideSigningGroupMemberFate` succeeds if and only
if the event's group public key bytes equal the local ones and `memberIndex`
is not in the event's `Misbehaved` list; in every failing case the returned
index list is nil. -/
theorem c18_fate_success_iff (chain : Chain) (prePublicationBlocks : Nat)
    (dkgResultEvent : DKGResultSubmittedEvent) (memberIndex : MemberIndex)
    (publicationStartBlock : Nat) (result : Result) (groupPublicKeyBytes : List Nat)
    (hcounter : chain.BlockCounter = none)
    (hwaiter : chain.BlockHeightWaiter
      (timeoutBlock chain.GetConfig prePublicationBlocks publicationStartBlock) = none)
    (hkey : result.GroupPublicKeyBytes = (groupPublicKeyBytes, none)) :
    ∃ (calls : List ChainCall) (ids : Slice MemberIndex) (err : Option String),
      decideSigningGroupMemberFate chain prePublicationBlocks
        (.dkgResultChannel dkgResultEvent) memberIndex publicationStartBlock result
          = .ret (calls, ids, err) ∧
      (err = none ↔
        (groupPublicKeyBytes = dkgResultEvent.GroupPublicKeyBytes ∧
          memberIndex ∉ dkgResultEvent.Misbehaved)) ∧
      (err ≠ none → ids = none) := by
  unfold decideSigningGroupMemberFate
  rw [waitForDkgResultEvent_served chain _ _ _ hcounter hwaiter]
  simp only [hkey, misbehavedSetLoop_eq, Bool.false_or]
  by_cases hk : groupPublicKeyBytes = dkgResultEvent.GroupPublicKeyBytes
  · by_cases hm : memberIndex ∈ dkgResultEvent.Misbehaved
    · simp only [hk, ne_eq, not_true_eq_false, if_false, hm, decide_True, if_true]
      exact ⟨_, _, _, rfl, by simp, fun _ => rfl⟩
    · simp only [hk, ne_eq, not_true_eq_false, if_false, hm, decide_False,
        Bool.false_eq_true]
      exact ⟨_, _, _, rfl, by simp, fun h => absurd rfl h⟩
  · simp only [ne_eq, hk, not_false_eq_true, if_true]
    exact ⟨_, _, _, rfl, by simp, fun _ => rfl⟩

/-- C18 on the example chain with a member that is reported as misbehaving. -/
theorem c18_fate_success_iff_witness :
    ∃ (calls : List ChainCall) (ids : Slice MemberIndex) (err : Option String),
      decideSigningGroupMemberFate exampleChain 20
        (.dkgResultChannel
          { GroupPublicKeyBytes := [4, 2], Misbehaved := [4, 2], BlockNumber := 130 })
        2 100 exampleResult = .ret (calls, ids, err) ∧
      (err = none ↔
        (([4, 2] : List Nat) = (DKGResultSubmittedEvent.mk [4, 2] [4, 2] 130).GroupPublicKeyBytes ∧
          (2 : MemberIndex) ∉ (DKGResultSubmittedEvent.mk [4, 2] [4, 2] 130).Misbehaved)) ∧
      (err ≠ none → ids = none) :=
  c18_fate_success_iff exampleChain 20
    { GroupPublicKeyBytes := [4, 2], Misbehaved := [4, 2], BlockNumber := 130 }
    2 100 exampleResult [4, 2] rfl rfl rfl

/-- C19: `waitForDkgResultEvent` waits on the block height
`publicationStartBlock + dkg.PrePublicationBlocks()
+ GroupSize * ResultPublicationBlockStep` in `uint64` arithmetic (it requests
a waiter for that height and no other); if that height is reached before any
event is delivered it returns a nil event and an error, and if an event is
delivered first it returns that event and no error. -/
theorem c19_wait_timeout_block (chain : Chain) (prePublicationBlocks : Nat)
    (served : WaitSelect) (publicationStartBlock : Nat) :
    (chain.BlockCounter = none →
      (waitForDkgResultEvent chain prePublicationBlocks served publicationStartBlock).1 =
        [.BlockCounter, .BlockHeightWaiter
          ((publicationStartBlock + prePublicationBlocks +
            (chain.GetConfig.GroupSize % (2 ^ 64 : Int)).toNat *
              chain.GetConfig.ResultPublicationBlockStep) % 2 ^ 64)]) ∧
    (∀ h, ChainCall.BlockHeightWaiter h ∈
        (waitForDkgResultEvent chain prePublicationBlocks served publicationStartBlock).1 →
      h = (publicationStartBlock + prePublicationBlocks +
            (chain.GetConfig.GroupSize % (2 ^ 64 : Int)).toNat *
              chain.GetConfig.ResultPublicationBlockStep) % 2 ^ 64) ∧
    (0 ≤ chain.GetConfig.GroupSize → chain.GetConfig.GroupSize < 2 ^ 64 →
      (chain.GetConfig.GroupSize % (2 ^ 64 : Int)).toNat = chain.GetConfig.GroupSize.toNat) ∧
    (chain.BlockCounter = none →
      chain.BlockHeightWaiter
        (timeoutBlock chain.GetConfig prePublicationBlocks publicationStartBlock) = none →
      (served = .timeoutBlockChannel →
        (waitForDkgResultEvent chain prePublicationBlocks served publicationStartBlock).2
          = (none, some "ECDSA DKG result publication timed out")) ∧
      (∀ dkgResultEvent, served = .dkgResultChannel dkgResultEvent →
        (waitForDkgResultEvent chain prePublicationBlocks served publicationStartBlock).2
          = (some dkgResultEvent, none))) := by
  have hT := timeoutBlock_eq chain.GetConfig prePublicationBlocks publicationStartBlock
  refine ⟨?_, ?_, ?_, ?_⟩
  · intro hc
    simp only [waitForDkgResultEvent, hc, hT]
    generalize (publicationStartBlock + prePublicationBlocks +
      (chain.GetConfig.GroupSize % (2 ^ 64 : Int)).toNat *
        chain.GetConfig.ResultPublicationBlockStep) % 2 ^ 64 = H
    cases chain.BlockHeightWaiter H with
    | some err => rfl
    | none => cases served <;> rfl
  · intro h hmem
    simp only [waitForDkgResultEvent, hT] at hmem
    generalize (publicationStartBlock + prePublicationBlocks +
      (chain.GetConfig.GroupSize % (2 ^ 64 : Int)).toNat *
        chain.GetConfig.ResultPublicationBlockStep) % 2 ^ 64 = H at hmem ⊢
    cases hc : chain.BlockCounter with
    | some err => simp [hc] at hmem
    | none =>
      cases hw : chain.BlockHeightWaiter H with
      | some err => simpa [hc, hw] using hmem
      | none => cases served <;> simpa [hc, hw] using hmem
  · intro h0 h1
    rw [Int.emod_eq_of_lt h0 h1]
  · intro hc hw
    rw [waitForDkgResultEvent_served chain _ _ _ hc hw]
    refine ⟨?_, ?_⟩
    · intro hs
      subst hs
      rfl
    · intro e hs
      subst hs
      rfl

/-- C19 on the example chain: start block `100`, `20` pre-publication blocks,
group size `5` and step `10` give the timeout block `170`. -/
theorem c19_wait_timeout_block_witness :
    exampleChain.BlockCounter = none ∧
    (waitForDkgResultEvent exampleChain 20 .timeoutBlockChannel 100).1 =
      [.BlockCounter, .BlockHeightWaiter 170] :=
  ⟨rfl,
    ((c19_wait_timeout_block exampleChain 20 .timeoutBlockChannel 100).1 rfl).trans
      (by decide)⟩

/-! ## Lemmas and claims on the retry loop -/

/-- `qualifiedOperatorsSet` neither reads nor writes `memberIndex`. -/
theorem qualifiedOperatorsSet_memberIndex (ext : RetryExternals) (drl : dkgRetryLoop)
    (m : MemberIndex) :
    qualifiedOperatorsSet ext { drl with memberIndex := m } =
      ((qualifiedOperatorsSet ext drl).1,
        { (qualifiedOperatorsSet ext drl).2 with memberIndex := m }) := by
  unfold qualifiedOperatorsSet
  dsimp only
  split
  · rfl
  · split <;> rfl

theorem requalify_memberIndex (ext : RetryExternals) (drl : dkgRetryLoop)
    (m : MemberIndex) (d : dkgRetryLoop) (q : AddressSet)
    (h : requalify ext drl = .next d q) :
    requalify ext { drl with memberIndex := m } = .next { d with memberIndex := m } q := by
  unfold requalify at h ⊢
  rw [qualifiedOperatorsSet_memberIndex]
  rcases hq : qualifiedOperatorsSet ext drl with ⟨⟨set, _ | err⟩, d1⟩
  · rw [hq] at h
    simp only [LoopStep.next.injEq] at h
    obtain ⟨h1, h2⟩ := h
    subst h1 h2
    rfl
  · rw [hq] at h
    exact absurd h (by simp)

theorem afterAttempt_memberIndex (ext : RetryExternals) (drl : dkgRetryLoop)
    (m : MemberIndex) (ret : AttemptReturn) (d : dkgRetryLoop) (q : AddressSet)
    (h : afterAttempt ext drl ret = .next d q) :
    afterAttempt ext { drl with memberIndex := m } ret
      = .next { d with memberIndex := m } q := by
  obtain ⟨result, executionEndBlock, err⟩ := ret
  cases err with
  | none => exact absurd h (by simp [afterAttempt])
  | some e =>
    cases e with
    | InactiveMembersError idxs =>
      simp only [afterAttempt] at h ⊢
      cases hl : inactiveMembersLoop drl.selectedOperators idxs drl.inactiveOperatorsSet with
      | panic =>
        rw [hl] at h
        exact absurd h (by simp)
      | ret set =>
        rw [hl] at h
        simp only at h ⊢
        exact requalify_memberIndex ext _ m d q h
    | other msg =>
      simp only [afterAttempt] at h ⊢
      exact requalify_memberIndex ext _ m d q h

/-- When neither loop breaks, the excluded members do not depend on the
loop's own member index. -/
theorem excludedMembersLoop_not_skipped (m1 m2 : MemberIndex) (q : AddressSet)
    (l : List Address) :
    ∀ (i : Nat) (acc : List MemberIndex),
      (excludedMembersLoop m1 q i l acc).2 = false →
      (excludedMembersLoop m2 q i l acc).2 = false →
      (excludedMembersLoop m1 q i l acc).1 = (excludedMembersLoop m2 q i l acc).1 := by
  induction l with
  | nil => intro i acc _ _; rfl
  | cons op rest ih =>
    intro i acc h1 h2
    unfold excludedMembersLoop at h1 h2 ⊢
    by_cases hq : (!q.get op) = true
    · simp only [hq, if_true] at h1 h2 ⊢
      by_cases e1 : (i + 1) % 256 = m1
      · simp [e1] at h1
      · by_cases e2 : (i + 1) % 256 = m2
        · simp [e2] at h2
        · simp only [e1, e2, if_false] at h1 h2 ⊢
          exact ih _ _ h1 h2
    · simp only [hq, if_false] at h1 h2 ⊢
      exact ih _ _ h1 h2

/-- The four ways through one iteration: the context is done; the start
block computation panics; the attempt is skipped; the attempt function is
invoked. -/
theorem iteration_cases (ext : RetryExternals) (ctx : Nat → Bool)
    (f : dkgAttemptParams → AttemptReturn) (drl : dkgRetryLoop) (q : AddressSet) :
    (ctx ((drl.attemptCounter + 1) % uint64Size) = true ∧
      (iteration ext ctx f drl q).1 = ⟨q, none⟩ ∧
      ∃ err d, (iteration ext ctx f drl q).2 = .returned none 0 (some err) d) ∨
    (ctx ((drl.attemptCounter + 1) % uint64Size) = false ∧
      nextAttemptStartBlock ext
        { drl with attemptCounter := (drl.attemptCounter + 1) % uint64Size } = .panic ∧
      iteration ext ctx f drl q = (⟨q, none⟩, .panicked)) ∨
    (ctx ((drl.attemptCounter + 1) % uint64Size) = false ∧
      ∃ b, nextAttemptStartBlock ext
          { drl with attemptCounter := (drl.attemptCounter + 1) % uint64Size } = .ret b ∧
        ((∃ excl, excludedMembersLoop drl.memberIndex q 0 drl.selectedOperators []
              = (excl, true) ∧
            iteration ext ctx f drl q =
              (⟨q, none⟩,
                requalify ext
                  { drl with attemptCounter := (drl.attemptCounter + 1) % uint64Size,
                             attemptStartBlock := b })) ∨
          (∃ excl, excludedMembersLoop drl.memberIndex q 0 drl.selectedOperators []
              = (excl, false) ∧
            iteration ext ctx f drl q =
              (⟨q, some (⟨(drl.attemptCounter + 1) % uint64Size, b, excl⟩,
                  f ⟨(drl.attemptCounter + 1) % uint64Size, b, excl⟩)⟩,
                afterAttempt ext
                  { drl with attemptCounter := (drl.attemptCounter + 1) % uint64Size,
                             attemptStartBlock := b }
                  (f ⟨(drl.attemptCounter + 1) % uint64Size, b, excl⟩))))) := by
  by_cases hc : ctx ((drl.attemptCounter + 1) % uint64Size) = true
  · left
    refine ⟨hc, ?_, ?_⟩
    · simp only [iteration, hc, if_true]
    · simp only [iteration, hc, if_true]
      exact ⟨_, _, rfl⟩
  · have hc2 : ctx ((drl.attemptCounter + 1) % uint64Size) = false := by
      simpa using hc
    right
    cases hb : nextAttemptStartBlock ext
        { drl with attemptCounter := (drl.attemptCounter + 1) % uint64Size } with
    | panic =>
      left
      refine ⟨hc2, rfl, ?_⟩
      simp only [iteration, hc2, hb, Bool.false_eq_true, if_false]
    | ret b =>
      right
      refine ⟨hc2, b, rfl, ?_⟩
      rcases he : excludedMembersLoop drl.memberIndex q 0 drl.selectedOperators [] with
        ⟨excl, _ | _⟩
      · right
        refine ⟨excl, rfl, ?_⟩
        simp only [iteration, hc2, hb, he, Bool.false_eq_true, if_false]
      · left
        refine ⟨excl, rfl, ?_⟩
        simp only [iteration, hc2, hb, he, Bool.false_eq_true, if_false]

theorem iteration_record_set (ext : RetryExternals) (ctx : Nat → Bool)
    (f : dkgAttemptParams → AttemptReturn) (drl : dkgRetryLoop) (q : AddressSet) :
    (iteration ext ctx f drl q).1.qualifiedOperatorsSet = q := by
  rcases iteration_cases ext ctx f drl q with ⟨_, h, _⟩ | ⟨_, _, h⟩ | ⟨_, b, _, h⟩
  · rw [h]
  · rw [h]
  · rcases h with ⟨_, _, h⟩ | ⟨_, _, h⟩ <;> rw [h]

/-- Two loops that differ in their member index only, run one iteration from
the same qualified set (contexts and attempt functions may differ): the
parameters they pass to the attempt function are equal, and if both continue
after having been fed the same outcome they still differ in the member index
only and hold the same qualified set. -/
theorem iteration_agree (ext : RetryExternals) (ctxA ctxB : Nat → Bool)
    (fA fB : dkgAttemptParams → AttemptReturn) (drl : dkgRetryLoop) (m : MemberIndex)
    (q : AddressSet) :
    (∀ pA oA pB oB, (iteration ext ctxA fA drl q).1.attempt = some (pA, oA) →
      (iteration ext ctxB fB { drl with memberIndex := m } q).1.attempt = some (pB, oB) →
      pA = pB) ∧
    (∀ dA qA dB qB, (iteration ext ctxA fA drl q).2 = .next dA qA →
      (iteration ext ctxB fB { drl with memberIndex := m } q).2 = .next dB qB →
      (iteration ext ctxA fA drl q).1.attempt.map Prod.snd =
        (iteration ext ctxB fB { drl with memberIndex := m } q).1.attempt.map Prod.snd →
      dB = { dA with memberIndex := m } ∧ qB = qA) := by
  have hstart : ∀ c, nextAttemptStartBlock ext
      { ({ drl with memberIndex := m } : dkgRetryLoop) with attemptCounter := c } =
      nextAttemptStartBlock ext { drl with attemptCounter := c } := fun _ => rfl
  rcases iteration_cases ext ctxA fA drl q with
    ⟨_, hrA, errA, dA0, hsA⟩ | ⟨_, _, hA⟩ | ⟨_, bA, hbA, hA⟩
  · refine ⟨?_, ?_⟩
    · intro pA oA pB oB h1 _
      rw [hrA] at h1
      exact absurd h1 (by simp)
    · intro dA qA dB qB h1 _ _
      rw [hsA] at h1
      exact absurd h1 (by simp)
  · refine ⟨?_, ?_⟩
    · intro pA oA pB oB h1 _
      rw [hA] at h1
      exact absurd h1 (by simp)
    · intro dA qA dB qB h1 _ _
      rw [hA] at h1
      exact absurd h1 (by simp)
  · rcases iteration_cases ext ctxB fB { drl with memberIndex := m } q with
      ⟨_, hrB, errB, dB0, hsB⟩ | ⟨_, _, hB⟩ | ⟨_, bB, hbB, hB⟩
    · refine ⟨?_, ?_⟩
      · intro pA oA pB oB _ h2
        rw [hrB] at h2
        exact absurd h2 (by simp)
      · intro dA qA dB qB _ h2 _
        rw [hsB] at h2
        exact absurd h2 (by simp)
    · refine ⟨?_, ?_⟩
      · intro pA oA pB oB _ h2
        rw [hB] at h2
        exact absurd h2 (by simp)
      · intro dA qA dB qB _ h2 _
        rw [hB] at h2
        exact absurd h2 (by simp)
    · have hb : bB = bA := by
        rw [hstart, hbA] at hbB
        exact (Run.ret.inj hbB).symm
      subst hb
      rcases hA with ⟨exclA, heA, hA⟩ | ⟨exclA, heA, hA⟩ <;>
        rcases hB with ⟨exclB, heB, hB⟩ | ⟨exclB, heB, hB⟩
      · refine ⟨?_, ?_⟩
        · intro pA oA pB oB h1 _
          rw [hA] at h1
          exact absurd h1 (by simp)
        · intro dA qA dB qB h1 h2 _
          rw [hA] at h1
          rw [hB] at h2
          have := requalify_memberIndex ext _ m dA qA h1
          simp only at h2 this
          rw [this] at h2
          simp only [LoopStep.next.injEq] at h2
          exact ⟨h2.1.symm, h2.2.symm⟩
      · refine ⟨?_, ?_⟩
        · intro pA oA pB oB h1 _
          rw [hA] at h1
          exact absurd h1 (by simp)
        · intro dA qA dB qB _ _ h3
          rw [hA, hB] at h3
          exact absurd h3 (by simp)
      · refine ⟨?_, ?_⟩
        · intro pA oA pB oB _ h2
          rw [hB] at h2
          exact absurd h2 (by simp)
        · intro dA qA dB qB _ _ h3
          rw [hA, hB] at h3
          exact absurd h3 (by simp)
      · have hex : exclA = exclB := by
          have := excludedMembersLoop_not_skipped drl.memberIndex m q drl.selectedOperators
            0 [] (by rw [heA]) (by
              have h := heB
              simp only at h
              rw [h])
          rw [heA] at this
          have h := heB
          simp only at h
          rw [h] at this
          exact this
        subst hex
        refine ⟨?_, ?_⟩
        · intro pA oA pB oB h1 h2
          rw [hA] at h1
          rw [hB] at h2
          simp only [Option.some.injEq, Prod.mk.injEq] at h1 h2
          rw [← h1.1, ← h2.1]
        · intro dA qA dB qB h1 h2 h3
          rw [hA] at h1
          rw [hB] at h2
          rw [hA, hB] at h3
          simp only [Option.map_some', Option.some.injEq] at h3
          simp only at h1 h2
          rw [← h3] at h2
          have := afterAttempt_memberIndex ext _ m _ dA qA h1
          simp only at this
          rw [this] at h2
          simp only [LoopStep.next.injEq] at h2
          exact ⟨h2.1.symm, h2.2.symm⟩

theorem startLoop_records_succ (ext : RetryExternals) (ctx : Nat → Bool)
    (f : dkgAttemptParams → AttemptReturn) (fuel : Nat) (drl : dkgRetryLoop)
    (q : AddressSet) :
    (startLoop ext ctx f (fuel + 1) drl q).1 =
      (iteration ext ctx f drl q).1 ::
        (match (iteration ext ctx f drl q).2 with
          | .next d q1 => (startLoop ext ctx f fuel d q1).1
          | _ => []) := by
  rw [startLoop]
  rcases hi : iteration ext ctx f drl q with ⟨record, step⟩
  cases step <;> rfl

/-- Two loops that differ in their member index only and start from the same
qualified set: as long as both have been fed the same attempt outcomes in all
earlier iterations, they run an iteration with the same qualified set and pass
the same parameters to the attempt function. -/
theorem startLoop_agree (ext : RetryExternals) (ctxA ctxB : Nat → Bool)
    (fA fB : dkgAttemptParams → AttemptReturn) :
    ∀ (fuel : Nat) (drl : dkgRetryLoop) (m : MemberIndex) (q : AddressSet) (i : Nat)
      (rA rB : IterationRecord),
      (startLoop ext ctxA fA fuel drl q).1[i]? = some rA →
      (startLoop ext ctxB fB fuel { drl with memberIndex := m } q).1[i]? = some rB →
      (∀ j, j < i → ∀ xA xB,
        (startLoop ext ctxA fA fuel drl q).1[j]? = some xA →
        (startLoop ext ctxB fB fuel { drl with memberIndex := m } q).1[j]? = some xB →
        xA.attempt.map Prod.snd = xB.attempt.map Prod.snd) →
      rA.qualifiedOperatorsSet = rB.qualifiedOperatorsSet ∧
      (∀ pA oA pB oB, rA.attempt = some (pA, oA) → rB.attempt = some (pB, oB) →
        pA = pB) := by
  intro fuel
  induction fuel with
  | zero =>
    intro drl m q i rA rB hA
    simp [startLoop] at hA
  | succ fuel ih =>
    intro drl m q i rA rB hA hB hfed
    rw [startLoop_records_succ] at hA hB
    have hagree := iteration_agree ext ctxA ctxB fA fB drl m q
    cases i with
    | zero =>
      simp only [List.getElem?_cons_zero, Option.some.injEq] at hA hB
      subst hA hB
      refine ⟨?_, hagree.1⟩
      rw [iteration_record_set, iteration_record_set]
    | succ i =>
      simp only [List.getElem?_cons_succ] at hA hB
      have h0 := hfed 0 (Nat.succ_pos i) (iteration ext ctxA fA drl q).1
        (iteration ext ctxB fB { drl with memberIndex := m } q).1
        (by rw [startLoop_records_succ, List.getElem?_cons_zero])
        (by rw [startLoop_records_succ, List.getElem?_cons_zero])
      cases hsA : (iteration ext ctxA fA drl q).2 with
      | returned _ _ _ _ =>
        rw [hsA] at hA
        simp at hA
      | panicked =>
        rw [hsA] at hA
        simp at hA
      | next dA qA =>
        cases hsB : (iteration ext ctxB fB { drl with memberIndex := m } q).2 with
        | returned _ _ _ _ =>
          rw [hsB] at hB
          simp at hB
        | panicked =>
          rw [hsB] at hB
          simp at hB
        | next dB qB =>
          rw [hsA] at hA
          rw [hsB] at hB
          simp only at hA hB
          obtain ⟨hd, hq⟩ := hagree.2 dA qA dB qB hsA hsB h0
          subst hd hq
          refine ih dA m qB i rA rB hA hB ?_
          intro j hj xA xB hxA hxB
          refine hfed (j + 1) (Nat.succ_lt_succ hj) xA xB ?_ ?_
          · rw [startLoop_records_succ, hsA]
            simpa using hxA
          · rw [startLoop_records_succ, hsB]
            simpa using hxB

/-- C20: retry-loop determinism. Two loops built by `newDkgRetryLoop` from the
same seed, initial start block, selected operators and chain configuration
(their member indexes, contexts and attempt functions may differ), using the
same random-selection primitive: in every iteration that both make after
having been fed the same attempt outcomes in all earlier iterations (a skipped
attempt feeds none), the qualified operators set is the same in both, and the
`(index, startBlock, excludedMembers)` passed to the attempt function are the
same. -/
theorem c20_retry_loop_determinism (sha256Sum256 : List Nat → List Nat) (seed : Int)
    (initialStartBlock : Nat) (memberIndexA memberIndexB : MemberIndex)
    (selectedOperators : List Address) (chainConfig : ChainConfig)
    (ext : RetryExternals) (ctxA ctxB : Nat → Bool)
    (fA fB : dkgAttemptParams → AttemptReturn) (fuel i : Nat) (rA rB : IterationRecord)
    (hA : (start ext ctxA fA fuel
      (newDkgRetryLoop sha256Sum256 seed initialStartBlock memberIndexA selectedOperators
        chainConfig)).1[i]? = some rA)
    (hB : (start ext ctxB fB fuel
      (newDkgRetryLoop sha256Sum256 seed initialStartBlock memberIndexB selectedOperators
        chainConfig)).1[i]? = some rB)
    (hfed : ∀ j, j < i → ∀ xA xB,
      (start ext ctxA fA fuel
        (newDkgRetryLoop sha256Sum256 seed initialStartBlock memberIndexA selectedOperators
          chainConfig)).1[j]? = some xA →
      (start ext ctxB fB fuel
        (newDkgRetryLoop sha256Sum256 seed initialStartBlock memberIndexB selectedOperators
          chainConfig)).1[j]? = some xB →
      xA.attempt.map Prod.snd = xB.attempt.map Prod.snd) :
    rA.qualifiedOperatorsSet = rB.qualifiedOperatorsSet ∧
    (∀ pA oA pB oB, rA.attempt = some (pA, oA) → rB.attempt = some (pB, oB) → pA = pB) ∧
    (rA.attempt.map Prod.snd = rB.attempt.map Prod.snd →
      rA.attempt.map Prod.fst = rB.attempt.map Prod.fst) := by
  have hnew : newDkgRetryLoop sha256Sum256 seed initialStartBlock memberIndexB
      selectedOperators chainConfig =
      { newDkgRetryLoop sha256Sum256 seed initialStartBlock memberIndexA selectedOperators
          chainConfig with memberIndex := memberIndexB } := rfl
  rw [hnew] at hB hfed
  have h := startLoop_agree ext ctxA ctxB fA fB fuel
    (newDkgRetryLoop sha256Sum256 seed initialStartBlock memberIndexA selectedOperators
      chainConfig) memberIndexB _ i rA rB hA hB hfed
  refine ⟨h.1, h.2, ?_⟩
  intro hout
  cases hrA : rA.attempt with
  | none =>
    cases hrB : rB.attempt with
    | none => rfl
    | some xB =>
      rw [hrA, hrB] at hout
      exact absurd hout (by simp)
  | some xA =>
    cases hrB : rB.attempt with
    | none =>
      rw [hrA, hrB] at hout
      exact absurd hout (by simp)
    | some xB =>
      obtain ⟨pA, oA⟩ := xA
      obtain ⟨pB, oB⟩ := xB
      simp only [Option.map_some', Option.some.injEq]
      exact h.2 pA oA pB oB hrA hrB

/-- C20 on the example loop for the members `1` and `2`: both are fed the
inactivity of member `2` in the first attempt and run the second iteration
with the qualified set `A, C, D, E` (member `2` skips it). -/
theorem c20_retry_loop_determinism_witness :
    (start exampleRetryExternals (fun _ => false) exampleAttemptFn 2
        (exampleRetryLoop 1)).1[1]? =
      some ⟨["A", "C", "D", "E"],
        some (⟨2, 1055, [2]⟩, (none, 0, some (.InactiveMembersError [2])))⟩ ∧
    (start exampleRetryExternals (fun _ => false) exampleAttemptFn 2
        (exampleRetryLoop 2)).1[1]? = some ⟨["A", "C", "D", "E"], none⟩ ∧
    (IterationRecord.mk ["A", "C", "D", "E"]
        (some (⟨2, 1055, [2]⟩, (none, 0, some (.InactiveMembersError [2]))))
      ).qualifiedOperatorsSet
      = (IterationRecord.mk ["A", "C", "D", "E"] none).qualifiedOperatorsSet :=
  ⟨by decide, by decide,
    (c20_retry_loop_determinism (fun _ => List.replicate 32 255) 12345 1000 1 2
      ["A", "B", "C", "D", "E"] exampleChainConfig exampleRetryExternals
      (fun _ => false) (fun _ => false) exampleAttemptFn exampleAttemptFn 2 1
      ⟨["A", "C", "D", "E"],
        some (⟨2, 1055, [2]⟩, (none, 0, some (.InactiveMembersError [2])))⟩
      ⟨["A", "C", "D", "E"], none⟩
      (by decide) (by decide)
      (by
        intro j hj xA xB hxA hxB
        have hj0 : j = 0 := by omega
        subst hj0
        have eA : (start exampleRetryExternals (fun _ => false) exampleAttemptFn 2
            (newDkgRetryLoop (fun _ => List.replicate 32 255) 12345 1000 1
              ["A", "B", "C", "D", "E"] exampleChainConfig)).1[0]? =
            some ⟨["A", "B", "C", "D", "E"],
              some (⟨1, 1000, []⟩, (none, 0, some (.InactiveMembersError [2])))⟩ := by
          decide
        have eB : (start exampleRetryExternals (fun _ => false) exampleAttemptFn 2
            (newDkgRetryLoop (fun _ => List.replicate 32 255) 12345 1000 2
              ["A", "B", "C", "D", "E"] exampleChainConfig)).1[0]? =
            some ⟨["A", "B", "C", "D", "E"],
              some (⟨1, 1000, []⟩, (none, 0, some (.InactiveMembersError [2])))⟩ := by
          decide
        rw [eA] at hxA
        rw [eB] at hxB
        rw [← Option.some.inj hxA, ← Option.some.inj hxB])).1⟩

/-! ### The end of a run and the fields an iteration can change -/

theorem startLoop_step_succ (ext : RetryExternals) (ctx : Nat → Bool)
    (f : dkgAttemptParams → AttemptReturn) (fuel : Nat) (drl : dkgRetryLoop)
    (q : AddressSet) :
    (startLoop ext ctx f (fuel + 1) drl q).2 =
      (match (iteration ext ctx f drl q).2 with
        | .next d q1 => (startLoop ext ctx f fuel d q1).2
        | step => step) := by
  rw [startLoop]
  rcases hi : iteration ext ctx f drl q with ⟨record, step⟩
  cases step <;> rfl

/-- `qualifiedOperatorsSet` changes no field but `randomRetryCounter`. -/
theorem qualifiedOperatorsSet_fields (ext : RetryExternals) (drl : dkgRetryLoop) :
    (qualifiedOperatorsSet ext drl).2 =
      { drl with randomRetryCounter := (qualifiedOperatorsSet ext drl).2.randomRetryCounter } := by
  unfold qualifiedOperatorsSet
  dsimp only
  split
  · rfl
  · split <;> rfl

theorem requalify_state (ext : RetryExternals) (drl : dkgRetryLoop) :
    (requalify ext drl).state? = some (qualifiedOperatorsSet ext drl).2 := by
  unfold requalify
  rcases hq : qualifiedOperatorsSet ext drl with ⟨⟨set, _ | err⟩, d1⟩ <;> rfl

/-- The state after the attempt function returned: the inactivity evidence is
the old one, or the old one merged with the reported members; the random
retry counter is the only other field that can differ. -/
theorem afterAttempt_state (ext : RetryExternals) (drl : dkgRetryLoop)
    (ret : AttemptReturn) (d : dkgRetryLoop)
    (h : (afterAttempt ext drl ret).state? = some d) :
    (∀ result executionEndBlock, ret = (result, executionEndBlock, none) → d = drl) ∧
    (∀ result executionEndBlock message,
      ret = (result, executionEndBlock, some (.other message)) →
      d = (qualifiedOperatorsSet ext drl).2) ∧
    (∀ result executionEndBlock indexes,
      ret = (result, executionEndBlock, some (.InactiveMembersError indexes)) →
      ∃ set, inactiveMembersLoop drl.selectedOperators indexes drl.inactiveOperatorsSet
          = .ret set ∧
        d = (qualifiedOperatorsSet ext { drl with inactiveOperatorsSet := set }).2) := by
  obtain ⟨result, executionEndBlock, err⟩ := ret
  cases err with
  | none =>
    simp only [afterAttempt, LoopStep.state?, Option.some.injEq] at h
    subst h
    refine ⟨fun _ _ _ => rfl, ?_, ?_⟩
    · intro _ _ _ e
      simp at e
    · intro _ _ _ e
      simp at e
  | some e =>
    cases e with
    | InactiveMembersError idxs =>
      simp only [afterAttempt] at h
      refine ⟨?_, ?_, ?_⟩
      · intro _ _ e
        simp at e
      · intro _ _ _ e
        simp at e
      · intro _ _ indexes e
        simp only [Prod.mk.injEq, Option.some.injEq, AttemptError.InactiveMembersError.injEq]
          at e
        obtain ⟨_, _, e⟩ := e
        subst e
        cases hl : inactiveMembersLoop drl.selectedOperators idxs drl.inactiveOperatorsSet with
        | panic =>
          rw [hl] at h
          simp [LoopStep.state?] at h
        | ret set =>
          rw [hl] at h
          simp only at h
          rw [requalify_state] at h
          exact ⟨set, rfl, (Option.some.inj h).symm⟩
    | other msg =>
      simp only [afterAttempt] at h
      rw [requalify_state] at h
      refine ⟨?_, ?_, ?_⟩
      · intro _ _ e
        simp at e
      · intro _ _ _ _
        exact (Option.some.inj h).symm
      · intro _ _ _ e
        simp at e

/-- C21: if an invocation of the attempt function inside `start` returns no
error, that iteration is the last one (the attempt function is not invoked
again), `start` returns exactly that result and that execution end block with
a nil error, and the loop state it leaves behind is the one the attempt ran
with: the qualified set is not computed anew. -/
theorem c21_start_returns_on_success (ext : RetryExternals) (ctx : Nat → Bool)
    (f : dkgAttemptParams → AttemptReturn) :
    (∀ (drl : dkgRetryLoop) (q : AddressSet) (params : dkgAttemptParams)
        (result : Option Result) (executionEndBlock : Nat),
      (iteration ext ctx f drl q).1.attempt
          = some (params, (result, executionEndBlock, none)) →
      (iteration ext ctx f drl q).2 =
        .returned result executionEndBlock none
          { drl with attemptCounter := params.index,
                     attemptStartBlock := params.startBlock }) ∧
    (∀ (fuel : Nat) (drl : dkgRetryLoop) (q : AddressSet) (i : Nat) (r : IterationRecord)
        (params : dkgAttemptParams) (result : Option Result) (executionEndBlock : Nat),
      (startLoop ext ctx f fuel drl q).1[i]? = some r →
      r.attempt = some (params, (result, executionEndBlock, none)) →
      (startLoop ext ctx f fuel drl q).1.length = i + 1 ∧
      ∃ d, (startLoop ext ctx f fuel drl q).2
        = .returned result executionEndBlock none d) := by
  have hit : ∀ (drl : dkgRetryLoop) (q : AddressSet) (params : dkgAttemptParams)
        (result : Option Result) (executionEndBlock : Nat),
      (iteration ext ctx f drl q).1.attempt
          = some (params, (result, executionEndBlock, none)) →
      (iteration ext ctx f drl q).2 =
        .returned result executionEndBlock none
          { drl with attemptCounter := params.index,
                     attemptStartBlock := params.startBlock } := by
    intro drl q params result executionEndBlock h
    rcases iteration_cases ext ctx f drl q with ⟨_, hr, _⟩ | ⟨_, _, hi⟩ | ⟨_, b, _, hi⟩
    · rw [hr] at h
      exact absurd h (by simp)
    · rw [hi] at h
      exact absurd h (by simp)
    · rcases hi with ⟨_, _, hi⟩ | ⟨excl, _, hi⟩
      · rw [hi] at h
        exact absurd h (by simp)
      · rw [hi] at h ⊢
        simp only [Option.some.injEq, Prod.mk.injEq] at h
        obtain ⟨hp, hret⟩ := h
        rw [hret, ← hp]
        rfl
  refine ⟨hit, ?_⟩
  intro fuel
  induction fuel with
  | zero =>
    intro drl q i r params result executionEndBlock h
    simp [startLoop] at h
  | succ fuel ih =>
    intro drl q i r params result executionEndBlock h hr
    rw [startLoop_records_succ] at h ⊢
    rw [startLoop_step_succ]
    cases i with
    | zero =>
      simp only [List.getElem?_cons_zero, Option.some.injEq] at h
      subst h
      have hs := hit drl q params result executionEndBlock hr
      rw [hs]
      exact ⟨rfl, _, rfl⟩
    | succ i =>
      simp only [List.getElem?_cons_succ] at h
      cases hs : (iteration ext ctx f drl q).2 with
      | returned _ _ _ _ =>
        rw [hs] at h
        simp at h
      | panicked =>
        rw [hs] at h
        simp at h
      | next d q1 =>
        rw [hs] at h
        simp only at h ⊢
        obtain ⟨hl, hd⟩ := ih d q1 i r params result executionEndBlock h hr
        exact ⟨by simp [hl], hd⟩

/-- C21 on the example loop for member `1`: the third attempt succeeds, the
run has three iterations and returns the result of that attempt. -/
theorem c21_start_returns_on_success_witness :
    (start exampleRetryExternals (fun _ => false) exampleAttemptFn 6
        (exampleRetryLoop 1)).1[2]? =
      some ⟨["A", "C", "D", "E"],
        some (⟨3, 1110, [2]⟩, (some exampleResult, 999, none))⟩ ∧
    (start exampleRetryExternals (fun _ => false) exampleAttemptFn 6
        (exampleRetryLoop 1)).1.length = 2 + 1 ∧
    ∃ d, (start exampleRetryExternals (fun _ => false) exampleAttemptFn 6
        (exampleRetryLoop 1)).2 = .returned (some exampleResult) 999 none d :=
  ⟨by decide,
    (c21_start_returns_on_success exampleRetryExternals (fun _ => false)
      exampleAttemptFn).2 6 (exampleRetryLoop 1)
      (Addresses.Set (exampleRetryLoop 1).selectedOperators) 2
      ⟨["A", "C", "D", "E"], some (⟨3, 1110, [2]⟩, (some exampleResult, 999, none))⟩
      ⟨3, 1110, [2]⟩ (some exampleResult) 999 (by decide) rfl⟩

/-- C22: at the beginning of every iteration of `start`, after the increment
of `attemptCounter`, if the context is done the iteration returns
`(nil, 0, error)` without invoking the attempt function; with a context that
is already cancelled when `start` is called the run is that single iteration
and the attempt function is never invoked. -/
theorem c22_start_stops_on_done_context (ext : RetryExternals) (ctx : Nat → Bool)
    (f : dkgAttemptParams → AttemptReturn) (drl : dkgRetryLoop) (q : AddressSet)
    (fuel : Nat) (hdone : ctx ((drl.attemptCounter + 1) % 2 ^ 64) = true) :
    (∃ err, iteration ext ctx f drl q =
      (⟨q, none⟩, .returned none 0 (some err)
        { drl with attemptCounter := (drl.attemptCounter + 1) % 2 ^ 64 })) ∧
    (∃ err, start ext ctx f (fuel + 1) drl =
      ([⟨Addresses.Set drl.selectedOperators, none⟩], .returned none 0 (some err)
        { drl with attemptCounter := (drl.attemptCounter + 1) % 2 ^ 64 })) ∧
    (∀ r ∈ (start ext ctx f (fuel + 1) drl).1, r.attempt = none) := by
  have hit : ∀ q1 : AddressSet, ∃ err, iteration ext ctx f drl q1 =
      (⟨q1, none⟩, .returned none 0 (some err)
        { drl with attemptCounter := (drl.attemptCounter + 1) % 2 ^ 64 }) := by
    intro q1
    have h64 : uint64Size = 2 ^ 64 := rfl
    simp only [iteration, h64, hdone, if_true]
    exact ⟨_, rfl⟩
  have hst : ∃ err, start ext ctx f (fuel + 1) drl =
      ([⟨Addresses.Set drl.selectedOperators, none⟩], .returned none 0 (some err)
        { drl with attemptCounter := (drl.attemptCounter + 1) % 2 ^ 64 }) := by
    obtain ⟨err, he⟩ := hit (Addresses.Set drl.selectedOperators)
    refine ⟨err, ?_⟩
    rw [start, startLoop, he]
  refine ⟨hit q, hst, ?_⟩
  obtain ⟨err, he⟩ := hst
  rw [he]
  intro r hr
  simp only [List.mem_singleton] at hr
  rw [hr]

/-- C22 on the example loop with a context that is done from the start. -/
theorem c22_start_stops_on_done_context_witness :
    (fun _ : Nat => true) (((exampleRetryLoop 1).attemptCounter + 1) % 2 ^ 64) = true ∧
    ∀ r ∈ (start exampleRetryExternals (fun _ => true) exampleAttemptFn (3 + 1)
        (exampleRetryLoop 1)).1, r.attempt = none :=
  ⟨rfl,
    (c22_start_stops_on_done_context exampleRetryExternals (fun _ => true)
      exampleAttemptFn (exampleRetryLoop 1) [] 3 rfl).2.2⟩

theorem mem_setTrue (set : AddressSet) (x a : Address) :
    a ∈ set.setTrue x ↔ a ∈ set ∨ a = x := by
  unfold AddressSet.setTrue
  by_cases h : set.contains x = true
  · rw [if_pos h]
    constructor
    · exact Or.inl
    · rintro (h1 | h1)
      · exact h1
      · subst h1
        simpa using h
  · rw [if_neg h]
    simp

theorem mem_foldl_setTrue (l : List Address) :
    ∀ (acc : AddressSet) (a : Address),
      a ∈ l.foldl AddressSet.setTrue acc ↔ a ∈ acc ∨ a ∈ l := by
  induction l with
  | nil => intro acc a; simp
  | cons x rest ih =>
    intro acc a
    rw [List.foldl_cons, ih, mem_setTrue, List.mem_cons]
    tauto

/-- The keys of `addresses.Set()` are the addresses of the slice. -/
theorem mem_addresses_set (addresses : List Address) (a : Address) :
    a ∈ Addresses.Set addresses ↔ a ∈ addresses := by
  unfold Addresses.Set
  rw [mem_foldl_setTrue]
  simp

theorem addressSet_get_iff (set : AddressSet) (a : Address) :
    set.get a = true ↔ a ∈ set := by
  unfold AddressSet.get
  simp

theorem excludedMembersLoop_all_qualified (own : MemberIndex) (q : AddressSet)
    (l : List Address) (hq : ∀ op ∈ l, q.get op = true) :
    ∀ (i : Nat) (acc : List MemberIndex), excludedMembersLoop own q i l acc = (acc, false) := by
  induction l with
  | nil => intro i acc; rfl
  | cons op rest ih =>
    intro i acc
    unfold excludedMembersLoop
    have h1 : q.get op = true := hq op (List.mem_cons_self _ _)
    simp only [h1, Bool.not_true, Bool.false_eq_true, if_false]
    exact ih (fun o ho => hq o (List.mem_cons_of_mem _ ho)) _ _

/-- C24: for a freshly constructed `dkgRetryLoop` whose context is not
cancelled, the first iteration invokes the attempt function (it is never
skipped: every selected operator is qualified) with `index = 1`,
`startBlock` the initial start block given to `newDkgRetryLoop`, and an empty
`excludedMembers`. -/
theorem c24_first_attempt_params (sha256Sum256 : List Nat → List Nat) (seed : Int)
    (initialStartBlock : Nat) (memberIndex : MemberIndex)
    (selectedOperators : List Address) (chainConfig : ChainConfig)
    (ext : RetryExternals) (ctx : Nat → Bool)
    (f : dkgAttemptParams → AttemptReturn) (fuel : Nat) (hctx : ctx 1 = false) :
    (start ext ctx f (fuel + 1)
      (newDkgRetryLoop sha256Sum256 seed initialStartBlock memberIndex selectedOperators
        chainConfig)).1[0]? =
      some ⟨Addresses.Set selectedOperators,
        some (⟨1, initialStartBlock, []⟩, f ⟨1, initialStartBlock, []⟩)⟩ := by
  rw [start, startLoop_records_succ, List.getElem?_cons_zero]
  have hall : ∀ op ∈ selectedOperators,
      (Addresses.Set selectedOperators).get op = true := by
    intro op hop
    rw [addressSet_get_iff, mem_addresses_set]
    exact hop
  have hex := excludedMembersLoop_all_qualified memberIndex (Addresses.Set selectedOperators)
    selectedOperators hall 0 []
  have hc : (0 + 1) % uint64Size = 1 := by decide
  simp only [iteration, newDkgRetryLoop, hc, hctx, nextAttemptStartBlock, hex,
    Bool.false_eq_true, if_false, Nat.lt_irrefl]

/-- C24 on the example loop for member `3`. -/
theorem c24_first_attempt_params_witness :
    (start exampleRetryExternals (fun _ => false) exampleAttemptFn (0 + 1)
      (newDkgRetryLoop (fun _ => List.replicate 32 255) 12345 1000 3
        ["A", "B", "C", "D", "E"] exampleChainConfig)).1[0]? =
      some ⟨Addresses.Set ["A", "B", "C", "D", "E"],
        some (⟨1, 1000, []⟩, exampleAttemptFn ⟨1, 1000, []⟩)⟩ :=
  c24_first_attempt_params (fun _ => List.replicate 32 255) 12345 1000 3
    ["A", "B", "C", "D", "E"] exampleChainConfig exampleRetryExternals (fun _ => false)
    exampleAttemptFn 0 rfl

/-- C23, evaluated where the code departs from it: a skipped participant does
not converge with the rest of the group. Five operators, quorum `4`, the loops
of the members `1` and `2` built from the same seed, operators and
configuration, and attempts that fail reporting member `2` (attempt 1) and
member `3` (attempt 2) as inactive. Both loops run attempt 2 with the
qualified set `A, C, D, E`; member `2` is skipped, member `1` executes and
learns that `C` is inactive, which the skipped loop is never told. For
attempt 3 member `1` falls back to the random selection (`A, B, C, D` here)
while the skipped member `2` keeps `A, C, D, E`: the qualified sets for the
next attempt differ. -/
theorem c23_skipped_loop_diverges :
    ((start exampleRetryExternals (fun _ => false) exampleFailingAttemptFn 3
        (exampleRetryLoop 1)).1.map (fun r => (r.qualifiedOperatorsSet, r.attempt.isSome))
      = [(["A", "B", "C", "D", "E"], true), (["A", "C", "D", "E"], true),
          (["A", "B", "C", "D"], true)]) ∧
    ((start exampleRetryExternals (fun _ => false) exampleFailingAttemptFn 3
        (exampleRetryLoop 2)).1.map (fun r => (r.qualifiedOperatorsSet, r.attempt.isSome))
      = [(["A", "B", "C", "D", "E"], true), (["A", "C", "D", "E"], false),
          (["A", "C", "D", "E"], false)]) ∧
    ((start exampleRetryExternals (fun _ => false) exampleFailingAttemptFn 3
        (exampleRetryLoop 1)).1[2]?.map (fun r => r.qualifiedOperatorsSet)
      ≠ (start exampleRetryExternals (fun _ => false) exampleFailingAttemptFn 3
        (exampleRetryLoop 2)).1[2]?.map (fun r => r.qualifiedOperatorsSet)) := by
  decide

theorem inactiveMembersLoop_known (selectedOperators : List Address)
    (indexes : List MemberIndex) (set : AddressSet)
    (hknown : ∀ i ∈ indexes, ∃ op,
      selectedOperators[(i + 256 - 1) % 256]? = some op ∧ op ∈ set) :
    inactiveMembersLoop selectedOperators indexes set = .ret set := by
  induction indexes with
  | nil => rfl
  | cons i rest ih =>
    obtain ⟨op, hop, hmem⟩ := hknown i (List.mem_cons_self _ _)
    have hset : set.setTrue op = set := by
      unfold AddressSet.setTrue
      have : set.contains op = true := by simpa using hmem
      rw [if_pos this]
    rw [inactiveMembersLoop, hop]
    simp only [hset]
    exact ih (fun j hj => hknown j (List.mem_cons_of_mem _ hj))

/-- Where a skipped loop does keep up: two retry loops that differ in the
member index only and run an iteration with the same qualified set. If one is
skipped and continues, while the other executes the attempt and the attempt
fails without new inactivity evidence (the error is not an
`InactiveMembersError`, or the operators of all members it reports are in
`inactiveOperatorsSet` already), then the other continues too, with the same
qualified operators set and the same loop state up to the member index; the
`excludedMembers` (and `index`, `startBlock`) that the two pass to the next
attempt are the same. -/
theorem skipped_converges_without_new_evidence (ext : RetryExternals)
    (ctxA ctxB : Nat → Bool) (fA fB : dkgAttemptParams → AttemptReturn)
    (drl : dkgRetryLoop) (m : MemberIndex) (q : AddressSet)
    (dA : dkgRetryLoop) (qA : AddressSet) (pB : dkgAttemptParams)
    (resultB : Option Result) (endBlockB : Nat) (errB : AttemptError)
    (hskipped : (iteration ext ctxA fA drl q).1.attempt = none)
    (hnext : (iteration ext ctxA fA drl q).2 = .next dA qA)
    (hfailed : (iteration ext ctxB fB { drl with memberIndex := m } q).1.attempt
      = some (pB, (resultB, endBlockB, some errB)))
    (hknown : ∀ indexes, errB = .InactiveMembersError indexes →
      ∀ i ∈ indexes, ∃ op, drl.selectedOperators[(i + 256 - 1) % 256]? = some op ∧
        op ∈ drl.inactiveOperatorsSet) :
    (iteration ext ctxB fB { drl with memberIndex := m } q).2
      = .next { dA with memberIndex := m } qA ∧
    (∀ (ctxA1 ctxB1 : Nat → Bool) (fA1 fB1 : dkgAttemptParams → AttemptReturn)
        pA1 oA1 pB1 oB1,
      (iteration ext ctxA1 fA1 dA qA).1.attempt = some (pA1, oA1) →
      (iteration ext ctxB1 fB1 { dA with memberIndex := m } qA).1.attempt
        = some (pB1, oB1) →
      pA1 = pB1) := by
  refine ⟨?_, fun ctxA1 ctxB1 fA1 fB1 =>
    (iteration_agree ext ctxA1 ctxB1 fA1 fB1 dA m qA).1⟩
  have hstart : ∀ c, nextAttemptStartBlock ext
      { ({ drl with memberIndex := m } : dkgRetryLoop) with attemptCounter := c } =
      nextAttemptStartBlock ext { drl with attemptCounter := c } := fun _ => rfl
  rcases iteration_cases ext ctxA fA drl q with
    ⟨_, _, errA, dA0, hsA⟩ | ⟨_, _, hA⟩ | ⟨_, bA, hbA, hA⟩
  · rw [hsA] at hnext
    exact absurd hnext (by simp)
  · rw [hA] at hnext
    exact absurd hnext (by simp)
  · rcases hA with ⟨exclA, _, hA⟩ | ⟨exclA, _, hA⟩
    · rw [hA] at hnext
      simp only at hnext
      rcases iteration_cases ext ctxB fB { drl with memberIndex := m } q with
        ⟨_, hrB, _⟩ | ⟨_, _, hB⟩ | ⟨_, bB, hbB, hB⟩
      · rw [hrB] at hfailed
        exact absurd hfailed (by simp)
      · rw [hB] at hfailed
        exact absurd hfailed (by simp)
      · have hb : bB = bA := by
          rw [hstart, hbA] at hbB
          exact (Run.ret.inj hbB).symm
        subst hb
        rcases hB with ⟨exclB, _, hB⟩ | ⟨exclB, _, hB⟩
        · rw [hB] at hfailed
          exact absurd hfailed (by simp)
        · rw [hB] at hfailed ⊢
          simp only [Option.some.injEq, Prod.mk.injEq] at hfailed
          obtain ⟨_, hret⟩ := hfailed
          simp only
          rw [hret]
          have hreq := requalify_memberIndex ext _ m dA qA hnext
          cases errB with
          | other msg =>
            simp only [afterAttempt]
            exact hreq
          | InactiveMembersError indexes =>
            simp only [afterAttempt]
            rw [inactiveMembersLoop_known drl.selectedOperators indexes
              drl.inactiveOperatorsSet (hknown indexes rfl)]
            exact hreq
    · rw [hA] at hskipped
      exact absurd hskipped (by simp)

/-- The example loops of the members `2` (skipped in the second attempt) and
`1` (executes it and is told again that member `2` is inactive, which is no
new evidence) continue alike. -/
theorem skipped_converges_without_new_evidence_example :
    iteration exampleRetryExternals (fun _ => false) exampleAttemptFn
        { { exampleRetryLoop 2 with attemptCounter := 1, inactiveOperatorsSet := ["B"] }
          with memberIndex := 1 } ["A", "C", "D", "E"]
      = (⟨["A", "C", "D", "E"],
          some (⟨2, 1055, [2]⟩, (none, 0, some (.InactiveMembersError [2])))⟩,
        .next
          { { exampleRetryLoop 2 with attemptCounter := 2, attemptStartBlock := 1055,
                                      inactiveOperatorsSet := ["B"] }
            with memberIndex := 1 }
          ["A", "C", "D", "E"]) :=
  Prod.ext (by decide)
    (skipped_converges_without_new_evidence exampleRetryExternals (fun _ => false)
      (fun _ => false) exampleAttemptFn exampleAttemptFn
      { exampleRetryLoop 2 with attemptCounter := 1, inactiveOperatorsSet := ["B"] } 1
      ["A", "C", "D", "E"]
      { exampleRetryLoop 2 with attemptCounter := 2, attemptStartBlock := 1055,
                                inactiveOperatorsSet := ["B"] }
      ["A", "C", "D", "E"] ⟨2, 1055, [2]⟩ none 0 (.InactiveMembersError [2])
      (by decide) (by decide) (by decide)
      (by
        intro indexes h i hi
        injection h with h
        subst h
        simp only [List.mem_singleton] at hi
        subst hi
        exact ⟨"B", by decide, by decide⟩)).1

/-! ### The attempt counter and the start blocks -/

theorem qualifiedOperatorsSet_agrees (ext : RetryExternals) (drl : dkgRetryLoop) :
    (qualifiedOperatorsSet ext drl).2.agreesApartFromEvidence drl := by
  rw [qualifiedOperatorsSet_fields]
  exact ⟨rfl, rfl, rfl, rfl, rfl, rfl, rfl, rfl, rfl⟩

theorem afterAttempt_agrees (ext : RetryExternals) (drl : dkgRetryLoop)
    (ret : AttemptReturn) (d : dkgRetryLoop)
    (h : (afterAttempt ext drl ret).state? = some d) :
    d.agreesApartFromEvidence drl := by
  obtain ⟨h1, h2, h3⟩ := afterAttempt_state ext drl ret d h
  obtain ⟨result, executionEndBlock, err⟩ := ret
  cases err with
  | none =>
    rw [h1 _ _ rfl]
    exact ⟨rfl, rfl, rfl, rfl, rfl, rfl, rfl, rfl, rfl⟩
  | some e =>
    cases e with
    | InactiveMembersError idxs =>
      obtain ⟨set, _, hd⟩ := h3 _ _ _ rfl
      rw [hd]
      exact qualifiedOperatorsSet_agrees ext _
    | other msg =>
      rw [h2 _ _ _ rfl]
      exact qualifiedOperatorsSet_agrees ext _

theorem iteration_ctx_done (ext : RetryExternals) (ctx : Nat → Bool)
    (f : dkgAttemptParams → AttemptReturn) (drl : dkgRetryLoop) (q : AddressSet)
    (hdone : ctx ((drl.attemptCounter + 1) % uint64Size) = true) :
    ∃ err, iteration ext ctx f drl q =
      (⟨q, none⟩, .returned none 0 (some err)
        { drl with attemptCounter := (drl.attemptCounter + 1) % uint64Size }) := by
  simp only [iteration, hdone, if_true]
  exact ⟨_, rfl⟩

/-- What an iteration does to the counter and the start block: the counter is
incremented; whenever the attempt function is invoked its `index` and
`startBlock` are the new counter and the new start block; whenever the loop
continues (attempt skipped or failed) the state holds the new start block. -/
theorem iteration_counters (ext : RetryExternals) (ctx : Nat → Bool)
    (f : dkgAttemptParams → AttemptReturn) (drl : dkgRetryLoop) (q : AddressSet) :
    (∀ d, (iteration ext ctx f drl q).2.state? = some d →
      d.agreesApartFromEvidence
        { drl with attemptCounter := (drl.attemptCounter + 1) % uint64Size,
                   attemptStartBlock := d.attemptStartBlock }) ∧
    (∀ d q1, (iteration ext ctx f drl q).2 = .next d q1 →
      nextAttemptStartBlock ext
          { drl with attemptCounter := (drl.attemptCounter + 1) % uint64Size }
        = .ret d.attemptStartBlock) ∧
    (∀ p o, (iteration ext ctx f drl q).1.attempt = some (p, o) →
      p.index = (drl.attemptCounter + 1) % uint64Size ∧
      nextAttemptStartBlock ext
          { drl with attemptCounter := (drl.attemptCounter + 1) % uint64Size }
        = .ret p.startBlock) := by
  rcases iteration_cases ext ctx f drl q with ⟨hc, _, _⟩ | ⟨_, _, hi⟩ | ⟨_, b, hb, hi⟩
  · obtain ⟨err, he⟩ := iteration_ctx_done ext ctx f drl q hc
    rw [he]
    refine ⟨?_, ?_, ?_⟩
    · intro d hd
      simp only [LoopStep.state?, Option.some.injEq] at hd
      subst hd
      exact ⟨rfl, rfl, rfl, rfl, rfl, rfl, rfl, rfl, rfl⟩
    · intro d q1 h
      exact absurd h (by simp)
    · intro p o h
      exact absurd h (by simp)
  · rw [hi]
    refine ⟨?_, ?_, ?_⟩
    · intro d hd
      exact absurd hd (by simp [LoopStep.state?])
    · intro d q1 h
      exact absurd h (by simp)
    · intro p o h
      exact absurd h (by simp)
  · rcases hi with ⟨excl, _, hi⟩ | ⟨excl, _, hi⟩
    · rw [hi]
      have hag := qualifiedOperatorsSet_agrees ext
        { drl with attemptCounter := (drl.attemptCounter + 1) % uint64Size,
                   attemptStartBlock := b }
      refine ⟨?_, ?_, ?_⟩
      · intro d hd
        simp only at hd
        rw [requalify_state] at hd
        have hd2 := Option.some.inj hd
        rw [← hd2]
        obtain ⟨a1, a2, a3, a4, a5, a6, a7, a8, a9⟩ := hag
        exact ⟨a1, a2, a3, a4, rfl, a6, a7, a8, a9⟩
      · intro d q1 h
        have hd : (requalify ext
            { drl with attemptCounter := (drl.attemptCounter + 1) % uint64Size,
                       attemptStartBlock := b }).state? = some d := by
          simp only at h
          rw [h]
          rfl
        rw [requalify_state] at hd
        rw [hb, ← Option.some.inj hd, hag.2.2.2.2.1]
      · intro p o h
        exact absurd h (by simp)
    · rw [hi]
      refine ⟨?_, ?_, ?_⟩
      · intro d hd
        obtain ⟨a1, a2, a3, a4, a5, a6, a7, a8, a9⟩ := afterAttempt_agrees ext _ _ d hd
        exact ⟨a1, a2, a3, a4, rfl, a6, a7, a8, a9⟩
      · intro d q1 h
        have hd : (afterAttempt ext
            { drl with attemptCounter := (drl.attemptCounter + 1) % uint64Size,
                       attemptStartBlock := b }
            (f ⟨(drl.attemptCounter + 1) % uint64Size, b, excl⟩)).state? = some d := by
          simp only at h
          rw [h]
          rfl
        rw [hb, (afterAttempt_agrees ext _ _ d hd).2.2.2.2.1]
      · intro p o h
        simp only [Option.some.injEq, Prod.mk.injEq] at h
        rw [← h.1, hb]
        exact ⟨rfl, rfl⟩

theorem nextAttemptStartBlock_escalated (ext : RetryExternals) (drl : dkgRetryLoop)
    (n : Nat) (hdelay : drl.delayBlocks = 5) (hfrequency : drl.delayBlocksBumpFrequency = 100)
    (hfactor : drl.delayBlocksBumpFactor = 20) (hn : 1 < n) :
    nextAttemptStartBlock ext { drl with attemptCounter := n } =
      .ret ((drl.attemptStartBlock + ext.ProtocolBlocks +
        (if n % 100 = 0 then 100 else 5)) % 2 ^ 64) := by
  have h64 : uint64Size = 2 ^ 64 := rfl
  have h100 : (5 * 20) % 2 ^ 64 = 100 := by decide
  simp only [nextAttemptStartBlock, hn, if_true, hfrequency, hdelay, hfactor, h64, h100]
  have hne : ¬ (100 = 0) := by decide
  simp only [hne, if_false, Nat.mod_add_mod]

theorem escalatedStartBlock_succ (isb p n : Nat) (hn : 1 ≤ n) :
    escalatedStartBlock isb p (n + 1) =
      escalatedStartBlock isb p n + p + (if (n + 1) % 100 = 0 then 100 else 5) := by
  unfold escalatedStartBlock
  have hm : (n + 1 - 1) * (p + 5) = (n - 1) * (p + 5) + (p + 5) := by
    cases n with
    | zero => exact absurd hn (by decide)
    | succ k => simp [Nat.succ_mul]
  rw [hm]
  split <;> omega

theorem escalatedStartBlock_one (isb p : Nat) :
    escalatedStartBlock isb p 1 = isb ∧ escalatedStartBlock isb p 0 = isb := by
  unfold escalatedStartBlock
  constructor <;> simp

theorem escalatedStartBlock_mono (isb p a b : Nat) (h : a ≤ b) :
    escalatedStartBlock isb p a ≤ escalatedStartBlock isb p b := by
  unfold escalatedStartBlock
  have h1 : (a - 1) * (p + 5) ≤ (b - 1) * (p + 5) :=
    Nat.mul_le_mul_right _ (by omega)
  have h2 : a / 100 ≤ b / 100 := Nat.div_le_div_right h
  omega

/-- One iteration of a loop that has made `n` attempts with the delays set by
`newDkgRetryLoop`, absent overflow: the attempt function gets index `n + 1`
and the start block of the closed formula, and a continuing loop holds them. -/
theorem iteration_escalated (ext : RetryExternals) (ctx : Nat → Bool)
    (f : dkgAttemptParams → AttemptReturn) (drl : dkgRetryLoop) (q : AddressSet)
    (isb n : Nat)
    (hcounter : drl.attemptCounter = n)
    (hblock : drl.attemptStartBlock = escalatedStartBlock isb ext.ProtocolBlocks n)
    (hdelay : drl.delayBlocks = 5) (hfrequency : drl.delayBlocksBumpFrequency = 100)
    (hfactor : drl.delayBlocksBumpFactor = 20)
    (hn : n + 1 < 2 ^ 64)
    (hover : escalatedStartBlock isb ext.ProtocolBlocks (n + 1) < 2 ^ 64) :
    (∀ d q1, (iteration ext ctx f drl q).2 = .next d q1 →
      d.attemptCounter = n + 1 ∧
      d.attemptStartBlock = escalatedStartBlock isb ext.ProtocolBlocks (n + 1) ∧
      d.delayBlocks = 5 ∧ d.delayBlocksBumpFrequency = 100 ∧
      d.delayBlocksBumpFactor = 20) ∧
    (∀ p o, (iteration ext ctx f drl q).1.attempt = some (p, o) →
      p.index = n + 1 ∧
      p.startBlock = escalatedStartBlock isb ext.ProtocolBlocks (n + 1)) := by
  have h64 : uint64Size = 2 ^ 64 := rfl
  have hc : (drl.attemptCounter + 1) % uint64Size = n + 1 := by
    rw [hcounter, h64]
    exact Nat.mod_eq_of_lt hn
  have hnext : nextAttemptStartBlock ext
      { drl with attemptCounter := (drl.attemptCounter + 1) % uint64Size } =
      .ret (escalatedStartBlock isb ext.ProtocolBlocks (n + 1)) := by
    rw [hc]
    rcases Nat.eq_zero_or_pos n with h0 | hpos
    · subst h0
      simp only [nextAttemptStartBlock, Nat.zero_add, Nat.lt_irrefl, if_false, hblock]
      rw [(escalatedStartBlock_one isb ext.ProtocolBlocks).1,
        (escalatedStartBlock_one isb ext.ProtocolBlocks).2]
    · rw [nextAttemptStartBlock_escalated ext drl (n + 1) hdelay hfrequency hfactor
        (by omega), hblock, ← escalatedStartBlock_succ isb ext.ProtocolBlocks n hpos,
        Nat.mod_eq_of_lt hover]
  obtain ⟨hst, hnx, hat⟩ := iteration_counters ext ctx f drl q
  refine ⟨?_, ?_⟩
  · intro d q1 h
    have h1 := hnx d q1 h
    rw [hnext] at h1
    have hb := Run.ret.inj h1
    obtain ⟨_, _, _, a4, _, _, a7, a8, a9⟩ :=
      hst d (by rw [h]; rfl)
    simp only at a4 a7 a8 a9
    exact ⟨by rw [a4, hc], hb.symm, by rw [a7, hdelay], by rw [a8, hfrequency],
      by rw [a9, hfactor]⟩
  · intro p o h
    obtain ⟨h1, h2⟩ := hat p o h
    rw [hnext] at h2
    exact ⟨by rw [h1, hc], (Run.ret.inj h2).symm⟩

theorem startLoop_escalated (ext : RetryExternals) (ctx : Nat → Bool)
    (f : dkgAttemptParams → AttemptReturn) (isb : Nat) :
    ∀ (fuel : Nat) (drl : dkgRetryLoop) (q : AddressSet) (n : Nat),
      drl.attemptCounter = n →
      drl.attemptStartBlock = escalatedStartBlock isb ext.ProtocolBlocks n →
      drl.delayBlocks = 5 → drl.delayBlocksBumpFrequency = 100 →
      drl.delayBlocksBumpFactor = 20 →
      n + fuel < 2 ^ 64 →
      escalatedStartBlock isb ext.ProtocolBlocks (n + fuel) < 2 ^ 64 →
      (∀ d q1, (startLoop ext ctx f fuel drl q).2 = .next d q1 →
        d.attemptCounter = n + fuel ∧
        d.attemptStartBlock = escalatedStartBlock isb ext.ProtocolBlocks (n + fuel)) ∧
      (∀ i r p o, (startLoop ext ctx f fuel drl q).1[i]? = some r →
        r.attempt = some (p, o) →
        p.index = n + i + 1 ∧
        p.startBlock = escalatedStartBlock isb ext.ProtocolBlocks (n + i + 1)) := by
  intro fuel
  induction fuel with
  | zero =>
    intro drl q n hcounter hblock _ _ _ _ _
    refine ⟨?_, ?_⟩
    · intro d q1 h
      simp only [startLoop, LoopStep.next.injEq] at h
      rw [← h.1]
      exact ⟨hcounter, hblock⟩
    · intro i r p o h
      simp [startLoop] at h
  | succ fuel ih =>
    intro drl q n hcounter hblock hdelay hfrequency hfactor hn hover
    have hover1 : escalatedStartBlock isb ext.ProtocolBlocks (n + 1) < 2 ^ 64 :=
      Nat.lt_of_le_of_lt
        (escalatedStartBlock_mono isb ext.ProtocolBlocks (n + 1) (n + (fuel + 1))
          (by omega)) hover
    obtain ⟨hnext, hattempt⟩ := iteration_escalated ext ctx f drl q isb n hcounter hblock
      hdelay hfrequency hfactor (by omega) hover1
    rw [startLoop_records_succ, startLoop_step_succ]
    cases hs : (iteration ext ctx f drl q).2 with
    | returned _ _ _ _ =>
      refine ⟨?_, ?_⟩
      · intro d q1 h
        exact absurd h (by simp)
      · intro i r p o h hr
        cases i with
        | zero =>
          simp only [List.getElem?_cons_zero, Option.some.injEq] at h
          subst h
          exact hattempt p o hr
        | succ i => simp at h
    | panicked =>
      refine ⟨?_, ?_⟩
      · intro d q1 h
        exact absurd h (by simp)
      · intro i r p o h hr
        cases i with
        | zero =>
          simp only [List.getElem?_cons_zero, Option.some.injEq] at h
          subst h
          exact hattempt p o hr
        | succ i => simp at h
    | next d1 q2 =>
      obtain ⟨c1, c2, c3, c4, c5⟩ := hnext d1 q2 hs
      have e1 : n + 1 + fuel = n + (fuel + 1) := by omega
      obtain ⟨ih1, ih2⟩ := ih d1 q2 (n + 1) c1 c2 c3 c4 c5 (by omega) (by rw [e1]; exact hover)
      refine ⟨?_, ?_⟩
      · intro d q1 h
        simp only at h
        have := ih1 d q1 h
        rw [e1] at this
        exact this
      · intro i r p o h hr
        cases i with
        | zero =>
          simp only [List.getElem?_cons_zero, Option.some.injEq] at h
          subst h
          exact hattempt p o hr
        | succ i =>
          simp only [List.getElem?_cons_succ] at h
          have := ih2 i r p o h hr
          have e2 : n + 1 + i + 1 = n + (i + 1) + 1 := by omega
          rw [e2] at this
          exact this

/-- C25: attempt start blocks follow the escalating-delay rule. With the
delays set by `newDkgRetryLoop`, for every attempt `n > 1`, executed or
skipped, `attemptStartBlock_n = attemptStartBlock_(n-1) + dkg.ProtocolBlocks()
+ d_n` in `uint64`, where `d_n = 5 * 20 = 100` if `n` is a multiple of `100`
and `d_n = 5` otherwise. For a loop built by `newDkgRetryLoop`, absent
overflow, `attemptStartBlock_n = initialStartBlock
+ (n-1) * (ProtocolBlocks + 5) + 95 * floor(n/100)`: it is the start block held
after `n` iterations and the one passed to the attempt function in attempt
`n`, whose index is `n`. -/
theorem c25_attempt_start_blocks (sha256Sum256 : List Nat → List Nat) (seed : Int)
    (initialStartBlock : Nat) (memberIndex : MemberIndex)
    (selectedOperators : List Address) (chainConfig : ChainConfig)
    (ext : RetryExternals) (ctx : Nat → Bool) (f : dkgAttemptParams → AttemptReturn) :
    (∀ (drl : dkgRetryLoop) (q : AddressSet) (n : Nat),
      drl.delayBlocks = 5 → drl.delayBlocksBumpFrequency = 100 →
      drl.delayBlocksBumpFactor = 20 →
      drl.attemptCounter + 1 = n → 1 < n → n < 2 ^ 64 →
      (∀ d q1, (iteration ext ctx f drl q).2 = .next d q1 →
        d.attemptStartBlock = (drl.attemptStartBlock + ext.ProtocolBlocks +
          (if n % 100 = 0 then 5 * 20 else 5)) % 2 ^ 64) ∧
      (∀ p o, (iteration ext ctx f drl q).1.attempt = some (p, o) →
        p.startBlock = (drl.attemptStartBlock + ext.ProtocolBlocks +
          (if n % 100 = 0 then 5 * 20 else 5)) % 2 ^ 64)) ∧
    (∀ n : Nat, n < 2 ^ 64 →
      initialStartBlock + (n - 1) * (ext.ProtocolBlocks + 5) + 95 * (n / 100) < 2 ^ 64 →
      (∀ d q1, (start ext ctx f n
          (newDkgRetryLoop sha256Sum256 seed initialStartBlock memberIndex
            selectedOperators chainConfig)).2 = .next d q1 →
        d.attemptCounter = n ∧
        d.attemptStartBlock =
          initialStartBlock + (n - 1) * (ext.ProtocolBlocks + 5) + 95 * (n / 100)) ∧
      (∀ i r p o, (start ext ctx f n
          (newDkgRetryLoop sha256Sum256 seed initialStartBlock memberIndex
            selectedOperators chainConfig)).1[i]? = some r →
        r.attempt = some (p, o) →
        p.index = i + 1 ∧
        p.startBlock =
          initialStartBlock + (i + 1 - 1) * (ext.ProtocolBlocks + 5)
            + 95 * ((i + 1) / 100))) := by
  refine ⟨?_, ?_⟩
  · intro drl q n hdelay hfrequency hfactor hcounter hn hn64
    have h64 : uint64Size = 2 ^ 64 := rfl
    have hc : (drl.attemptCounter + 1) % uint64Size = n := by
      rw [hcounter, h64]
      exact Nat.mod_eq_of_lt hn64
    have hnext := nextAttemptStartBlock_escalated ext drl n hdelay hfrequency hfactor hn
    obtain ⟨_, hnx, hat⟩ := iteration_counters ext ctx f drl q
    rw [hc] at hnx hat
    refine ⟨?_, ?_⟩
    · intro d q1 h
      have h1 := hnx d q1 h
      rw [hnext] at h1
      exact (Run.ret.inj h1).symm
    · intro p o h
      have h1 := (hat p o h).2
      rw [hnext] at h1
      exact (Run.ret.inj h1).symm
  · intro n hn hover
    have h := startLoop_escalated ext ctx f initialStartBlock n
      (newDkgRetryLoop sha256Sum256 seed initialStartBlock memberIndex selectedOperators
        chainConfig) (Addresses.Set selectedOperators) 0 rfl
      (escalatedStartBlock_one initialStartBlock ext.ProtocolBlocks).2.symm rfl rfl rfl
      (by omega) (by rw [Nat.zero_add]; exact hover)
    simp only [Nat.zero_add, escalatedStartBlock] at h
    exact h

/-- C25 on the example loop of member `2`, which is still looping after three
iterations: start block `1000 + 2 * 55 = 1110`. -/
theorem c25_attempt_start_blocks_witness :
    (3 < 2 ^ 64) ∧
    (1000 + (3 - 1) * (exampleRetryExternals.ProtocolBlocks + 5) + 95 * (3 / 100)
      < 2 ^ 64) ∧
    (start exampleRetryExternals (fun _ => false) exampleAttemptFn 3
      (newDkgRetryLoop (fun _ => List.replicate 32 255) 12345 1000 2
        ["A", "B", "C", "D", "E"] exampleChainConfig)).2 =
      .next { exampleRetryLoop 2 with attemptCounter := 3, attemptStartBlock := 1110,
                                      inactiveOperatorsSet := ["B"] }
        ["A", "C", "D", "E"] ∧
    ({ exampleRetryLoop 2 with attemptCounter := 3, attemptStartBlock := 1110,
                               inactiveOperatorsSet := ["B"] } : dkgRetryLoop).attemptStartBlock
      = 1000 + (3 - 1) * (exampleRetryExternals.ProtocolBlocks + 5) + 95 * (3 / 100) :=
  ⟨by decide, by decide, by decide,
    (((c25_attempt_start_blocks (fun _ => List.replicate 32 255) 12345 1000 2
      ["A", "B", "C", "D", "E"] exampleChainConfig exampleRetryExternals (fun _ => false)
      exampleAttemptFn).2 3 (by decide) (by decide)).1
      { exampleRetryLoop 2 with attemptCounter := 3, attemptStartBlock := 1110,
                                inactiveOperatorsSet := ["B"] }
      ["A", "C", "D", "E"] (by decide)).2⟩

/-! ### Skipping and the excluded members -/

theorem mem_unqualifiedMemberIndexes (Q : AddressSet) (l : List Address) :
    ∀ (first k : Nat), k ∈ unqualifiedMemberIndexes Q first l ↔
      ∃ j op, l[j]? = some op ∧ op ∉ Q ∧ k = first + j + 1 := by
  induction l with
  | nil =>
    intro first k
    simp [unqualifiedMemberIndexes]
  | cons a rest ih =>
    intro first k
    unfold unqualifiedMemberIndexes
    by_cases ha : Q.get a = true
    · have haQ : a ∈ Q := (addressSet_get_iff Q a).1 ha
      rw [if_pos ha, ih]
      constructor
      · rintro ⟨j, op, h1, h2, h3⟩
        exact ⟨j + 1, op, by simpa using h1, h2, by omega⟩
      · rintro ⟨j, op, h1, h2, h3⟩
        cases j with
        | zero =>
          simp only [List.getElem?_cons_zero, Option.some.injEq] at h1
          subst h1
          exact absurd haQ h2
        | succ j =>
          exact ⟨j, op, by simpa using h1, h2, by omega⟩
    · have haQ : a ∉ Q := fun h => ha ((addressSet_get_iff Q a).2 h)
      rw [if_neg ha, List.mem_cons, ih]
      constructor
      · rintro (h | ⟨j, op, h1, h2, h3⟩)
        · exact ⟨0, a, by simp, haQ, by omega⟩
        · exact ⟨j + 1, op, by simpa using h1, h2, by omega⟩
      · rintro ⟨j, op, h1, h2, h3⟩
        cases j with
        | zero => exact Or.inl (by omega)
        | succ j => exact Or.inr ⟨j, op, by simpa using h1, h2, by omega⟩

theorem sorted_unqualifiedMemberIndexes (Q : AddressSet) (l : List Address) :
    ∀ first : Nat, (unqualifiedMemberIndexes Q first l).Sorted (· < ·) := by
  induction l with
  | nil => intro first; simp [unqualifiedMemberIndexes]
  | cons a rest ih =>
    intro first
    unfold unqualifiedMemberIndexes
    split
    · exact ih _
    · refine List.sorted_cons.2 ⟨?_, ih _⟩
      intro b hb
      obtain ⟨j, op, _, _, h3⟩ := (mem_unqualifiedMemberIndexes Q rest (first + 1) b).1 hb
      unfold MemberIndex at *
      omega

/-- The loop that decides `attemptSkipped`, when every position has a member
index (`i + len <= 255`): it breaks exactly if the operator at the loop's own
position is unqualified, and otherwise collects the member indexes of all
unqualified positions. -/
theorem excludedMembersLoop_spec (own : MemberIndex) (Q : AddressSet) (l : List Address) :
    ∀ (i : Nat) (acc : List MemberIndex), i + l.length ≤ 255 →
      ((excludedMembersLoop own Q i l acc).2 = true ↔
        ∃ j op, l[j]? = some op ∧ op ∉ Q ∧ i + j + 1 = own) ∧
      ((excludedMembersLoop own Q i l acc).2 = false →
        (excludedMembersLoop own Q i l acc).1 = acc ++ unqualifiedMemberIndexes Q i l) := by
  induction l with
  | nil =>
    intro i acc _
    simp [excludedMembersLoop, unqualifiedMemberIndexes]
  | cons a rest ih =>
    intro i acc hlen
    simp only [List.length_cons] at hlen
    have hmod : (i + 1) % 256 = i + 1 := Nat.mod_eq_of_lt (by omega)
    unfold excludedMembersLoop unqualifiedMemberIndexes
    by_cases ha : Q.get a = true
    · have haQ : a ∈ Q := (addressSet_get_iff Q a).1 ha
      simp only [ha, Bool.not_true, Bool.false_eq_true, if_false, if_true]
      obtain ⟨i1, i2⟩ := ih (i + 1) acc (by omega)
      refine ⟨?_, i2⟩
      rw [i1]
      constructor
      · rintro ⟨j, op, h1, h2, h3⟩
        exact ⟨j + 1, op, by simpa using h1, h2, by omega⟩
      · rintro ⟨j, op, h1, h2, h3⟩
        cases j with
        | zero =>
          simp only [List.getElem?_cons_zero, Option.some.injEq] at h1
          subst h1
          exact absurd haQ h2
        | succ j => exact ⟨j, op, by simpa using h1, h2, by omega⟩
    · have haQ : a ∉ Q := fun h => ha ((addressSet_get_iff Q a).2 h)
      have ha2 : Q.get a = false := by simpa using ha
      simp only [ha2, Bool.not_false, if_true, hmod, Bool.false_eq_true, if_false]
      by_cases hown : i + 1 = own
      · simp only [hown, if_true]
        refine ⟨?_, ?_⟩
        · constructor
          · intro _
            exact ⟨0, a, by simp, haQ, by omega⟩
          · intro _
            trivial
        · intro h
          exact absurd h (by simp)
      · simp only [hown, if_false]
        obtain ⟨i1, i2⟩ := ih (i + 1) (acc ++ [i + 1]) (by omega)
        refine ⟨?_, ?_⟩
        · rw [i1]
          constructor
          · rintro ⟨j, op, h1, h2, h3⟩
            exact ⟨j + 1, op, by simpa using h1, h2, by omega⟩
          · rintro ⟨j, op, h1, h2, h3⟩
            cases j with
            | zero => exact absurd (by omega) hown
            | succ j => exact ⟨j, op, by simpa using h1, h2, by omega⟩
        · intro h
          rw [i2 h]
          simp

set_option maxRecDepth 100000 in
/-- C26 (as stated) fails when `selectedOperators` has more than `255`
elements. With `257` operators, `256` times `A` and then `B`, the qualified
set `{A}` and the loop of member `1`: the loop's own operator
`selectedOperators[0] = A` is qualified, but position `256` is not and its
member index `group.MemberIndex(257)` wraps to `1`, so the attempt is
skipped. -/
theorem c26_skipped_with_qualified_own_operator :
    (List.replicate 256 "A" ++ ["B"] : List Address)[1 - 1]? = some "A" ∧
    "A" ∈ (["A"] : AddressSet) ∧
    (excludedMembersLoop 1 ["A"] 0 (List.replicate 256 "A" ++ ["B"]) []).2 = true ∧
    (iteration exampleRetryExternals (fun _ => false) exampleAttemptFn
      { exampleRetryLoop 1 with selectedOperators := List.replicate 256 "A" ++ ["B"] }
      ["A"]).1.attempt = none := by
  decide

/-- C26 (amended): when `selectedOperators` has at most `255` elements (and
the loop's member index is at least `1`), then for every attempt of `start`
with current qualified set `Q`: the attempt is skipped (`attemptSkipped`, the
attempt function is not invoked) if and only if the loop's own operator
`selectedOperators[memberIndex-1]` is not in `Q`; when it is not skipped, the
`excludedMembers` passed to the attempt function is exactly the ascending list
of all member indexes `i+1` such that `selectedOperators[i]` is not in `Q`. -/
theorem c26_skip_iff_own_operator_unqualified (ext : RetryExternals) (ctx : Nat → Bool)
    (f : dkgAttemptParams → AttemptReturn) (drl : dkgRetryLoop) (Q : AddressSet)
    (hlen : drl.selectedOperators.length ≤ 255)
    (hown : 1 ≤ drl.memberIndex) :
    ((excludedMembersLoop drl.memberIndex Q 0 drl.selectedOperators []).2 = true ↔
      ∃ op, drl.selectedOperators[drl.memberIndex - 1]? = some op ∧ op ∉ Q) ∧
    (ctx ((drl.attemptCounter + 1) % 2 ^ 64) = false →
      nextAttemptStartBlock ext
        { drl with attemptCounter := (drl.attemptCounter + 1) % 2 ^ 64 } ≠ .panic →
      ((iteration ext ctx f drl Q).1.attempt = none ↔
        ∃ op, drl.selectedOperators[drl.memberIndex - 1]? = some op ∧ op ∉ Q)) ∧
    (∀ p o, (iteration ext ctx f drl Q).1.attempt = some (p, o) →
      p.excludedMembers = unqualifiedMemberIndexes Q 0 drl.selectedOperators ∧
      (∀ k, k ∈ p.excludedMembers ↔
        ∃ i op, drl.selectedOperators[i]? = some op ∧ op ∉ Q ∧ k = i + 1) ∧
      p.excludedMembers.Sorted (· < ·)) := by
  obtain ⟨hsk, hex⟩ := excludedMembersLoop_spec drl.memberIndex Q drl.selectedOperators 0 []
    (by omega)
  have hskip : (excludedMembersLoop drl.memberIndex Q 0 drl.selectedOperators []).2 = true ↔
      ∃ op, drl.selectedOperators[drl.memberIndex - 1]? = some op ∧ op ∉ Q := by
    rw [hsk]
    constructor
    · rintro ⟨j, op, h1, h2, h3⟩
      have hj : j = drl.memberIndex - 1 := by
        unfold MemberIndex at *
        omega
      subst hj
      exact ⟨op, h1, h2⟩
    · rintro ⟨op, h1, h2⟩
      refine ⟨drl.memberIndex - 1, op, h1, h2, ?_⟩
      unfold MemberIndex at *
      omega
  refine ⟨hskip, ?_, ?_⟩
  · intro hctx hpanic
    rw [← hskip]
    have h64 : (2 : Nat) ^ 64 = uint64Size := rfl
    rw [h64] at hctx hpanic
    rcases iteration_cases ext ctx f drl Q with ⟨hc, _, _⟩ | ⟨_, hp, _⟩ | ⟨_, b, _, hi⟩
    · rw [hctx] at hc
      exact absurd hc (by simp)
    · exact absurd hp hpanic
    · rcases hi with ⟨excl, he, hi⟩ | ⟨excl, he, hi⟩
      · rw [hi, he]
        simp
      · rw [hi, he]
        simp
  · intro p o h
    have hp : excludedMembersLoop drl.memberIndex Q 0 drl.selectedOperators []
        = (p.excludedMembers, false) := by
      rcases iteration_cases ext ctx f drl Q with ⟨_, hr, _⟩ | ⟨_, _, hi⟩ | ⟨_, b, _, hi⟩
      · rw [hr] at h
        exact absurd h (by simp)
      · rw [hi] at h
        exact absurd h (by simp)
      · rcases hi with ⟨excl, he, hi⟩ | ⟨excl, he, hi⟩
        · rw [hi] at h
          exact absurd h (by simp)
        · rw [hi] at h
          simp only [Option.some.injEq, Prod.mk.injEq] at h
          rw [he, ← h.1]
    have heq : p.excludedMembers = unqualifiedMemberIndexes Q 0 drl.selectedOperators := by
      have := hex (by rw [hp])
      rw [hp] at this
      simpa using this
    refine ⟨heq, ?_, ?_⟩
    · intro k
      rw [heq, mem_unqualifiedMemberIndexes]
      constructor
      · rintro ⟨j, op, h1, h2, h3⟩
        exact ⟨j, op, h1, h2, by rw [h3, Nat.zero_add]⟩
      · rintro ⟨j, op, h1, h2, h3⟩
        exact ⟨j, op, h1, h2, by rw [h3, Nat.zero_add]⟩
    · rw [heq]
      exact sorted_unqualifiedMemberIndexes Q drl.selectedOperators 0

/-- C26 (amended) on the example loop of member `2` with the qualified set
`A, C, D, E`: the attempt is skipped. -/
theorem c26_skip_iff_own_operator_unqualified_witness :
    ((exampleRetryLoop 2).selectedOperators.length ≤ 255) ∧
    (1 ≤ (exampleRetryLoop 2).memberIndex) ∧
    ((excludedMembersLoop (exampleRetryLoop 2).memberIndex ["A", "C", "D", "E"] 0
        (exampleRetryLoop 2).selectedOperators []).2 = true ↔
      ∃ op, (exampleRetryLoop 2).selectedOperators[(exampleRetryLoop 2).memberIndex - 1]?
          = some op ∧ op ∉ (["A", "C", "D", "E"] : AddressSet)) :=
  ⟨by decide, by decide,
    (c26_skip_iff_own_operator_unqualified exampleRetryExternals (fun _ => false)
      exampleAttemptFn (exampleRetryLoop 2) ["A", "C", "D", "E"] (by decide)
      (by decide)).1⟩

/-! ### Inactivity evidence -/

/-- An invariant of single iterations is an invariant of every run. -/
theorem startLoop_invariant (ext : RetryExternals) (ctx : Nat → Bool)
    (f : dkgAttemptParams → AttemptReturn) (R : dkgRetryLoop → dkgRetryLoop → Prop)
    (hrefl : ∀ a, R a a) (htrans : ∀ a b c, R a b → R b c → R a c)
    (hstep : ∀ drl q d, (iteration ext ctx f drl q).2.state? = some d → R drl d) :
    ∀ (fuel : Nat) (drl : dkgRetryLoop) (q : AddressSet) (d : dkgRetryLoop),
      (startLoop ext ctx f fuel drl q).2.state? = some d → R drl d := by
  intro fuel
  induction fuel with
  | zero =>
    intro drl q d h
    simp only [startLoop, LoopStep.state?, Option.some.injEq] at h
    rw [← h]
    exact hrefl drl
  | succ fuel ih =>
    intro drl q d h
    rw [startLoop_step_succ] at h
    cases hs : (iteration ext ctx f drl q).2 with
    | next d1 q1 =>
      rw [hs] at h
      simp only at h
      exact htrans _ _ _ (hstep drl q d1 (by rw [hs]; rfl)) (ih d1 q1 d h)
    | returned a b c d1 =>
      rw [hs] at h
      exact hstep drl q d (by rw [hs]; exact h)
    | panicked =>
      rw [hs] at h
      exact absurd h (by simp [LoopStep.state?])

theorem inactiveMembersLoop_superset (selectedOperators : List Address)
    (indexes : List MemberIndex) :
    ∀ (set set1 : AddressSet),
      inactiveMembersLoop selectedOperators indexes set = .ret set1 →
      ∀ a ∈ set, a ∈ set1 := by
  induction indexes with
  | nil =>
    intro set set1 h a ha
    simp only [inactiveMembersLoop, Run.ret.injEq] at h
    rw [← h]
    exact ha
  | cons i rest ih =>
    intro set set1 h a ha
    rw [inactiveMembersLoop] at h
    cases hop : selectedOperators[(i + 256 - 1) % 256]? with
    | none =>
      rw [hop] at h
      exact absurd h (by simp)
    | some op =>
      rw [hop] at h
      exact ih _ _ h a ((mem_setTrue set op a).2 (Or.inl ha))

/-- The merge of reported members: with every index in
`[1, len(selectedOperators)]` it does not panic, and the new set is the old
one united with the operators of the reported members. -/
theorem inactiveMembersLoop_spec (selectedOperators : List Address)
    (indexes : List MemberIndex) :
    ∀ (set : AddressSet),
      (∀ i ∈ indexes, 1 ≤ i ∧ i ≤ selectedOperators.length ∧ i < 256) →
      ∃ set1, inactiveMembersLoop selectedOperators indexes set = .ret set1 ∧
        ∀ a, a ∈ set1 ↔ (a ∈ set ∨ ∃ i ∈ indexes, selectedOperators[i - 1]? = some a) := by
  induction indexes with
  | nil =>
    intro set _
    exact ⟨set, rfl, by simp⟩
  | cons i rest ih =>
    intro set hvalid
    obtain ⟨h1, h2, h3⟩ := hvalid i (List.mem_cons_self _ _)
    have hidx : (i + 256 - 1) % 256 = i - 1 := by
      unfold MemberIndex at *
      omega
    have hlt : i - 1 < selectedOperators.length := by
      unfold MemberIndex at *
      omega
    obtain ⟨set1, hret, hmem⟩ := ih (set.setTrue selectedOperators[i - 1])
      (fun j hj => hvalid j (List.mem_cons_of_mem _ hj))
    refine ⟨set1, ?_, ?_⟩
    · rw [inactiveMembersLoop, hidx, List.getElem?_eq_getElem hlt]
      exact hret
    · intro a
      rw [hmem, mem_setTrue]
      constructor
      · rintro ((h | h) | ⟨j, hj, hja⟩)
        · exact Or.inl h
        · exact Or.inr ⟨i, List.mem_cons_self _ _, by rw [List.getElem?_eq_getElem hlt, h]⟩
        · exact Or.inr ⟨j, List.mem_cons_of_mem _ hj, hja⟩
      · rintro (h | ⟨j, hj, hja⟩)
        · exact Or.inl (Or.inl h)
        · rcases List.mem_cons.1 hj with e | e
          · subst e
            rw [List.getElem?_eq_getElem hlt] at hja
            exact Or.inl (Or.inr (Option.some.inj hja).symm)
          · exact Or.inr ⟨j, e, hja⟩

theorem qualifiedOperatorsSet_evidence (ext : RetryExternals) (drl : dkgRetryLoop) :
    (qualifiedOperatorsSet ext drl).2.inactiveOperatorsSet = drl.inactiveOperatorsSet := by
  rw [qualifiedOperatorsSet_fields]

/-- The inactivity evidence after an iteration, by what happened in it. -/
theorem iteration_evidence (ext : RetryExternals) (ctx : Nat → Bool)
    (f : dkgAttemptParams → AttemptReturn) (drl : dkgRetryLoop) (q : AddressSet)
    (d : dkgRetryLoop) (h : (iteration ext ctx f drl q).2.state? = some d) :
    ((iteration ext ctx f drl q).1.attempt = none →
      d.inactiveOperatorsSet = drl.inactiveOperatorsSet) ∧
    (∀ p result endBlock, (iteration ext ctx f drl q).1.attempt
        = some (p, (result, endBlock, none)) →
      d.inactiveOperatorsSet = drl.inactiveOperatorsSet) ∧
    (∀ p result endBlock message, (iteration ext ctx f drl q).1.attempt
        = some (p, (result, endBlock, some (.other message))) →
      d.inactiveOperatorsSet = drl.inactiveOperatorsSet) ∧
    (∀ p result endBlock indexes, (iteration ext ctx f drl q).1.attempt
        = some (p, (result, endBlock, some (.InactiveMembersError indexes))) →
      inactiveMembersLoop drl.selectedOperators indexes drl.inactiveOperatorsSet
        = .ret d.inactiveOperatorsSet) := by
  rcases iteration_cases ext ctx f drl q with ⟨hc, _, _⟩ | ⟨_, _, hi⟩ | ⟨_, b, hb, hi⟩
  · obtain ⟨err, he⟩ := iteration_ctx_done ext ctx f drl q hc
    rw [he] at h ⊢
    simp only [LoopStep.state?, Option.some.injEq] at h
    subst h
    refine ⟨fun _ => rfl, ?_, ?_, ?_⟩ <;>
      · intros
        rename_i hx
        exact absurd hx (by simp)
  · rw [hi] at h
    exact absurd h (by simp [LoopStep.state?])
  · rcases hi with ⟨excl, _, hi⟩ | ⟨excl, _, hi⟩
    · rw [hi] at h ⊢
      simp only at h
      rw [requalify_state] at h
      have hd := Option.some.inj h
      refine ⟨?_, ?_, ?_, ?_⟩
      · intro _
        rw [← hd, qualifiedOperatorsSet_evidence]
      all_goals
        intros
        rename_i hx
        exact absurd hx (by simp)
    · rw [hi] at h ⊢
      simp only at h
      obtain ⟨h1, h2, h3⟩ := afterAttempt_state ext _ _ d h
      refine ⟨?_, ?_, ?_, ?_⟩
      · intro hx
        exact absurd hx (by simp)
      · intro p result endBlock hx
        simp only [Option.some.injEq, Prod.mk.injEq] at hx
        rw [h1 result endBlock hx.2]
      · intro p result endBlock message hx
        simp only [Option.some.injEq, Prod.mk.injEq] at hx
        rw [h2 result endBlock message hx.2, qualifiedOperatorsSet_evidence]
      · intro p result endBlock indexes hx
        simp only [Option.some.injEq, Prod.mk.injEq] at hx
        obtain ⟨set, hset, hd⟩ := h3 result endBlock indexes hx.2
        simp only at hset
        rw [hd, qualifiedOperatorsSet_evidence]
        exact hset

theorem iteration_evidence_grows (ext : RetryExternals) (ctx : Nat → Bool)
    (f : dkgAttemptParams → AttemptReturn) (drl : dkgRetryLoop) (q : AddressSet)
    (d : dkgRetryLoop) (h : (iteration ext ctx f drl q).2.state? = some d) :
    ∀ a ∈ drl.inactiveOperatorsSet, a ∈ d.inactiveOperatorsSet := by
  obtain ⟨h0, h1, h2, h3⟩ := iteration_evidence ext ctx f drl q d h
  intro a ha
  cases hrec : (iteration ext ctx f drl q).1.attempt with
  | none =>
    rw [h0 hrec]
    exact ha
  | some x =>
    obtain ⟨p, result, endBlock, err⟩ := x
    cases err with
    | none =>
      rw [h1 p result endBlock hrec]
      exact ha
    | some e =>
      cases e with
      | other message =>
        rw [h2 p result endBlock message hrec]
        exact ha
      | InactiveMembersError indexes =>
        exact inactiveMembersLoop_superset _ _ _ _ (h3 p result endBlock indexes hrec) a ha

/-- C27: inactivity evidence only accumulates. When an attempt fails with an
`InactiveMembersError` carrying member indexes `I`, all within
`[1, len(selectedOperators)]`, `inactiveOperatorsSet` afterwards is the
previous set united with `{selectedOperators[i-1] | i in I}`; when an attempt
is skipped or fails with any other error, `inactiveOperatorsSet` is unchanged;
no iteration, and so no run of the loop, removes an operator from it. -/
theorem c27_inactivity_evidence_accumulates (ext : RetryExternals) (ctx : Nat → Bool)
    (f : dkgAttemptParams → AttemptReturn) (drl : dkgRetryLoop) (q : AddressSet) :
    (∀ p result endBlock indexes,
      (iteration ext ctx f drl q).1.attempt
        = some (p, (result, endBlock, some (.InactiveMembersError indexes))) →
      (∀ i ∈ indexes, 1 ≤ i ∧ i ≤ drl.selectedOperators.length ∧ i < 256) →
      ∃ d, (iteration ext ctx f drl q).2.state? = some d ∧
        ∀ a, a ∈ d.inactiveOperatorsSet ↔
          (a ∈ drl.inactiveOperatorsSet ∨
            ∃ i ∈ indexes, drl.selectedOperators[i - 1]? = some a)) ∧
    (∀ d, (iteration ext ctx f drl q).2.state? = some d →
      ((iteration ext ctx f drl q).1.attempt = none →
        d.inactiveOperatorsSet = drl.inactiveOperatorsSet) ∧
      (∀ p result endBlock message, (iteration ext ctx f drl q).1.attempt
          = some (p, (result, endBlock, some (.other message))) →
        d.inactiveOperatorsSet = drl.inactiveOperatorsSet)) ∧
    (∀ d, (iteration ext ctx f drl q).2.state? = some d →
      ∀ a ∈ drl.inactiveOperatorsSet, a ∈ d.inactiveOperatorsSet) ∧
    (∀ fuel d, (startLoop ext ctx f fuel drl q).2.state? = some d →
      ∀ a ∈ drl.inactiveOperatorsSet, a ∈ d.inactiveOperatorsSet) := by
  refine ⟨?_, ?_, ?_, ?_⟩
  · intro p result endBlock indexes hrec hvalid
    obtain ⟨set1, hret, hmem⟩ := inactiveMembersLoop_spec drl.selectedOperators indexes
      drl.inactiveOperatorsSet hvalid
    have hstate : ∃ d, (iteration ext ctx f drl q).2.state? = some d := by
      rcases iteration_cases ext ctx f drl q with ⟨_, hr, _⟩ | ⟨_, _, hi⟩ | ⟨_, b, _, hi⟩
      · rw [hr] at hrec
        exact absurd hrec (by simp)
      · rw [hi] at hrec
        exact absurd hrec (by simp)
      · rcases hi with ⟨excl, _, hi⟩ | ⟨excl, _, hi⟩
        · rw [hi] at hrec
          exact absurd hrec (by simp)
        · rw [hi] at hrec ⊢
          simp only [Option.some.injEq, Prod.mk.injEq] at hrec
          simp only
          rw [hrec.2]
          simp only [afterAttempt, hret]
          rw [requalify_state]
          exact ⟨_, rfl⟩
    obtain ⟨d, hd⟩ := hstate
    refine ⟨d, hd, ?_⟩
    have h3 := (iteration_evidence ext ctx f drl q d hd).2.2.2 p result endBlock indexes hrec
    rw [hret] at h3
    rw [← Run.ret.inj h3]
    exact hmem
  · intro d hd
    obtain ⟨h0, _, h2, _⟩ := iteration_evidence ext ctx f drl q d hd
    exact ⟨h0, h2⟩
  · intro d hd
    exact iteration_evidence_grows ext ctx f drl q d hd
  · intro fuel d hd
    exact startLoop_invariant ext ctx f
      (fun a b => ∀ x ∈ a.inactiveOperatorsSet, x ∈ b.inactiveOperatorsSet)
      (fun _ _ hx => hx) (fun _ _ _ h1 h2 x hx => h2 x (h1 x hx))
      (fun drl1 q1 d1 h1 => iteration_evidence_grows ext ctx f drl1 q1 d1 h1)
      fuel drl q d hd

/-- C27 on the first iteration of the example loop of member `1`: the attempt
reports member `2`, and `B` is the evidence afterwards. -/
theorem c27_inactivity_evidence_accumulates_witness :
    (iteration exampleRetryExternals (fun _ => false) exampleAttemptFn
        (exampleRetryLoop 1) ["A", "B", "C", "D", "E"]).1.attempt
      = some (⟨1, 1000, []⟩, (none, 0, some (.InactiveMembersError [2]))) ∧
    (∀ i ∈ ([2] : List MemberIndex),
      1 ≤ i ∧ i ≤ (exampleRetryLoop 1).selectedOperators.length ∧ i < 256) ∧
    ∃ d, (iteration exampleRetryExternals (fun _ => false) exampleAttemptFn
        (exampleRetryLoop 1) ["A", "B", "C", "D", "E"]).2.state? = some d ∧
      ∀ a, a ∈ d.inactiveOperatorsSet ↔
        (a ∈ (exampleRetryLoop 1).inactiveOperatorsSet ∨
          ∃ i ∈ ([2] : List MemberIndex),
            (exampleRetryLoop 1).selectedOperators[i - 1]? = some a) :=
  ⟨by decide, by decide,
    (c27_inactivity_evidence_accumulates exampleRetryExternals (fun _ => false)
      exampleAttemptFn (exampleRetryLoop 1) ["A", "B", "C", "D", "E"]).1
      ⟨1, 1000, []⟩ none 0 [2] (by decide) (by decide)⟩

/-! ### The fast path and the fallback of `qualifiedOperatorsSet` -/

theorem qualifiedOperatorsLoop_eq (inactive : AddressSet) (l : List Address) :
    ∀ acc : List Address,
      qualifiedOperatorsLoop inactive l acc =
        acc ++ l.filter (fun operator => decide (operator ∉ inactive)) := by
  induction l with
  | nil => intro acc; simp [qualifiedOperatorsLoop]
  | cons a rest ih =>
    intro acc
    unfold qualifiedOperatorsLoop
    by_cases ha : a ∈ inactive
    · have hg : inactive.get a = true := (addressSet_get_iff inactive a).2 ha
      simp [hg, ha, ih]
    · have hg : inactive.get a = false := by
        rw [← Bool.not_eq_true, addressSet_get_iff]
        exact ha
      simp [hg, ha, ih]

theorem qualifiedOperatorsLoop_length (inactive : AddressSet) (l : List Address) :
    (qualifiedOperatorsLoop inactive l []).length =
      l.countP (fun operator => decide (operator ∉ inactive)) := by
  rw [qualifiedOperatorsLoop_eq, List.nil_append, List.countP_eq_length_filter]

theorem qualifiedOperatorsSet_fast (ext : RetryExternals) (drl : dkgRetryLoop)
    (h : fastPathConditions drl = true) :
    qualifiedOperatorsSet ext drl =
      ((Addresses.Set (drl.selectedOperators.filter
          (fun operator => decide (operator ∉ drl.inactiveOperatorsSet))), none), drl) := by
  simp only [fastPathConditions, Bool.and_eq_true, decide_eq_true_eq] at h
  obtain ⟨⟨⟨h1, h2⟩, h3⟩, h4⟩ := h
  have h3b : 0 < drl.inactiveOperatorsSet.length := List.length_pos.2 h3
  have h4b : drl.chainConfig.GroupQuorum ≤
      ((qualifiedOperatorsLoop drl.inactiveOperatorsSet drl.selectedOperators []).length
        : Int) := by
    rw [qualifiedOperatorsLoop_length]
    exact h4
  unfold qualifiedOperatorsSet
  simp only [h1, h2, h3b, h4b, and_self, if_true]
  rw [qualifiedOperatorsLoop_eq, List.nil_append]

theorem qualifiedOperatorsSet_fallback (ext : RetryExternals) (drl : dkgRetryLoop)
    (h : fastPathConditions drl = false) :
    qualifiedOperatorsSet ext drl =
      (match randomSelection ext drl with
        | (_, some err) =>
          (([], some ("random operator selection failed: [" ++ err ++ "]")), drl)
        | (qualifiedOperators, none) =>
          ((Addresses.Set qualifiedOperators, none),
            { drl with randomRetryCounter := (drl.randomRetryCounter + 1) % uint64Size })) := by
  have hno : ¬ (drl.attemptCounter ≤ 5 ∧ drl.randomRetryCounter = 0 ∧
      0 < drl.inactiveOperatorsSet.length ∧
      drl.chainConfig.GroupQuorum ≤
        ((qualifiedOperatorsLoop drl.inactiveOperatorsSet drl.selectedOperators []).length
          : Int)) := by
    rintro ⟨h1, h2, h3, h4⟩
    rw [qualifiedOperatorsLoop_length] at h4
    have : fastPathConditions drl = true := by
      simp only [fastPathConditions, Bool.and_eq_true, decide_eq_true_eq]
      exact ⟨⟨⟨h1, h2⟩, List.length_pos.1 h3⟩, h4⟩
    rw [h] at this
    exact absurd this (by simp)
  unfold qualifiedOperatorsSet randomSelection
  by_cases hc : drl.attemptCounter ≤ 5 ∧ drl.randomRetryCounter = 0 ∧
      0 < drl.inactiveOperatorsSet.length
  · have hq : ¬ drl.chainConfig.GroupQuorum ≤
        ((qualifiedOperatorsLoop drl.inactiveOperatorsSet drl.selectedOperators []).length
          : Int) := fun h4 => hno ⟨hc.1, hc.2.1, hc.2.2, h4⟩
    simp only [hc, and_self, if_true, hq, if_false]
  · simp only [hc, if_false]

/-- What a call of `qualifiedOperatorsSet` does to `randomRetryCounter`. -/
theorem qualifiedOperatorsSet_counter (ext : RetryExternals) (drl : dkgRetryLoop) :
    (qualifiedOperatorsSet ext drl).2.randomRetryCounter =
      if fallbackSucceeds ext drl = true then (drl.randomRetryCounter + 1) % uint64Size
      else drl.randomRetryCounter := by
  cases hfast : fastPathConditions drl with
  | true =>
    rw [qualifiedOperatorsSet_fast ext drl hfast]
    simp [fallbackSucceeds, hfast]
  | false =>
    rw [qualifiedOperatorsSet_fallback ext drl hfast]
    rcases hsel : randomSelection ext drl with ⟨ops, _ | err⟩
    · simp [fallbackSucceeds, hfast, hsel]
    · simp [fallbackSucceeds, hfast, hsel]

/-- An error of `qualifiedOperatorsSet` leaves the state as it was. -/
theorem qualifiedOperatorsSet_error (ext : RetryExternals) (drl : dkgRetryLoop)
    (err : String) (h : (qualifiedOperatorsSet ext drl).1.2 = some err) :
    (qualifiedOperatorsSet ext drl).2 = drl := by
  cases hfast : fastPathConditions drl with
  | true =>
    rw [qualifiedOperatorsSet_fast ext drl hfast]
  | false =>
    rw [qualifiedOperatorsSet_fallback ext drl hfast] at h ⊢
    rcases hsel : randomSelection ext drl with ⟨ops, _ | e⟩
    · rw [hsel] at h
      exact absurd h (by simp)
    · rfl

theorem requalify_next (ext : RetryExternals) (x d : dkgRetryLoop) (q1 : AddressSet)
    (h : requalify ext x = .next d q1) :
    d = (qualifiedOperatorsSet ext x).2 ∧ q1 = (qualifiedOperatorsSet ext x).1.1 ∧
      (qualifiedOperatorsSet ext x).1.2 = none := by
  unfold requalify at h
  rcases hq : qualifiedOperatorsSet ext x with ⟨⟨set, _ | err⟩, d1⟩
  · rw [hq] at h
    simp only [LoopStep.next.injEq] at h
    exact ⟨h.1.symm, h.2.symm, rfl⟩
  · rw [hq] at h
    exact absurd h (by simp)

theorem requalify_returned (ext : RetryExternals) (x d : dkgRetryLoop)
    (result : Option Result) (endBlock : Nat) (err : Option String)
    (h : requalify ext x = .returned result endBlock err d) :
    d = x ∧ result = none ∧ endBlock = 0 ∧
      ∃ e, (qualifiedOperatorsSet ext x).1.2 = some e := by
  have herr := qualifiedOperatorsSet_error ext x
  unfold requalify at h
  rcases hq : qualifiedOperatorsSet ext x with ⟨⟨set, _ | e⟩, d1⟩
  · rw [hq] at h
    exact absurd h (by simp)
  · rw [hq] at h herr
    simp only [LoopStep.returned.injEq] at h
    have hd : d1 = x := herr e rfl
    exact ⟨by rw [← h.2.2.2, hd], h.1.symm, h.2.1.symm, e, rfl⟩

/-- An iteration ends in the call of `qualifiedOperatorsSet` made by
`requalify`, in a state that still holds the counter the iteration began
with, or it returns (or panics) with that counter. -/
theorem iteration_requalify (ext : RetryExternals) (ctx : Nat → Bool)
    (f : dkgAttemptParams → AttemptReturn) (drl : dkgRetryLoop) (q : AddressSet) :
    (∃ x, x.randomRetryCounter = drl.randomRetryCounter ∧
      x.randomRetrySeed = drl.randomRetrySeed ∧
      (iteration ext ctx f drl q).2 = requalify ext x) ∨
    (∃ result endBlock err d,
      (iteration ext ctx f drl q).2 = .returned result endBlock err d ∧
      d.randomRetryCounter = drl.randomRetryCounter ∧
      d.randomRetrySeed = drl.randomRetrySeed) ∨
    (iteration ext ctx f drl q).2 = .panicked := by
  rcases iteration_cases ext ctx f drl q with ⟨hc, _, _⟩ | ⟨_, _, hi⟩ | ⟨_, b, _, hi⟩
  · obtain ⟨err, he⟩ := iteration_ctx_done ext ctx f drl q hc
    right; left
    rw [he]
    exact ⟨_, _, _, _, rfl, rfl, rfl⟩
  · right; right
    rw [hi]
  · rcases hi with ⟨excl, _, hi⟩ | ⟨excl, _, hi⟩
    · left
      rw [hi]
      exact ⟨{ drl with attemptCounter := (drl.attemptCounter + 1) % uint64Size,
                        attemptStartBlock := b }, rfl, rfl, rfl⟩
    · rw [hi]
      rcases f ⟨(drl.attemptCounter + 1) % uint64Size, b, excl⟩ with
        ⟨result, endBlock, _ | (indexes | message)⟩
      · right; left
        exact ⟨_, _, _, _, rfl, rfl, rfl⟩
      · simp only [afterAttempt]
        rcases inactiveMembersLoop drl.selectedOperators indexes drl.inactiveOperatorsSet
          with _ | set
        · right; right
          rfl
        · left
          exact ⟨{ drl with attemptCounter := (drl.attemptCounter + 1) % uint64Size,
                            attemptStartBlock := b, inactiveOperatorsSet := set },
            rfl, rfl, rfl⟩
      · left
        exact ⟨{ drl with attemptCounter := (drl.attemptCounter + 1) % uint64Size,
                          attemptStartBlock := b }, rfl, rfl, rfl⟩

/-- The state in which a continuing iteration called `qualifiedOperatorsSet`,
and what the call did to the counter. -/
theorem iteration_next_counter (ext : RetryExternals) (ctx : Nat → Bool)
    (f : dkgAttemptParams → AttemptReturn) (drl : dkgRetryLoop) (q : AddressSet)
    (d : dkgRetryLoop) (q1 : AddressSet)
    (h : (iteration ext ctx f drl q).2 = .next d q1) :
    requalify ext { d with randomRetryCounter := drl.randomRetryCounter } = .next d q1 ∧
    d.randomRetryCounter =
      (if fallbackSucceeds ext { d with randomRetryCounter := drl.randomRetryCounter } = true
        then (drl.randomRetryCounter + 1) % uint64Size
        else drl.randomRetryCounter) := by
  rcases iteration_requalify ext ctx f drl q with
    ⟨x, hx, _, hi⟩ | ⟨result, endBlock, err, d1, hi, _⟩ | hi
  · rw [hi] at h
    obtain ⟨hd, _, _⟩ := requalify_next ext x d q1 h
    have hf := qualifiedOperatorsSet_fields ext x
    have hcount := qualifiedOperatorsSet_counter ext x
    rw [← hd] at hf hcount
    have hxd : ({ d with randomRetryCounter := drl.randomRetryCounter } : dkgRetryLoop)
        = x := by
      rw [hf, ← hx]
    rw [hxd]
    rw [hx] at hcount
    exact ⟨h, hcount⟩
  · rw [hi] at h
    exact absurd h (by simp)
  · rw [hi] at h
    exact absurd h (by simp)

theorem iteration_returned_counter (ext : RetryExternals) (ctx : Nat → Bool)
    (f : dkgAttemptParams → AttemptReturn) (drl : dkgRetryLoop) (q : AddressSet)
    (result : Option Result) (endBlock : Nat) (err : Option String) (d : dkgRetryLoop)
    (h : (iteration ext ctx f drl q).2 = .returned result endBlock err d) :
    d.randomRetryCounter = drl.randomRetryCounter := by
  rcases iteration_requalify ext ctx f drl q with
    ⟨x, hx, _, hi⟩ | ⟨result1, endBlock1, err1, d1, hi, hd1, _⟩ | hi
  · rw [hi] at h
    obtain ⟨hd, _⟩ := requalify_returned ext x d result endBlock err h
    rw [hd, hx]
  · rw [hi] at h
    simp only [LoopStep.returned.injEq] at h
    rw [← h.2.2.2]
    exact hd1
  · rw [hi] at h
    exact absurd h (by simp)

/-- The counter after a run is the counter before it plus the number of
successful executions of the fallback, in `uint` arithmetic. -/
theorem startLoop_counter (ext : RetryExternals) (ctx : Nat → Bool)
    (f : dkgAttemptParams → AttemptReturn) :
    ∀ (fuel : Nat) (drl : dkgRetryLoop) (q : AddressSet) (d : dkgRetryLoop),
      drl.randomRetryCounter < uint64Size →
      (startLoop ext ctx f fuel drl q).2.state? = some d →
      d.randomRetryCounter =
        (drl.randomRetryCounter + successfulFallbacks ext ctx f fuel drl q) % uint64Size := by
  intro fuel
  induction fuel with
  | zero =>
    intro drl q d hlt h
    simp only [startLoop, LoopStep.state?, Option.some.injEq] at h
    rw [← h, successfulFallbacks, Nat.add_zero, Nat.mod_eq_of_lt hlt]
  | succ fuel ih =>
    intro drl q d hlt h
    rw [startLoop_step_succ] at h
    rw [successfulFallbacks]
    rcases hi : (iteration ext ctx f drl q).2 with
      ⟨d1, q1⟩ | ⟨result, endBlock, err, d1⟩ | _
    · rw [hi] at h
      simp only at h ⊢
      obtain ⟨_, hcount⟩ := iteration_next_counter ext ctx f drl q d1 q1 hi
      have hpos : 0 < uint64Size := by unfold uint64Size; exact Nat.two_pow_pos 64
      by_cases hs : fallbackSucceeds ext
          { d1 with randomRetryCounter := drl.randomRetryCounter } = true
      · rw [if_pos hs] at hcount
        rw [if_pos hs]
        have hlt1 : d1.randomRetryCounter < uint64Size := by
          rw [hcount]
          exact Nat.mod_lt _ hpos
        rw [ih d1 q1 d hlt1 h, hcount, Nat.mod_add_mod, Nat.add_assoc]
      · rw [if_neg hs] at hcount
        rw [if_neg hs]
        have hlt1 : d1.randomRetryCounter < uint64Size := by
          rw [hcount]
          exact hlt
        rw [ih d1 q1 d hlt1 h, hcount, Nat.zero_add]
    · rw [hi] at h
      simp only [LoopStep.state?, Option.some.injEq] at h
      have := iteration_returned_counter ext ctx f drl q result endBlock err d1 hi
      simp only
      rw [← h, this, Nat.add_zero, Nat.mod_eq_of_lt hlt]
    · rw [hi] at h
      simp [LoopStep.state?] at h

/-- C28: the fast path of `qualifiedOperatorsSet`. Whenever
`attemptCounter <= 5`, `randomRetryCounter == 0`, `inactiveOperatorsSet` is
non-empty and at least `GroupQuorum` positions of `selectedOperators` hold an
operator that is not in `inactiveOperatorsSet`, the returned set is exactly the
set of the selected operators that are not in `inactiveOperatorsSet`, no error
is returned, the state is left as it was, so `randomRetryCounter` stays `0`,
and the random-selection primitive is not called: the outcome is the same
whatever the primitive is. -/
theorem c28_fast_path (ext : RetryExternals) (drl : dkgRetryLoop)
    (hattempt : drl.attemptCounter ≤ 5) (hrandom : drl.randomRetryCounter = 0)
    (hevidence : drl.inactiveOperatorsSet ≠ [])
    (hquorum : drl.chainConfig.GroupQuorum ≤
      ((drl.selectedOperators.countP
        (fun operator => decide (operator ∉ drl.inactiveOperatorsSet)) : Nat) : Int)) :
    ∃ set : AddressSet,
      qualifiedOperatorsSet ext drl = ((set, none), drl) ∧
      (∀ a, a ∈ set ↔ a ∈ drl.selectedOperators ∧ a ∉ drl.inactiveOperatorsSet) ∧
      (∀ a, set.get a = true ↔
        a ∈ drl.selectedOperators ∧ drl.inactiveOperatorsSet.get a = false) ∧
      (qualifiedOperatorsSet ext drl).2.randomRetryCounter = 0 ∧
      (∀ other : RetryExternals,
        qualifiedOperatorsSet other drl = qualifiedOperatorsSet ext drl) := by
  have hfast : fastPathConditions drl = true := by
    simp only [fastPathConditions, Bool.and_eq_true, decide_eq_true_eq]
    exact ⟨⟨⟨hattempt, hrandom⟩, hevidence⟩, hquorum⟩
  have hmem : ∀ a, a ∈ Addresses.Set (drl.selectedOperators.filter
        (fun operator => decide (operator ∉ drl.inactiveOperatorsSet))) ↔
      a ∈ drl.selectedOperators ∧ a ∉ drl.inactiveOperatorsSet := by
    intro a
    rw [mem_addresses_set, List.mem_filter, decide_eq_true_eq]
  refine ⟨_, qualifiedOperatorsSet_fast ext drl hfast, hmem, ?_, ?_, ?_⟩
  · intro a
    rw [addressSet_get_iff, hmem, ← Bool.not_eq_true, addressSet_get_iff]
  · rw [qualifiedOperatorsSet_fast ext drl hfast]
    exact hrandom
  · intro other
    rw [qualifiedOperatorsSet_fast ext drl hfast, qualifiedOperatorsSet_fast other drl hfast]

/-- C28 on the example loop after one attempt in which member `2` was inactive:
four of the five operators remain, which meets the quorum of four. -/
theorem c28_fast_path_witness :
    ({ exampleRetryLoop 1 with attemptCounter := 1, inactiveOperatorsSet := ["B"] }
        : dkgRetryLoop).attemptCounter ≤ 5 ∧
    qualifiedOperatorsSet exampleRetryExternals
        { exampleRetryLoop 1 with attemptCounter := 1, inactiveOperatorsSet := ["B"] } =
      ((["A", "C", "D", "E"], none),
        { exampleRetryLoop 1 with attemptCounter := 1, inactiveOperatorsSet := ["B"] }) ∧
    ∃ set : AddressSet,
      qualifiedOperatorsSet exampleRetryExternals
          { exampleRetryLoop 1 with attemptCounter := 1, inactiveOperatorsSet := ["B"] } =
        ((set, none),
          { exampleRetryLoop 1 with attemptCounter := 1, inactiveOperatorsSet := ["B"] }) ∧
      (∀ a, a ∈ set ↔ a ∈ ["A", "B", "C", "D", "E"] ∧ a ∉ ["B"]) :=
  ⟨by decide, by decide,
    (c28_fast_path exampleRetryExternals
      { exampleRetryLoop 1 with attemptCounter := 1, inactiveOperatorsSet := ["B"] }
      (by decide) (by decide) (by decide) (by decide)).imp
      (fun _ h => ⟨h.1, h.2.1⟩)⟩

theorem fastPathConditions_iff (drl : dkgRetryLoop) :
    fastPathConditions drl = true ↔
      (drl.attemptCounter ≤ 5 ∧ drl.randomRetryCounter = 0 ∧
        drl.inactiveOperatorsSet ≠ [] ∧
        drl.chainConfig.GroupQuorum ≤
          ((drl.selectedOperators.countP
            (fun operator => decide (operator ∉ drl.inactiveOperatorsSet)) : Nat) : Int)) := by
  simp only [fastPathConditions, Bool.and_eq_true, decide_eq_true_eq]
  constructor
  · rintro ⟨⟨⟨h1, h2⟩, h3⟩, h4⟩
    exact ⟨h1, h2, h3, h4⟩
  · rintro ⟨h1, h2, h3, h4⟩
    exact ⟨⟨⟨h1, h2⟩, h3⟩, h4⟩

theorem successfulFallbacks_le (ext : RetryExternals) (ctx : Nat → Bool)
    (f : dkgAttemptParams → AttemptReturn) :
    ∀ (fuel : Nat) (drl : dkgRetryLoop) (q : AddressSet),
      successfulFallbacks ext ctx f fuel drl q ≤ fuel := by
  intro fuel
  induction fuel with
  | zero =>
    intro drl q
    simp [successfulFallbacks]
  | succ fuel ih =>
    intro drl q
    rw [successfulFallbacks]
    rcases (iteration ext ctx f drl q).2 with ⟨d1, q1⟩ | ⟨result, endBlock, err, d1⟩ | _
    · simp only
      have := ih d1 q1
      split <;> omega
    · simp
    · simp

/-- The counter after a run that cannot wrap it. -/
theorem startLoop_counter_exact (ext : RetryExternals) (ctx : Nat → Bool)
    (f : dkgAttemptParams → AttemptReturn) (fuel : Nat) (drl : dkgRetryLoop)
    (q : AddressSet) (d : dkgRetryLoop)
    (hlt : drl.randomRetryCounter + fuel < uint64Size)
    (h : (startLoop ext ctx f fuel drl q).2.state? = some d) :
    d.randomRetryCounter =
      drl.randomRetryCounter + successfulFallbacks ext ctx f fuel drl q := by
  have hle := successfulFallbacks_le ext ctx f fuel drl q
  rw [startLoop_counter ext ctx f fuel drl q d (by omega) h]
  exact Nat.mod_eq_of_lt (by omega)

/-- C29, as stated, fails where the counter holds the largest `uint`: with
`attemptCounter = 6` the fast-path conditions do not hold, the primitive
returns the first four operators and no error, and `randomRetryCounter++`
wraps `2^64 - 1` to `0` instead of increasing it by `1`. -/
theorem c29_counter_wraps_at_largest_uint :
    ¬ (({ exampleRetryLoop 1 with attemptCounter := 6,
                                  randomRetryCounter := 2 ^ 64 - 1 } : dkgRetryLoop).attemptCounter
        ≤ 5) ∧
    exampleRetryExternals.EvaluateRetryParticipantsForKeyGeneration
        ["A", "B", "C", "D", "E"] (exampleRetryLoop 1).randomRetrySeed (2 ^ 64 - 1) 4
      = (["A", "B", "C", "D"], none) ∧
    qualifiedOperatorsSet exampleRetryExternals
        { exampleRetryLoop 1 with attemptCounter := 6, randomRetryCounter := 2 ^ 64 - 1 } =
      ((["A", "B", "C", "D"], none),
        { exampleRetryLoop 1 with attemptCounter := 6, randomRetryCounter := 0 }) ∧
    ¬ ((qualifiedOperatorsSet exampleRetryExternals
          { exampleRetryLoop 1 with attemptCounter := 6,
                                    randomRetryCounter := 2 ^ 64 - 1 }).2.randomRetryCounter
        = (2 ^ 64 - 1) + 1) := by
  decide

/-- C29, amended: the fallback path of `qualifiedOperatorsSet`. Whenever the
fast-path conditions do not all hold, the primitive is applied to
`(selectedOperators, randomRetrySeed, randomRetryCounter, uint(GroupQuorum))`;
if it returns no error the result is the set of the operators it returned and
`randomRetryCounter` becomes `(randomRetryCounter + 1) mod 2^64`, which is an
increase by exactly `1` unless the counter held the largest `uint`; if it
returns an error, an error is returned and the state is unchanged. When the
fast path is taken the state is unchanged and no error is returned. The `uint`
conversion keeps a `GroupQuorum` in `[0, 2^64)`. Thus after any run of the loop
`randomRetryCounter` is, modulo `2^64`, its value before the run plus the
number of successful executions of the fallback; for a loop built by
`newDkgRetryLoop` and fewer than `2^64` iterations it equals that number. -/
theorem c29_fallback_path (ext : RetryExternals) (drl : dkgRetryLoop) :
    (¬ (drl.attemptCounter ≤ 5 ∧ drl.randomRetryCounter = 0 ∧
        drl.inactiveOperatorsSet ≠ [] ∧
        drl.chainConfig.GroupQuorum ≤
          ((drl.selectedOperators.countP
            (fun operator => decide (operator ∉ drl.inactiveOperatorsSet)) : Nat) : Int)) →
      (∀ operators,
        ext.EvaluateRetryParticipantsForKeyGeneration drl.selectedOperators
            drl.randomRetrySeed drl.randomRetryCounter
            (drl.chainConfig.GroupQuorum % (2 ^ 64 : Int)).toNat = (operators, none) →
        ∃ set : AddressSet,
          qualifiedOperatorsSet ext drl =
            ((set, none),
              { drl with randomRetryCounter := (drl.randomRetryCounter + 1) % 2 ^ 64 }) ∧
          (∀ a, a ∈ set ↔ a ∈ operators) ∧
          (drl.randomRetryCounter + 1 < 2 ^ 64 →
            (qualifiedOperatorsSet ext drl).2.randomRetryCounter
              = drl.randomRetryCounter + 1)) ∧
      (∀ operators err,
        ext.EvaluateRetryParticipantsForKeyGeneration drl.selectedOperators
            drl.randomRetrySeed drl.randomRetryCounter
            (drl.chainConfig.GroupQuorum % (2 ^ 64 : Int)).toNat = (operators, some err) →
        ∃ e, qualifiedOperatorsSet ext drl = (([], some e), drl))) ∧
    ((drl.attemptCounter ≤ 5 ∧ drl.randomRetryCounter = 0 ∧
        drl.inactiveOperatorsSet ≠ [] ∧
        drl.chainConfig.GroupQuorum ≤
          ((drl.selectedOperators.countP
            (fun operator => decide (operator ∉ drl.inactiveOperatorsSet)) : Nat) : Int)) →
      (qualifiedOperatorsSet ext drl).2 = drl ∧ (qualifiedOperatorsSet ext drl).1.2 = none) ∧
    (0 ≤ drl.chainConfig.GroupQuorum → drl.chainConfig.GroupQuorum < 2 ^ 64 →
      (((drl.chainConfig.GroupQuorum % (2 ^ 64 : Int)).toNat : Nat) : Int)
        = drl.chainConfig.GroupQuorum) ∧
    (∀ (ctx : Nat → Bool) (f : dkgAttemptParams → AttemptReturn) (fuel : Nat)
        (q : AddressSet) (d : dkgRetryLoop),
      drl.randomRetryCounter < 2 ^ 64 →
      (startLoop ext ctx f fuel drl q).2.state? = some d →
      d.randomRetryCounter =
        (drl.randomRetryCounter + successfulFallbacks ext ctx f fuel drl q) % 2 ^ 64) ∧
    (∀ (sha256Sum256 : List Nat → List Nat) (seed : Int) (initialStartBlock : Nat)
        (memberIndex : MemberIndex) (selectedOperators : List Address)
        (chainConfig : ChainConfig) (ctx : Nat → Bool)
        (f : dkgAttemptParams → AttemptReturn) (fuel : Nat) (d : dkgRetryLoop),
      fuel < 2 ^ 64 →
      (start ext ctx f fuel
        (newDkgRetryLoop sha256Sum256 seed initialStartBlock memberIndex selectedOperators
          chainConfig)).2.state? = some d →
      d.randomRetryCounter =
        successfulFallbacks ext ctx f fuel
          (newDkgRetryLoop sha256Sum256 seed initialStartBlock memberIndex selectedOperators
            chainConfig) (Addresses.Set selectedOperators)) := by
  have h64 : (2 : Nat) ^ 64 = uint64Size := rfl
  have h64i : (2 : Int) ^ 64 = (uint64Size : Int) := by
    unfold uint64Size
    norm_num
  rw [h64i, h64]
  refine ⟨?_, ?_, ?_, ?_, ?_⟩
  · intro hnot
    have hfast : fastPathConditions drl = false := by
      rw [← Bool.not_eq_true, fastPathConditions_iff]
      exact hnot
    have hq := qualifiedOperatorsSet_fallback ext drl hfast
    unfold randomSelection at hq
    refine ⟨?_, ?_⟩
    · intro operators heval
      rw [heval] at hq
      refine ⟨Addresses.Set operators, hq, fun a => mem_addresses_set operators a, ?_⟩
      intro hlt
      rw [hq]
      exact Nat.mod_eq_of_lt hlt
    · intro operators err heval
      rw [heval] at hq
      exact ⟨_, hq⟩
  · intro hyes
    have hfast : fastPathConditions drl = true := (fastPathConditions_iff drl).2 hyes
    rw [qualifiedOperatorsSet_fast ext drl hfast]
    exact ⟨rfl, rfl⟩
  · intro h0 hlt
    rw [Int.emod_eq_of_lt h0 hlt]
    exact Int.toNat_of_nonneg h0
  · intro ctx f fuel q d hlt h
    exact startLoop_counter ext ctx f fuel drl q d hlt h
  · intro sha256Sum256 seed initialStartBlock memberIndex selectedOperators chainConfig
      ctx f fuel d hfuel h
    have := startLoop_counter_exact ext ctx f fuel
      (newDkgRetryLoop sha256Sum256 seed initialStartBlock memberIndex selectedOperators
        chainConfig) (Addresses.Set selectedOperators) d
      (by
        have h0 : (newDkgRetryLoop sha256Sum256 seed initialStartBlock memberIndex
          selectedOperators chainConfig).randomRetryCounter = 0 := rfl
        rw [h0, Nat.zero_add]
        exact hfuel) h
    rw [this]
    have h0 : (newDkgRetryLoop sha256Sum256 seed initialStartBlock memberIndex
      selectedOperators chainConfig).randomRetryCounter = 0 := rfl
    rw [h0, Nat.zero_add]

/-- C29 on the example loop: in attempt `6` the fallback is taken, the
primitive returns the first four operators and the counter goes from `0` to
`1`; in a run of four failed attempts the fallback succeeds three times and
the counter is `3`. -/
theorem c29_fallback_path_witness :
    ¬ (({ exampleRetryLoop 1 with attemptCounter := 6 } : dkgRetryLoop).attemptCounter ≤ 5 ∧
        ({ exampleRetryLoop 1 with attemptCounter := 6 } : dkgRetryLoop).randomRetryCounter
          = 0 ∧
        ({ exampleRetryLoop 1 with attemptCounter := 6 } : dkgRetryLoop).inactiveOperatorsSet
          ≠ [] ∧
        ({ exampleRetryLoop 1 with attemptCounter := 6 } : dkgRetryLoop).chainConfig.GroupQuorum
          ≤ ((({ exampleRetryLoop 1 with attemptCounter := 6 }
                : dkgRetryLoop).selectedOperators.countP
              (fun operator => decide (operator ∉
                ({ exampleRetryLoop 1 with attemptCounter := 6 }
                  : dkgRetryLoop).inactiveOperatorsSet)) : Nat) : Int)) ∧
    (∃ set : AddressSet,
      qualifiedOperatorsSet exampleRetryExternals
          { exampleRetryLoop 1 with attemptCounter := 6 } =
        ((set, none),
          { exampleRetryLoop 1 with attemptCounter := 6, randomRetryCounter := 1 }) ∧
      (∀ a, a ∈ set ↔ a ∈ ["A", "B", "C", "D"])) ∧
    (start exampleRetryExternals (fun _ => false) exampleFailingAttemptFn 4
      (newDkgRetryLoop (fun _ => List.replicate 32 255) 12345 1000 1
        ["A", "B", "C", "D", "E"] exampleChainConfig)).2.state? =
      some { exampleRetryLoop 1 with attemptCounter := 4, attemptStartBlock := 1165,
                                     randomRetryCounter := 3,
                                     inactiveOperatorsSet := ["B", "C", "D", "E"] } ∧
    ({ exampleRetryLoop 1 with attemptCounter := 4, attemptStartBlock := 1165,
                               randomRetryCounter := 3,
                               inactiveOperatorsSet := ["B", "C", "D", "E"] }
        : dkgRetryLoop).randomRetryCounter =
      successfulFallbacks exampleRetryExternals (fun _ => false) exampleFailingAttemptFn 4
        (newDkgRetryLoop (fun _ => List.replicate 32 255) 12345 1000 1
          ["A", "B", "C", "D", "E"] exampleChainConfig)
        (Addresses.Set ["A", "B", "C", "D", "E"]) :=
  ⟨by decide,
    (((c29_fallback_path exampleRetryExternals
        { exampleRetryLoop 1 with attemptCounter := 6 }).1 (by decide)).1
      ["A", "B", "C", "D"] (by decide)).imp (fun _ h => ⟨h.1, h.2.1⟩),
    by decide,
    (c29_fallback_path exampleRetryExternals
        { exampleRetryLoop 1 with attemptCounter := 6 }).2.2.2.2
      (fun _ => List.replicate 32 255) 12345 1000 1 ["A", "B", "C", "D", "E"]
      exampleChainConfig (fun _ => false) exampleFailingAttemptFn 4
      { exampleRetryLoop 1 with attemptCounter := 4, attemptStartBlock := 1165,
                                randomRetryCounter := 3,
                                inactiveOperatorsSet := ["B", "C", "D", "E"] }
      (by decide) (by decide)⟩

/-! ### The random retry seed -/

theorem bigEndianUint64_take_eight (b0 b1 b2 b3 b4 b5 b6 b7 : Nat) (rest : List Nat) :
    bigEndianUint64 ((b0 :: b1 :: b2 :: b3 :: b4 :: b5 :: b6 :: b7 :: rest).take 8) =
      b0 * 2 ^ 56 + b1 * 2 ^ 48 + b2 * 2 ^ 40 + b3 * 2 ^ 32 + b4 * 2 ^ 24 + b5 * 2 ^ 16
        + b6 * 2 ^ 8 + b7 := by
  simp only [bigEndianUint64, List.take_succ_cons, List.take_zero, List.foldl_cons,
    List.foldl_nil]
  omega

/-- The conversion `int64(u)` of a `u < 2^64`: its value, sign and range. -/
theorem int64OfUint64_spec (u : Nat) (hu : u < 2 ^ 64) :
    (int64OfUint64 u = if 2 ^ 63 ≤ u then (u : Int) - 2 ^ 64 else (u : Int)) ∧
    (int64OfUint64 u < 0 ↔ 2 ^ 63 ≤ u) ∧
    -(2 ^ 63) ≤ int64OfUint64 u ∧ int64OfUint64 u < 2 ^ 63 ∧
    int64OfUint64 u % 2 ^ 64 = (u : Int) := by
  unfold int64OfUint64
  by_cases h : u < 2 ^ 63
  · rw [if_pos h, if_neg (by omega)]
    refine ⟨rfl, ?_, ?_, ?_, ?_⟩ <;> omega
  · rw [if_neg h, if_pos (by omega)]
    refine ⟨rfl, ?_, ?_, ?_, ?_⟩ <;> omega

theorem iteration_seed (ext : RetryExternals) (ctx : Nat → Bool)
    (f : dkgAttemptParams → AttemptReturn) (drl : dkgRetryLoop) (q : AddressSet)
    (d : dkgRetryLoop) (h : (iteration ext ctx f drl q).2.state? = some d) :
    d.randomRetrySeed = drl.randomRetrySeed := by
  obtain ⟨_, _, _, _, _, hseed, _⟩ := (iteration_counters ext ctx f drl q).1 d h
  exact hseed

theorem startLoop_seed (ext : RetryExternals) (ctx : Nat → Bool)
    (f : dkgAttemptParams → AttemptReturn) (fuel : Nat) (drl : dkgRetryLoop)
    (q : AddressSet) (d : dkgRetryLoop)
    (h : (startLoop ext ctx f fuel drl q).2.state? = some d) :
    d.randomRetrySeed = drl.randomRetrySeed :=
  startLoop_invariant ext ctx f (fun a b => b.randomRetrySeed = a.randomRetrySeed)
    (fun _ => rfl) (fun _ _ _ hab hbc => hbc.trans hab)
    (fun a q1 b hb => iteration_seed ext ctx f a q1 b hb) fuel drl q d h

/-- C30: `newDkgRetryLoop` sets `randomRetrySeed` to the first 8 bytes of
`SHA-256(seed.Bytes())` read as a big-endian unsigned 64-bit integer and
reinterpreted as a signed two's-complement `int64`: for a digest that starts
with the bytes `b0 .. b7` the unsigned value is `u = b0 * 2^56 + .. + b7`, the
seed is `u` if `b0 < 0x80` and `u - 2^64` if `b0 >= 0x80`, so it is negative
exactly when the first byte is `>= 0x80`, lies in `[-2^63, 2^63)` and is
congruent to `u` modulo `2^64`. Neither `qualifiedOperatorsSet` nor any
iteration or run of `start` modifies `randomRetrySeed`. -/
theorem c30_random_retry_seed (sha256Sum256 : List Nat → List Nat) (seed : Int)
    (initialStartBlock : Nat) (memberIndex : MemberIndex)
    (selectedOperators : List Address) (chainConfig : ChainConfig) :
    (newDkgRetryLoop sha256Sum256 seed initialStartBlock memberIndex selectedOperators
        chainConfig).randomRetrySeed =
      int64OfUint64 (bigEndianUint64 ((sha256Sum256 (bigIntBytes seed)).take 8)) ∧
    (∀ (b0 b1 b2 b3 b4 b5 b6 b7 : Nat) (rest : List Nat),
      sha256Sum256 (bigIntBytes seed) = b0 :: b1 :: b2 :: b3 :: b4 :: b5 :: b6 :: b7 :: rest →
      b0 < 256 → b1 < 256 → b2 < 256 → b3 < 256 → b4 < 256 → b5 < 256 → b6 < 256 →
      b7 < 256 →
      (newDkgRetryLoop sha256Sum256 seed initialStartBlock memberIndex selectedOperators
          chainConfig).randomRetrySeed =
        (if 128 ≤ b0 then
          ((b0 * 2 ^ 56 + b1 * 2 ^ 48 + b2 * 2 ^ 40 + b3 * 2 ^ 32 + b4 * 2 ^ 24
            + b5 * 2 ^ 16 + b6 * 2 ^ 8 + b7 : Nat) : Int) - 2 ^ 64
        else
          ((b0 * 2 ^ 56 + b1 * 2 ^ 48 + b2 * 2 ^ 40 + b3 * 2 ^ 32 + b4 * 2 ^ 24
            + b5 * 2 ^ 16 + b6 * 2 ^ 8 + b7 : Nat) : Int)) ∧
      ((newDkgRetryLoop sha256Sum256 seed initialStartBlock memberIndex selectedOperators
          chainConfig).randomRetrySeed < 0 ↔ 128 ≤ b0) ∧
      -(2 ^ 63) ≤ (newDkgRetryLoop sha256Sum256 seed initialStartBlock memberIndex
          selectedOperators chainConfig).randomRetrySeed ∧
      (newDkgRetryLoop sha256Sum256 seed initialStartBlock memberIndex selectedOperators
          chainConfig).randomRetrySeed < 2 ^ 63 ∧
      (newDkgRetryLoop sha256Sum256 seed initialStartBlock memberIndex selectedOperators
          chainConfig).randomRetrySeed % 2 ^ 64 =
        ((b0 * 2 ^ 56 + b1 * 2 ^ 48 + b2 * 2 ^ 40 + b3 * 2 ^ 32 + b4 * 2 ^ 24
          + b5 * 2 ^ 16 + b6 * 2 ^ 8 + b7 : Nat) : Int)) ∧
    (∀ (ext : RetryExternals) (drl : dkgRetryLoop),
      (qualifiedOperatorsSet ext drl).2.randomRetrySeed = drl.randomRetrySeed) ∧
    (∀ (ext : RetryExternals) (ctx : Nat → Bool) (f : dkgAttemptParams → AttemptReturn)
        (drl : dkgRetryLoop) (q : AddressSet) (d : dkgRetryLoop),
      (iteration ext ctx f drl q).2.state? = some d →
      d.randomRetrySeed = drl.randomRetrySeed) ∧
    (∀ (ext : RetryExternals) (ctx : Nat → Bool) (f : dkgAttemptParams → AttemptReturn)
        (fuel : Nat) (drl : dkgRetryLoop) (d : dkgRetryLoop),
      (start ext ctx f fuel drl).2.state? = some d →
      d.randomRetrySeed = drl.randomRetrySeed) ∧
    (∀ (ext : RetryExternals) (ctx : Nat → Bool) (f : dkgAttemptParams → AttemptReturn)
        (fuel : Nat) (d : dkgRetryLoop),
      (start ext ctx f fuel
        (newDkgRetryLoop sha256Sum256 seed initialStartBlock memberIndex selectedOperators
          chainConfig)).2.state? = some d →
      d.randomRetrySeed =
        int64OfUint64 (bigEndianUint64 ((sha256Sum256 (bigIntBytes seed)).take 8))) := by
  refine ⟨rfl, ?_, ?_, ?_, ?_, ?_⟩
  · intro b0 b1 b2 b3 b4 b5 b6 b7 rest hsha h0 h1 h2 h3 h4 h5 h6 h7
    have hseed : (newDkgRetryLoop sha256Sum256 seed initialStartBlock memberIndex
        selectedOperators chainConfig).randomRetrySeed =
        int64OfUint64 (bigEndianUint64 ((sha256Sum256 (bigIntBytes seed)).take 8)) := rfl
    rw [hseed, hsha, bigEndianUint64_take_eight]
    generalize hu : b0 * 2 ^ 56 + b1 * 2 ^ 48 + b2 * 2 ^ 40 + b3 * 2 ^ 32 + b4 * 2 ^ 24
      + b5 * 2 ^ 16 + b6 * 2 ^ 8 + b7 = u
    have hlt : u < 2 ^ 64 := by omega
    have hsign : 2 ^ 63 ≤ u ↔ 128 ≤ b0 := by omega
    obtain ⟨hval, hneg, hlow, hhigh, hmod⟩ := int64OfUint64_spec u hlt
    refine ⟨?_, ?_, hlow, hhigh, hmod⟩
    · rw [hval]
      by_cases hb : 128 ≤ b0
      · rw [if_pos (hsign.2 hb), if_pos hb]
      · rw [if_neg (fun h => hb (hsign.1 h)), if_neg hb]
    · rw [hneg, hsign]
  · intro ext drl
    rw [qualifiedOperatorsSet_fields ext drl]
  · intro ext ctx f drl q d h
    exact iteration_seed ext ctx f drl q d h
  · intro ext ctx f fuel drl d h
    exact startLoop_seed ext ctx f fuel drl (Addresses.Set drl.selectedOperators) d h
  · intro ext ctx f fuel d h
    exact startLoop_seed ext ctx f fuel _ _ d h

/-- C30 on the example loop, whose digest has all bytes `0xff`: the unsigned
value is `2^64 - 1`, the seed is `-1`, and it is still `-1` after four
iterations. -/
theorem c30_random_retry_seed_witness :
    (fun _ => List.replicate 32 255) (bigIntBytes 12345) =
      255 :: 255 :: 255 :: 255 :: 255 :: 255 :: 255 :: 255 :: List.replicate 24 255 ∧
    (newDkgRetryLoop (fun _ => List.replicate 32 255) 12345 1000 1
        ["A", "B", "C", "D", "E"] exampleChainConfig).randomRetrySeed = -1 ∧
    ((newDkgRetryLoop (fun _ => List.replicate 32 255) 12345 1000 1
        ["A", "B", "C", "D", "E"] exampleChainConfig).randomRetrySeed < 0 ↔ 128 ≤ 255) ∧
    ({ exampleRetryLoop 1 with attemptCounter := 4, attemptStartBlock := 1165,
                               randomRetryCounter := 3,
                               inactiveOperatorsSet := ["B", "C", "D", "E"] }
        : dkgRetryLoop).randomRetrySeed =
      int64OfUint64 (bigEndianUint64
        (((fun _ => List.replicate 32 255) (bigIntBytes 12345)).take 8)) :=
  ⟨by decide, by decide,
    ((c30_random_retry_seed (fun _ => List.replicate 32 255) 12345 1000 1
      ["A", "B", "C", "D", "E"] exampleChainConfig).2.1
      255 255 255 255 255 255 255 255 (List.replicate 24 255) (by decide)
      (by decide) (by decide) (by decide) (by decide) (by decide) (by decide) (by decide)
      (by decide)).2.1,
    (c30_random_retry_seed (fun _ => List.replicate 32 255) 12345 1000 1
      ["A", "B", "C", "D", "E"] exampleChainConfig).2.2.2.2.2
      exampleRetryExternals (fun _ => false) exampleFailingAttemptFn 4
      { exampleRetryLoop 1 with attemptCounter := 4, attemptStartBlock := 1165,
                                randomRetryCounter := 3,
                                inactiveOperatorsSet := ["B", "C", "D", "E"] }
      (by decide)⟩

/-! ### The staggered eligibility queue -/

/-- The eligibility block of a member index, absent `uint64` overflow. -/
theorem eligibleBlockHeight_exact (step start k : Nat) (hk1 : 1 ≤ k) (hk : k < 256)
    (hover : start + (k - 1) * step < 2 ^ 64) :
    eligibleBlockHeight step start k = start + (k - 1) * step := by
  rw [eligibleBlockHeight_eq step start k hk1 hk]
  exact Nat.mod_eq_of_lt hover

/-- C31: submission eligibility is staggered in favour of lower indexes. For
every start block and step and all member indexes `1 <= j < k`, absent `uint64`
overflow (the eligibility block of `k` fits in a `uint64`), the eligibility
block of `j` is at most that of `k`, strictly less when
`ResultPublicationBlockStep > 0`, the two differ by
`(k - j) * ResultPublicationBlockStep`, and consecutive indexes differ by
exactly `ResultPublicationBlockStep`. -/
theorem c31_eligibility_staggered (step start : Nat) (j k : MemberIndex)
    (hj : 1 ≤ j) (hjk : j < k) (hk : k < 256)
    (hover : start + (k - 1) * step < 2 ^ 64) :
    eligibleBlockHeight step start j ≤ eligibleBlockHeight step start k ∧
    (0 < step → eligibleBlockHeight step start j < eligibleBlockHeight step start k) ∧
    eligibleBlockHeight step start k = eligibleBlockHeight step start j + (k - j) * step ∧
    eligibleBlockHeight step start (j + 1) = eligibleBlockHeight step start j + step := by
  unfold MemberIndex at *
  obtain ⟨d, rfl⟩ : ∃ d, k = j + d + 1 := ⟨k - j - 1, by omega⟩
  have e1 : (j + d + 1 - 1) * step = (j - 1) * step + d * step + step := by
    have : j + d + 1 - 1 = (j - 1) + d + 1 := by omega
    rw [this, Nat.add_mul, Nat.add_mul, Nat.one_mul]
  have e2 : (j + d + 1 - j) * step = d * step + step := by
    have : j + d + 1 - j = d + 1 := by omega
    rw [this, Nat.add_mul, Nat.one_mul]
  have e3 : (j + 1 - 1) * step = (j - 1) * step + step := by
    have : j + 1 - 1 = (j - 1) + 1 := by omega
    rw [this, Nat.add_mul, Nat.one_mul]
  have hk0 := eligibleBlockHeight_exact step start (j + d + 1) (by omega) hk hover
  have hj0 := eligibleBlockHeight_exact step start j hj (by omega) (by omega)
  have hj1 := eligibleBlockHeight_exact step start (j + 1) (by omega) (by omega) (by omega)
  rw [hk0, hj0, hj1, e1, e2, e3]
  refine ⟨by omega, fun _ => by omega, by omega, by omega⟩

/-- C31 for the members `2` and `4`, start block `100` and step `10`: the
blocks are `110` and `130`, and member `3` follows member `2` by `10`. -/
theorem c31_eligibility_staggered_witness :
    (100 + ((4 : MemberIndex) - 1) * 10 < 2 ^ 64) ∧
    eligibleBlockHeight 10 100 2 = 110 ∧ eligibleBlockHeight 10 100 4 = 130 ∧
    eligibleBlockHeight 10 100 2 < eligibleBlockHeight 10 100 4 ∧
    eligibleBlockHeight 10 100 (2 + 1) = eligibleBlockHeight 10 100 2 + 10 :=
  ⟨by decide, by decide, by decide,
    (c31_eligibility_staggered 10 100 2 4 (by decide) (by decide) (by decide)
      (by decide)).2.1 (by decide),
    (c31_eligibility_staggered 10 100 2 4 (by decide) (by decide) (by decide)
      (by decide)).2.2.2⟩

end Tbtc

namespace Gjkr

open Go

/-! ## The counting invariant of the group -/

/-- In a group whose member list has no duplicate and whose exclusion lists
satisfy their invariant, the operating members and the excluded ones add up to
all members. -/
theorem operating_length_add (g : Group) (hm : g.memberIDs.elems.Nodup)
    (h : g.ExclusionsOk) :
    (g.memberIDs.elems.filter (isOperating g)).length
        + (g.disqualifiedMemberIDs.elems.length + g.inactiveMemberIDs.elems.length)
      = g.memberIDs.elems.length := by
  obtain ⟨hdisjoint, hd, hi, hdm, him⟩ := h
  have hperm : (g.memberIDs.elems.filter (fun id => !isOperating g id)).Perm
      (g.disqualifiedMemberIDs.elems ++ g.inactiveMemberIDs.elems) := by
    rw [List.perm_ext_iff_of_nodup (hm.filter _)
      (List.Nodup.append hd hi hdisjoint)]
    intro a
    have hop := isOperating_iff g a
    rw [List.mem_filter, List.mem_append, Bool.not_eq_true', ← Bool.not_eq_true, hop]
    constructor
    · rintro ⟨ha, hnot⟩
      by_contra hcon
      rw [not_or] at hcon
      exact hnot ⟨ha, hcon.2, hcon.1⟩
    · rintro (ha | ha)
      · exact ⟨hdm a ha, fun hx => hx.2.2 ha⟩
      · exact ⟨him a ha, fun hx => hx.2.1 ha⟩
  have hlen : g.memberIDs.elems.length =
      (g.memberIDs.elems.filter (isOperating g)).length
        + (g.memberIDs.elems.filter (fun id => !isOperating g id)).length :=
    List.length_eq_length_filter_add (isOperating g)
  have hp := hperm.length_eq
  rw [List.length_append] at hp
  omega

/-- The member list of a group reached from an empty one has no duplicate. -/
theorem memberIDs_nodup_runCalls (validate : MemberIndex → Option String) (g0 : Group)
    (calls : List GroupCall) (h0 : g0.isEmpty) :
    (runCalls validate g0 calls).memberIDs.elems.Nodup := by
  rw [memberIDs_runCalls validate calls g0, h0.1, List.nil_append]
  exact (firstOccurrences_nodup _).filter _

/-- C35: the counting invariant of the `Group`. For every group reached from an
empty group by any finite sequence of `RegisterMemberID`,
`MarkMemberAsDisqualified` and `MarkMemberAsInactive` calls,
`len(OperatingMemberIDs()) + eliminatedMembersCount() = len(MemberIDs())`. -/
theorem c35_counting_invariant (validate : MemberIndex → Option String) (g0 : Group)
    (calls : List GroupCall) (h0 : g0.isEmpty) :
    (OperatingMemberIDs (runCalls validate g0 calls)).1.len
        + eliminatedMembersCount (runCalls validate g0 calls)
      = (MemberIDs (runCalls validate g0 calls)).len := by
  have hadd := operating_length_add (runCalls validate g0 calls)
    (memberIDs_nodup_runCalls validate g0 calls h0)
    (exclusionsOk_runCalls validate calls g0 (exclusionsOk_of_isEmpty g0 h0))
  have e : (OperatingMemberIDs (runCalls validate g0 calls)).1 =
      some ((runCalls validate g0 calls).memberIDs.elems.filter
        (isOperating (runCalls validate g0 calls))) := by
    simp [OperatingMemberIDs, Slice.makeEmpty, operatingLoop_eq]
  rw [e]
  simp only [eliminatedMembersCount, MemberIDs, Slice.len, Slice.elems]
  have hcast := congrArg (fun n : Nat => (n : Int)) hadd
  simp only [Nat.cast_add] at hcast
  simp only [Slice.elems] at hcast
  omega

/-- C35 on a group of three registered members (one registered twice) in which
member `2` was disqualified and member `3` marked inactive: `1 + 2 = 3`. -/
theorem c35_counting_invariant_witness :
    (Group.mk 2 none none none).isEmpty ∧
    (OperatingMemberIDs (runCalls (Validate 5) (Group.mk 2 none none none)
        [.register 1, .register 2, .register 3, .register 2, .markDisqualified 2,
          .markInactive 3, .markInactive 2, .markDisqualified 7])).1 = some [1] ∧
    (OperatingMemberIDs (runCalls (Validate 5) (Group.mk 2 none none none)
        [.register 1, .register 2, .register 3, .register 2, .markDisqualified 2,
          .markInactive 3, .markInactive 2, .markDisqualified 7])).1.len
      + eliminatedMembersCount (runCalls (Validate 5) (Group.mk 2 none none none)
        [.register 1, .register 2, .register 3, .register 2, .markDisqualified 2,
          .markInactive 3, .markInactive 2, .markDisqualified 7])
      = (MemberIDs (runCalls (Validate 5) (Group.mk 2 none none none)
        [.register 1, .register 2, .register 3, .register 2, .markDisqualified 2,
          .markInactive 3, .markInactive 2, .markDisqualified 7])).len :=
  ⟨⟨rfl, rfl, rfl⟩, by decide,
    c35_counting_invariant (Validate 5) (Group.mk 2 none none none)
      [.register 1, .register 2, .register 3, .register 2, .markDisqualified 2,
        .markInactive 3, .markInactive 2, .markDisqualified 7] ⟨rfl, rfl, rfl⟩⟩

end Gjkr

namespace Tbtc

open Go

/-! ## Order independence of `finalSigningGroup` -/

/-- Rearranged operating indexes sort to the same list. -/
theorem sortSlice_perm_eq (a b : List MemberIndex) (hperm : a.Perm b) :
    sortSlice (fun x y => decide (x < y)) a = sortSlice (fun x y => decide (x < y)) b :=
  sortSlice_eq a (sortSlice (fun x y => decide (x < y)) b)
    ((sortSlice_perm _ b).trans hperm.symm) (sortSlice_sorted b)

/-- With operating indexes in `[1, GroupSize]` the function returns. -/
theorem finalSigningGroup_returns (selectedOperators : List Address)
    (operatingMembersIndexes : List MemberIndex) (chainConfig : ChainConfig)
    (huint8 : ∀ k ∈ operatingMembersIndexes, k < 256)
    (hrange : ∀ k ∈ operatingMembersIndexes, 1 ≤ k ∧ (k : Int) ≤ chainConfig.GroupSize) :
    ∃ r, finalSigningGroup selectedOperators operatingMembersIndexes chainConfig = .ret r := by
  by_cases hc : (selectedOperators.length : Int) ≠ chainConfig.GroupSize ∨
      (operatingMembersIndexes.length : Int) < chainConfig.HonestThreshold
  · refine ⟨⟨none, none, some "invalid input parameters"⟩, ?_⟩
    unfold finalSigningGroup
    rw [if_pos hc]
  · rw [finalSigningGroup_valid selectedOperators operatingMembersIndexes chainConfig hc]
    have hsize : (selectedOperators.length : Int) = chainConfig.GroupSize := by
      by_contra hne
      exact hc (Or.inl hne)
    obtain ⟨ops, idx, hret, _⟩ := finalSigningGroupLoop_ret selectedOperators
      (sortSlice (fun a b => decide (a < b)) operatingMembersIndexes) 0
      (List.replicate (sortSlice (fun a b => decide (a < b)) operatingMembersIndexes).length "")
      IndexMap.empty
      (by
        intro k hk
        have hmem : k ∈ operatingMembersIndexes := (sortSlice_perm _ _).mem_iff.1 hk
        have h1 := huint8 k hmem
        have h2 := hrange k hmem
        unfold MemberIndex at *
        omega)
      (by simp)
    rw [hret]
    exact ⟨_, rfl⟩

/-- C36: `finalSigningGroup` does not depend on the order of its operating
indexes. For every `selectedOperators` and `chainConfig` and any two lists of
operating indexes that are permutations of each other, the outcomes are equal:
the same error status, the same `signingGroupOperators` and the same index map;
with the indexes within `[1, GroupSize]` both calls return these three
values. -/
theorem c36_finalSigningGroup_order_independent (selectedOperators : List Address)
    (indexesA indexesB : List MemberIndex) (chainConfig : ChainConfig)
    (hperm : indexesA.Perm indexesB) :
    finalSigningGroup selectedOperators indexesA chainConfig =
      finalSigningGroup selectedOperators indexesB chainConfig ∧
    ((∀ k ∈ indexesA, k < 256) →
      (∀ k ∈ indexesA, 1 ≤ k ∧ (k : Int) ≤ chainConfig.GroupSize) →
      ∃ r, finalSigningGroup selectedOperators indexesA chainConfig = .ret r ∧
        finalSigningGroup selectedOperators indexesB chainConfig = .ret r) := by
  have heq : finalSigningGroup selectedOperators indexesA chainConfig =
      finalSigningGroup selectedOperators indexesB chainConfig := by
    unfold finalSigningGroup
    rw [sortSlice_perm_eq indexesA indexesB hperm, hperm.length_eq]
  refine ⟨heq, ?_⟩
  intro huint8 hrange
  obtain ⟨r, hr⟩ := finalSigningGroup_returns selectedOperators indexesA chainConfig
    huint8 hrange
  exact ⟨r, hr, by rw [← heq, hr]⟩

/-- C36 on five operators with the operating indexes `5, 1, 3` and
`3, 5, 1`. -/
theorem c36_finalSigningGroup_order_independent_witness :
    ([5, 1, 3] : List MemberIndex).Perm [3, 5, 1] ∧
    finalSigningGroup ["A", "B", "C", "D", "E"] [5, 1, 3] exampleChainConfig =
      finalSigningGroup ["A", "B", "C", "D", "E"] [3, 5, 1] exampleChainConfig ∧
    ∃ r, finalSigningGroup ["A", "B", "C", "D", "E"] [5, 1, 3] exampleChainConfig = .ret r ∧
      finalSigningGroup ["A", "B", "C", "D", "E"] [3, 5, 1] exampleChainConfig = .ret r :=
  ⟨by decide,
    (c36_finalSigningGroup_order_independent ["A", "B", "C", "D", "E"] [5, 1, 3] [3, 5, 1]
      exampleChainConfig (by decide)).1,
    (c36_finalSigningGroup_order_independent ["A", "B", "C", "D", "E"] [5, 1, 3] [3, 5, 1]
      exampleChainConfig (by decide)).2 (by decide) (by decide)⟩

end Tbtc

namespace Local

open Go

/-! ## The local sortition chain -/

theorem bigIntCmp_self (x : BigInt) : bigIntCmp x x = .ret 0 := by
  cases x with
  | none => rfl
  | some v => simp [bigIntCmp]

theorem bigIntCmp_zero (v : Int) :
    bigIntCmp (some v) (some 0) = .ret (if v < 0 then -1 else if v = 0 then 0 else 1) := rfl

theorem set_same {α : Type} (m : AddressMap α) (key : Address) (value : α) :
    m.set key value key = some value := by
  simp [AddressMap.set]

theorem set_other {α : Type} (m : AddressMap α) (key k : Address) (value : α)
    (h : k ≠ key) : m.set key value k = m k := by
  simp [AddressMap.set, h]

/-- What `RegisterOperator` does for every chain and every pair of arguments:
the chain's own operator is registered for the staking provider, and no other
registration changes. -/
theorem registerOperator_spec (c : Chain) (stakingProvider operator : Address) :
    OperatorToStakingProvider (RegisterOperator c stakingProvider operator) c.operatorAddress
      = (stakingProvider, true, none) ∧
    (∀ k, k ≠ c.operatorAddress →
      OperatorToStakingProvider (RegisterOperator c stakingProvider operator) k
        = OperatorToStakingProvider c k) := by
  refine ⟨?_, ?_⟩
  · simp [OperatorToStakingProvider, RegisterOperator, AddressMap.lookupAddress, set_same]
  · intro k hk
    simp [OperatorToStakingProvider, RegisterOperator, AddressMap.lookupAddress,
      set_other _ _ _ _ hk]

/-- C39, evaluated where the code departs from it: on a chain connected for the
operator `"A"`, after `RegisterOperator("SP", "B")` the lookup
`OperatorToStakingProvider("B")` returns `("", false, nil)`, not
`("SP", true, nil)`, and the registration of the other operator `"A"`, absent
before, is now `"SP"`. -/
theorem c39_registerOperator_ignores_operator :
    OperatorToStakingProvider (RegisterOperator (Connect "A") "SP" "B") "B"
      = ("", false, none) ∧
    OperatorToStakingProvider (Connect "A") "A" = ("", false, none) ∧
    OperatorToStakingProvider (RegisterOperator (Connect "A") "SP" "B") "A"
      = ("SP", true, none) := by
  decide

/-- With the operator registered for `stakingProvider`, `JoinSortitionPool`
is decided by the stake entry and the pool entry. -/
theorem joinSortitionPool_registered (c : Chain) (stakingProvider : Address)
    (hreg : c.operatorToStakingProvider c.operatorAddress = some stakingProvider) :
    JoinSortitionPool c =
      (match c.eligibleStake stakingProvider with
        | none => .ret (some errAuthorizationBelowMinimum, c)
        | some none => .panic
        | some (some stake) =>
          if stake = 0 then .ret (some errAuthorizationBelowMinimum, c)
          else
            match c.sortitionPool c.operatorAddress with
            | some _ => .ret (some errOperatorAlreadyRegisteredInPool, c)
            | none =>
              .ret (none,
                { c with sortitionPool :=
                    c.sortitionPool.set c.operatorAddress (some stake) })) := by
  unfold JoinSortitionPool
  simp only [AddressMap.lookupAddress, AddressMap.lookupBigInt, hreg]
  rcases hs : c.eligibleStake stakingProvider with _ | (_ | stake)
  · simp
  · simp [bigIntCmp]
  · simp only [Bool.not_true, Bool.false_eq_true, if_false, bigIntCmp_zero]
    by_cases h0 : stake = 0
    · simp [h0]
    · have hr : (if stake < 0 then (-1 : Int) else 1) ≠ 0 := by
        by_cases hneg : stake < 0
        · rw [if_pos hneg]
          decide
        · rw [if_neg hneg]
          decide
      simp only [if_neg h0, if_neg hr]
      rcases c.sortitionPool c.operatorAddress with _ | w <;> simp

theorem joinSortitionPool_unregistered (c : Chain)
    (hreg : c.operatorToStakingProvider c.operatorAddress = none) :
    JoinSortitionPool c = .ret (some errOperatorUnknown, c) := by
  unfold JoinSortitionPool
  simp [AddressMap.lookupAddress, hreg]

/-- C37, as stated, fails where the stake entry of the staking provider is a
`nil` pointer: the operator `"A"` is registered for `"SP"`, `"SP"` has an
eligible stake entry, which is not a stake of `0`, and the operator is not in
the pool, but `JoinSortitionPool` neither returns `nil` nor an error: it
panics in `eligibleStake.Cmp(big.NewInt(0))`. -/
theorem c37_join_panics_on_nil_stake :
    (SetEligibleStake (RegisterOperator (Connect "A") "SP" "A") "SP" none).operatorToStakingProvider
        "A" = some "SP" ∧
    (SetEligibleStake (RegisterOperator (Connect "A") "SP" "A") "SP" none).eligibleStake.lookupBigInt
        "SP" = (none, true) ∧
    IsOperatorInPool (SetEligibleStake (RegisterOperator (Connect "A") "SP" "A") "SP" none)
      = (false, none) ∧
    JoinSortitionPool (SetEligibleStake (RegisterOperator (Connect "A") "SP" "A") "SP" none)
      = .panic :=
  ⟨by decide, by decide, by decide, rfl⟩

/-- C37, amended: `JoinSortitionPool` of the local sortition chain. It returns
`errOperatorUnknown` if the chain's operator has no registered staking
provider; otherwise `errAuthorizationBelowMinimum` if that staking provider has
no eligible stake entry or an eligible stake of `0`; otherwise, the stake entry
being a non-nil stake, `errOperatorAlreadyRegisteredInPool` if the operator is
already in the pool; otherwise it returns `nil` and sets the operator's pool
weight to the eligible stake, changing nothing else. On every error all chain
state is unchanged, and after a successful join `IsOperatorInPool` returns
`true`. A `nil` stake entry makes the call panic. -/
theorem c37_joinSortitionPool_cases (c : Chain) :
    (c.operatorToStakingProvider c.operatorAddress = none →
      JoinSortitionPool c = .ret (some errOperatorUnknown, c)) ∧
    (∀ stakingProvider,
      c.operatorToStakingProvider c.operatorAddress = some stakingProvider →
      (c.eligibleStake stakingProvider = none ∨
        c.eligibleStake stakingProvider = some (some 0)) →
      JoinSortitionPool c = .ret (some errAuthorizationBelowMinimum, c)) ∧
    (∀ stakingProvider stake,
      c.operatorToStakingProvider c.operatorAddress = some stakingProvider →
      c.eligibleStake stakingProvider = some (some stake) → stake ≠ 0 →
      (IsOperatorInPool c = (true, none) →
        JoinSortitionPool c = .ret (some errOperatorAlreadyRegisteredInPool, c)) ∧
      (IsOperatorInPool c = (false, none) →
        ∃ c1, JoinSortitionPool c = .ret (none, c1) ∧
          c1.sortitionPool c.operatorAddress = some (some stake) ∧
          (∀ k, k ≠ c.operatorAddress → c1.sortitionPool k = c.sortitionPool k) ∧
          c1.operatorAddress = c.operatorAddress ∧
          c1.operatorToStakingProvider = c.operatorToStakingProvider ∧
          c1.eligibleStake = c.eligibleStake ∧
          c1.isPoolLocked = c.isPoolLocked ∧
          IsOperatorInPool c1 = (true, none))) ∧
    (∀ err c1, JoinSortitionPool c = .ret (some err, c1) → c1 = c) ∧
    (∀ c1, JoinSortitionPool c = .ret (none, c1) → IsOperatorInPool c1 = (true, none)) ∧
    (∀ stakingProvider,
      c.operatorToStakingProvider c.operatorAddress = some stakingProvider →
      c.eligibleStake stakingProvider = some none → JoinSortitionPool c = .panic) ∧
    (errOperatorUnknown ≠ errAuthorizationBelowMinimum ∧
      errOperatorUnknown ≠ errOperatorAlreadyRegisteredInPool ∧
      errAuthorizationBelowMinimum ≠ errOperatorAlreadyRegisteredInPool) := by
  have hpool : ∀ c0 : Chain, IsOperatorInPool c0 =
      ((c0.sortitionPool c0.operatorAddress).isSome, none) := by
    intro c0
    unfold IsOperatorInPool AddressMap.lookupBigInt
    rcases c0.sortitionPool c0.operatorAddress with _ | w <;> rfl
  refine ⟨joinSortitionPool_unregistered c, ?_, ?_, ?_, ?_, ?_, by decide⟩
  · intro stakingProvider hreg hstake
    rw [joinSortitionPool_registered c stakingProvider hreg]
    rcases hstake with hs | hs <;> simp [hs]
  · intro stakingProvider stake hreg hs h0
    rw [joinSortitionPool_registered c stakingProvider hreg, hs, hpool]
    simp only [if_neg h0]
    refine ⟨?_, ?_⟩
    · intro hin
      rcases hp : c.sortitionPool c.operatorAddress with _ | w
      · rw [hp] at hin
        exact absurd hin (by simp)
      · rfl
    · intro hout
      rcases hp : c.sortitionPool c.operatorAddress with _ | w
      · refine ⟨_, rfl, set_same _ _ _, fun k hk => set_other _ _ _ _ hk, rfl, rfl, rfl,
          rfl, ?_⟩
        rw [hpool]
        simp [set_same]
      · rw [hp] at hout
        exact absurd hout (by simp)
  · intro err c1 h
    rcases hreg : c.operatorToStakingProvider c.operatorAddress with _ | stakingProvider
    · rw [joinSortitionPool_unregistered c hreg] at h
      simp only [Run.ret.injEq, Prod.mk.injEq] at h
      exact h.2.symm
    · rw [joinSortitionPool_registered c stakingProvider hreg] at h
      rcases hs : c.eligibleStake stakingProvider with _ | (_ | stake)
      · rw [hs] at h
        simp only [Run.ret.injEq, Prod.mk.injEq] at h
        exact h.2.symm
      · rw [hs] at h
        exact absurd h (by simp)
      · rw [hs] at h
        by_cases h0 : stake = 0
        · simp only [if_pos h0, Run.ret.injEq, Prod.mk.injEq] at h
          exact h.2.symm
        · simp only [if_neg h0] at h
          rcases hp : c.sortitionPool c.operatorAddress with _ | w
          · rw [hp] at h
            simp at h
          · rw [hp] at h
            simp only [Run.ret.injEq, Prod.mk.injEq] at h
            exact h.2.symm
  · intro c1 h
    rcases hreg : c.operatorToStakingProvider c.operatorAddress with _ | stakingProvider
    · rw [joinSortitionPool_unregistered c hreg] at h
      simp at h
    · rw [joinSortitionPool_registered c stakingProvider hreg] at h
      rcases hs : c.eligibleStake stakingProvider with _ | (_ | stake)
      · rw [hs] at h
        simp at h
      · rw [hs] at h
        exact absurd h (by simp)
      · rw [hs] at h
        by_cases h0 : stake = 0
        · simp [h0] at h
        · simp only [if_neg h0] at h
          rcases hp : c.sortitionPool c.operatorAddress with _ | w
          · rw [hp] at h
            simp only [Run.ret.injEq, Prod.mk.injEq, true_and] at h
            rw [← h, hpool]
            simp [set_same]
          · rw [hp] at h
            simp at h
  · intro stakingProvider hreg hs
    rw [joinSortitionPool_registered c stakingProvider hreg, hs]

/-- C37 on a chain whose operator `"A"` is registered for `"SP"` with an
eligible stake of `7` and is not in the pool: the join succeeds and the pool
weight of `"A"` is `7`. -/
theorem c37_joinSortitionPool_cases_witness :
    (SetEligibleStake (RegisterOperator (Connect "A") "SP" "A") "SP"
        (some 7)).operatorToStakingProvider "A" = some "SP" ∧
    (SetEligibleStake (RegisterOperator (Connect "A") "SP" "A") "SP"
        (some 7)).eligibleStake "SP" = some (some 7) ∧
    IsOperatorInPool (SetEligibleStake (RegisterOperator (Connect "A") "SP" "A") "SP"
        (some 7)) = (false, none) ∧
    ∃ c1, JoinSortitionPool (SetEligibleStake (RegisterOperator (Connect "A") "SP" "A") "SP"
        (some 7)) = .ret (none, c1) ∧
      c1.sortitionPool "A" = some (some 7) ∧ IsOperatorInPool c1 = (true, none) :=
  ⟨by decide, by decide, by decide,
    (((c37_joinSortitionPool_cases
        (SetEligibleStake (RegisterOperator (Connect "A") "SP" "A") "SP" (some 7))).2.2.1
      "SP" 7 (by decide) (by decide) (by decide)).2 (by decide)).imp
      (fun _ h => ⟨h.1, h.2.1, h.2.2.2.2.2.2.2⟩)⟩

/-- After `UpdateOperatorStatus` on a chain whose operator is registered, the
pool weight and the eligible stake are the same pointer. -/
theorem updateOperatorStatus_registered (c : Chain) (stakingProvider : Address)
    (hreg : c.operatorToStakingProvider c.operatorAddress = some stakingProvider) :
    UpdateOperatorStatus c =
      (none,
        { c with sortitionPool :=
            (c.sortitionPool.set c.operatorAddress
              (c.eligibleStake.lookupBigInt stakingProvider).1) }) := by
  unfold UpdateOperatorStatus
  simp [AddressMap.lookupAddress, hreg]

/-- A registered operator whose pool weight is the pointer held as the
eligible stake of its staking provider (`nil` when there is no entry) is up to
date. -/
theorem isOperatorUpToDate_of_weight (c : Chain) (stakingProvider : Address)
    (hreg : c.operatorToStakingProvider c.operatorAddress = some stakingProvider)
    (hweight : c.sortitionPool c.operatorAddress =
      some (c.eligibleStake.lookupBigInt stakingProvider).1) :
    IsOperatorUpToDate c = .ret (true, none) := by
  unfold IsOperatorUpToDate
  simp only [AddressMap.lookupAddress, hreg, Bool.not_true, Bool.false_eq_true, if_false]
  have hw : c.sortitionPool.lookupBigInt c.operatorAddress =
      ((c.eligibleStake.lookupBigInt stakingProvider).1, true) := by
    simp [AddressMap.lookupBigInt, hweight]
  rw [hw]
  rcases c.eligibleStake.lookupBigInt stakingProvider with ⟨eligibleStake, hasStake⟩
  simp [bigIntCmp_self]

/-- C38: the local sortition chain. For every chain state in which the operator
is registered for a staking provider, `UpdateOperatorStatus` returns `nil` and
a subsequent `IsOperatorUpToDate` returns `(true, nil)` without failing,
whether an eligible stake has been set for the staking provider (to a value or
to `nil`) or not; directly after a successful `JoinSortitionPool`,
`IsOperatorUpToDate` returns `(true, nil)` and the same holds of
`UpdateOperatorStatus` followed by `IsOperatorUpToDate`. -/
theorem c38_update_then_up_to_date (c : Chain) (stakingProvider : Address)
    (hreg : c.operatorToStakingProvider c.operatorAddress = some stakingProvider) :
    (UpdateOperatorStatus c).1 = none ∧
    IsOperatorUpToDate (UpdateOperatorStatus c).2 = .ret (true, none) ∧
    (∀ c1, JoinSortitionPool c = .ret (none, c1) →
      IsOperatorUpToDate c1 = .ret (true, none) ∧
      (UpdateOperatorStatus c1).1 = none ∧
      IsOperatorUpToDate (UpdateOperatorStatus c1).2 = .ret (true, none)) := by
  have hupdate : ∀ c0 : Chain,
      c0.operatorToStakingProvider c0.operatorAddress = some stakingProvider →
      (UpdateOperatorStatus c0).1 = none ∧
        IsOperatorUpToDate (UpdateOperatorStatus c0).2 = .ret (true, none) := by
    intro c0 h0
    rw [updateOperatorStatus_registered c0 stakingProvider h0]
    exact ⟨rfl, isOperatorUpToDate_of_weight _ stakingProvider h0 (set_same _ _ _)⟩
  refine ⟨(hupdate c hreg).1, (hupdate c hreg).2, ?_⟩
  intro c1 hjoin
  rw [joinSortitionPool_registered c stakingProvider hreg] at hjoin
  rcases hs : c.eligibleStake stakingProvider with _ | (_ | stake)
  · rw [hs] at hjoin
    simp at hjoin
  · rw [hs] at hjoin
    exact absurd hjoin (by simp)
  · rw [hs] at hjoin
    by_cases h0 : stake = 0
    · simp [h0] at hjoin
    · simp only [if_neg h0] at hjoin
      rcases hp : c.sortitionPool c.operatorAddress with _ | w
      · rw [hp] at hjoin
        simp only [Run.ret.injEq, Prod.mk.injEq, true_and] at hjoin
        have hreg1 : c1.operatorToStakingProvider c1.operatorAddress = some stakingProvider := by
          rw [← hjoin]
          exact hreg
        refine ⟨?_, (hupdate c1 hreg1).1, (hupdate c1 hreg1).2⟩
        apply isOperatorUpToDate_of_weight c1 stakingProvider hreg1
        rw [← hjoin]
        simp [AddressMap.lookupBigInt, hs, set_same]
      · rw [hp] at hjoin
        simp at hjoin

/-- C38 on a chain whose operator `"A"` is registered for `"SP"`, for which no
eligible stake has been set: the pool weight becomes `nil` and the operator is
up to date. -/
theorem c38_update_then_up_to_date_witness :
    (RegisterOperator (Connect "A") "SP" "A").operatorToStakingProvider "A" = some "SP" ∧
    (RegisterOperator (Connect "A") "SP" "A").eligibleStake "SP" = none ∧
    (UpdateOperatorStatus (RegisterOperator (Connect "A") "SP" "A")).2.sortitionPool "A"
      = some none ∧
    (UpdateOperatorStatus (RegisterOperator (Connect "A") "SP" "A")).1 = none ∧
    IsOperatorUpToDate (UpdateOperatorStatus (RegisterOperator (Connect "A") "SP" "A")).2
      = .ret (true, none) :=
  ⟨by decide, by decide, by decide,
    (c38_update_then_up_to_date (RegisterOperator (Connect "A") "SP" "A") "SP"
      (by decide)).1,
    (c38_update_then_up_to_date (RegisterOperator (Connect "A") "SP" "A") "SP"
      (by decide)).2.1⟩

end Local

namespace Dkg

/-! ## Member indexes in the DKG messages -/

theorem validateMemberIndex_eq_none_iff (protoIndex : Nat) :
    validateMemberIndex protoIndex = none ↔ protoIndex ≤ 255 := by
  unfold validateMemberIndex MaxMemberIndex
  by_cases h : protoIndex > 255
  · simp [h]
  · simp [h]
    omega

theorem validateMemberIndex_isSome_iff (protoIndex : Nat) :
    (validateMemberIndex protoIndex).isSome = true ↔ protoIndex > 255 := by
  unfold validateMemberIndex MaxMemberIndex
  by_cases h : protoIndex > 255
  · simp [h]
  · simp [h]

theorem toMemberIndex_of_le (x : Nat) (h : x ≤ 255) : toMemberIndex x = x := by
  unfold toMemberIndex
  exact Nat.mod_eq_of_lt (by omega)

theorem memberMap_set_same {α : Type} (m : MemberMap α) (key : MemberIndex) (value : α) :
    m.set key value key = some value := by
  simp [MemberMap.set]

theorem memberMap_set_other {α : Type} (m : MemberMap α) (key k : MemberIndex) (value : α)
    (h : k ≠ key) : m.set key value k = m k := by
  simp [MemberMap.set, h]

/-- A run of the receiver loop that ends without error: every wire key is at
most `255`, the keys of the map are the old keys and the wire keys, untouched
keys keep their value, and with distinct wire keys every entry is found under
its wire key. -/
theorem peersPayloadLoop_ok (w : WireMap) :
    ∀ (acc m : MemberMap (List Nat)), peersPayloadLoop w acc = .ok m →
      (∀ e ∈ w, e.1 ≤ 255) ∧
      (∀ k, (m k).isSome = true ↔ ((acc k).isSome = true ∨ ∃ e ∈ w, e.1 = k)) ∧
      (∀ k, (∀ e ∈ w, e.1 ≠ k) → m k = acc k) ∧
      ((w.map Prod.fst).Nodup → ∀ e ∈ w, m e.1 = some e.2) := by
  induction w with
  | nil =>
    intro acc m h
    simp only [peersPayloadLoop, Except.ok.injEq] at h
    subst h
    simp
  | cons a rest ih =>
    intro acc m h
    obtain ⟨receiverID, payload⟩ := a
    unfold peersPayloadLoop at h
    rcases hv : validateMemberIndex receiverID with _ | err
    · have hle : receiverID ≤ 255 := (validateMemberIndex_eq_none_iff receiverID).1 hv
      rw [hv, toMemberIndex_of_le receiverID hle] at h
      obtain ⟨h1, h2, h3, h4⟩ := ih _ m h
      refine ⟨?_, ?_, ?_, ?_⟩
      · intro e he
        rcases List.mem_cons.1 he with rfl | he
        · exact hle
        · exact h1 e he
      · intro k
        rw [h2 k]
        by_cases hk : k = receiverID
        · subst hk
          simp [memberMap_set_same]
        · rw [memberMap_set_other _ _ _ _ hk]
          constructor
          · rintro (h5 | ⟨e, he, hek⟩)
            · exact Or.inl h5
            · exact Or.inr ⟨e, List.mem_cons_of_mem _ he, hek⟩
          · rintro (h5 | ⟨e, he, hek⟩)
            · exact Or.inl h5
            · rcases List.mem_cons.1 he with rfl | he
              · exact absurd hek.symm hk
              · exact Or.inr ⟨e, he, hek⟩
      · intro k hk
        rw [h3 k (fun e he => hk e (List.mem_cons_of_mem _ he))]
        exact memberMap_set_other _ _ _ _
          (fun e => hk (receiverID, payload) (List.mem_cons_self _ _) e.symm)
      · intro hnodup e he
        simp only [List.map_cons, List.nodup_cons] at hnodup
        rcases List.mem_cons.1 he with rfl | he
        · rw [h3 receiverID (fun e he hek =>
            hnodup.1 (List.mem_map.2 ⟨e, he, hek⟩))]
          exact memberMap_set_same _ _ _
        · exact h4 hnodup.2 e he
    · rw [hv] at h
      exact absurd h (by simp)

/-- The receiver loop fails on a wire key above `255`. -/
theorem peersPayloadLoop_error (w : WireMap) :
    ∀ acc : MemberMap (List Nat), (∃ e ∈ w, e.1 > 255) →
      ∃ err, peersPayloadLoop w acc = .error err := by
  intro acc hbad
  rcases hr : peersPayloadLoop w acc with err | m
  · exact ⟨err, rfl⟩
  · obtain ⟨e, he, hgt⟩ := hbad
    have := (peersPayloadLoop_ok w acc m hr).1 e he
    omega

/-- The receiver loop succeeds when every wire key is at most `255`. -/
theorem peersPayloadLoop_returns (w : WireMap) :
    ∀ acc : MemberMap (List Nat), (∀ e ∈ w, e.1 ≤ 255) →
      ∃ m, peersPayloadLoop w acc = .ok m := by
  induction w with
  | nil => intro acc _; exact ⟨acc, rfl⟩
  | cons a rest ih =>
    intro acc h
    obtain ⟨receiverID, payload⟩ := a
    unfold peersPayloadLoop
    rw [(validateMemberIndex_eq_none_iff receiverID).2 (h _ (List.mem_cons_self _ _))]
    exact ih _ (fun e he => h e (List.mem_cons_of_mem _ he))

/-- A run of the loop of `unmarshalPublicKeyMap` that ends without error:
every wire key is at most `255` and every key unmarshals, the keys of the map
are the old keys and the wire keys, untouched keys keep their value, and with
distinct wire keys every public key is found under its wire key. -/
theorem unmarshalPublicKeyMapLoop_ok {PublicKey : Type}
    (UnmarshalPublicKey : List Nat → Except String PublicKey) (w : WireMap) :
    ∀ (acc m : MemberMap PublicKey),
      unmarshalPublicKeyMapLoop UnmarshalPublicKey w acc = (m, none) →
      (∀ e ∈ w, e.1 ≤ 255 ∧ ∃ publicKey, UnmarshalPublicKey e.2 = .ok publicKey) ∧
      (∀ k, (m k).isSome = true ↔ ((acc k).isSome = true ∨ ∃ e ∈ w, e.1 = k)) ∧
      (∀ k, (∀ e ∈ w, e.1 ≠ k) → m k = acc k) ∧
      ((w.map Prod.fst).Nodup → ∀ e ∈ w, ∃ publicKey,
        UnmarshalPublicKey e.2 = .ok publicKey ∧ m e.1 = some publicKey) := by
  induction w with
  | nil =>
    intro acc m h
    simp only [unmarshalPublicKeyMapLoop, Prod.mk.injEq, and_true] at h
    subst h
    simp
  | cons a rest ih =>
    intro acc m h
    obtain ⟨memberID, publicKeyBytes⟩ := a
    unfold unmarshalPublicKeyMapLoop at h
    rcases hv : validateMemberIndex memberID with _ | err
    · have hle : memberID ≤ 255 := (validateMemberIndex_eq_none_iff memberID).1 hv
      rw [hv] at h
      rcases hu : UnmarshalPublicKey publicKeyBytes with err | publicKey
      · rw [hu] at h
        simp at h
      · rw [hu, toMemberIndex_of_le memberID hle] at h
        obtain ⟨h1, h2, h3, h4⟩ := ih _ m h
        refine ⟨?_, ?_, ?_, ?_⟩
        · intro e he
          rcases List.mem_cons.1 he with rfl | he
          · exact ⟨hle, publicKey, hu⟩
          · exact h1 e he
        · intro k
          rw [h2 k]
          by_cases hk : k = memberID
          · subst hk
            simp [memberMap_set_same]
          · rw [memberMap_set_other _ _ _ _ hk]
            constructor
            · rintro (h5 | ⟨e, he, hek⟩)
              · exact Or.inl h5
              · exact Or.inr ⟨e, List.mem_cons_of_mem _ he, hek⟩
            · rintro (h5 | ⟨e, he, hek⟩)
              · exact Or.inl h5
              · rcases List.mem_cons.1 he with rfl | he
                · exact absurd hek.symm hk
                · exact Or.inr ⟨e, he, hek⟩
        · intro k hk
          rw [h3 k (fun e he => hk e (List.mem_cons_of_mem _ he))]
          exact memberMap_set_other _ _ _ _
            (fun e => hk (memberID, publicKeyBytes) (List.mem_cons_self _ _) e.symm)
        · intro hnodup e he
          simp only [List.map_cons, List.nodup_cons] at hnodup
          rcases List.mem_cons.1 he with rfl | he
          · refine ⟨publicKey, hu, ?_⟩
            rw [h3 memberID (fun e he hek =>
              hnodup.1 (List.mem_map.2 ⟨e, he, hek⟩))]
            exact memberMap_set_same _ _ _
          · exact h4 hnodup.2 e he
    · rw [hv] at h
      simp at h

/-- `unmarshalPublicKeyMap` fails on a wire key above `255`. -/
theorem unmarshalPublicKeyMap_error {PublicKey : Type}
    (UnmarshalPublicKey : List Nat → Except String PublicKey) (w : WireMap)
    (hbad : ∃ e ∈ w, e.1 > 255) :
    ∃ err, (unmarshalPublicKeyMap UnmarshalPublicKey w).2 = some err := by
  unfold unmarshalPublicKeyMap
  rcases hr : unmarshalPublicKeyMapLoop UnmarshalPublicKey w MemberMap.empty with
    ⟨m, _ | err⟩
  · obtain ⟨e, he, hgt⟩ := hbad
    have := ((unmarshalPublicKeyMapLoop_ok UnmarshalPublicKey w _ m hr).1 e he).1
    omega
  · exact ⟨err, rfl⟩

/-- What a successful `ephemeralPublicKeyMessage.Unmarshal` has checked and
stored. -/
theorem ephemeralPublicKeyMessage_unmarshal_ok {PublicKey : Type}
    (decode : List Nat → Except String pb.EphemeralPublicKeyMessage)
    (UnmarshalPublicKey : List Nat → Except String PublicKey)
    (epkm : ephemeralPublicKeyMessage PublicKey) (bytes : List Nat)
    (pbMsg : pb.EphemeralPublicKeyMessage) (hdecode : decode bytes = .ok pbMsg)
    (h : (ephemeralPublicKeyMessage.Unmarshal decode UnmarshalPublicKey epkm bytes).1
      = none) :
    pbMsg.SenderID ≤ 255 ∧
    ephemeralPublicKeyMessage.Unmarshal decode UnmarshalPublicKey epkm bytes =
      (none, { senderID := pbMsg.SenderID,
               ephemeralPublicKeys :=
                 (unmarshalPublicKeyMap UnmarshalPublicKey pbMsg.EphemeralPublicKeys).1,
               sessionID := pbMsg.SessionID }) ∧
    (unmarshalPublicKeyMap UnmarshalPublicKey pbMsg.EphemeralPublicKeys).2 = none := by
  unfold ephemeralPublicKeyMessage.Unmarshal at h ⊢
  rw [hdecode] at h ⊢
  simp only at h ⊢
  rcases hv : validateMemberIndex pbMsg.SenderID with _ | err
  · have hle := (validateMemberIndex_eq_none_iff _).1 hv
    rw [hv] at h
    simp only at h ⊢
    rcases hm : unmarshalPublicKeyMap UnmarshalPublicKey pbMsg.EphemeralPublicKeys with
      ⟨keys, _ | err⟩
    · rw [toMemberIndex_of_le _ hle]
      exact ⟨hle, rfl, rfl⟩
    · rw [hm] at h
      simp at h
  · rw [hv] at h
    simp at h

/-- `ephemeralPublicKeyMessage.Unmarshal` fails on a sender ID or a public-key
map key above `255`. -/
theorem ephemeralPublicKeyMessage_unmarshal_error {PublicKey : Type}
    (decode : List Nat → Except String pb.EphemeralPublicKeyMessage)
    (UnmarshalPublicKey : List Nat → Except String PublicKey)
    (epkm : ephemeralPublicKeyMessage PublicKey) (bytes : List Nat)
    (pbMsg : pb.EphemeralPublicKeyMessage) (hdecode : decode bytes = .ok pbMsg)
    (hbad : pbMsg.SenderID > 255 ∨ ∃ e ∈ pbMsg.EphemeralPublicKeys, e.1 > 255) :
    ((ephemeralPublicKeyMessage.Unmarshal decode UnmarshalPublicKey epkm bytes).1).isSome
      = true := by
  rcases hr : (ephemeralPublicKeyMessage.Unmarshal decode UnmarshalPublicKey epkm bytes).1
    with _ | err
  · obtain ⟨hle, _, hmap⟩ := ephemeralPublicKeyMessage_unmarshal_ok decode
      UnmarshalPublicKey epkm bytes pbMsg hdecode hr
    rcases hbad with hgt | hkey
    · omega
    · obtain ⟨err, herr⟩ := unmarshalPublicKeyMap_error UnmarshalPublicKey _ hkey
      rw [hmap] at herr
      exact absurd herr (by simp)
  · rfl

/-- `tssRoundTwoMessage.Unmarshal` succeeds exactly when the sender ID and
every receiver ID are at most `255`, and then stores the sender ID and the map
that the receiver loop built. -/
theorem tssRoundTwoMessage_unmarshal_spec
    (decode : List Nat → Except String pb.TSSRoundTwoMessage)
    (trtm : tssRoundTwoMessage) (bytes : List Nat) (pbMsg : pb.TSSRoundTwoMessage)
    (hdecode : decode bytes = .ok pbMsg) :
    ((tssRoundTwoMessage.Unmarshal decode trtm bytes).1 = none ↔
      (pbMsg.SenderID ≤ 255 ∧ ∀ e ∈ pbMsg.PeersPayload, e.1 ≤ 255)) ∧
    ((tssRoundTwoMessage.Unmarshal decode trtm bytes).1 = none →
      ∃ peersPayload, peersPayloadLoop pbMsg.PeersPayload MemberMap.empty = .ok peersPayload ∧
        (tssRoundTwoMessage.Unmarshal decode trtm bytes).2 =
          { senderID := pbMsg.SenderID, broadcastPayload := pbMsg.BroadcastPayload,
            peersPayload := peersPayload, sessionID := pbMsg.SessionID }) := by
  unfold tssRoundTwoMessage.Unmarshal
  rw [hdecode]
  simp only
  rcases hv : validateMemberIndex pbMsg.SenderID with _ | err
  · have hle := (validateMemberIndex_eq_none_iff _).1 hv
    simp only
    rcases hl : peersPayloadLoop pbMsg.PeersPayload MemberMap.empty with err | peersPayload
    · simp only
      refine ⟨?_, fun h => absurd h (by simp)⟩
      constructor
      · intro h
        exact absurd h (by simp)
      · rintro ⟨_, hall⟩
        obtain ⟨m, hm⟩ := peersPayloadLoop_returns pbMsg.PeersPayload MemberMap.empty hall
        rw [hl] at hm
        exact absurd hm (by simp)
    · simp only [true_iff]
      refine ⟨⟨hle, (peersPayloadLoop_ok _ _ _ hl).1⟩, fun _ => ⟨peersPayload, rfl, ?_⟩⟩
      rw [toMemberIndex_of_le _ hle]
  · have hgt : ¬ pbMsg.SenderID ≤ 255 := by
      intro hle
      rw [(validateMemberIndex_eq_none_iff _).2 hle] at hv
      exact absurd hv (by simp)
    simp only
    refine ⟨?_, fun h => absurd h (by simp)⟩
    constructor
    · intro h
      exact absurd h (by simp)
    · rintro ⟨hle, _⟩
      exact absurd hle hgt

/-- `tssRoundOneMessage.Unmarshal` succeeds exactly when the sender ID is at
most `255`, and then stores it unchanged. -/
theorem tssRoundOneMessage_unmarshal_spec
    (decode : List Nat → Except String pb.TSSRoundOneMessage)
    (trom : tssRoundOneMessage) (bytes : List Nat) (pbMsg : pb.TSSRoundOneMessage)
    (hdecode : decode bytes = .ok pbMsg) :
    ((tssRoundOneMessage.Unmarshal decode trom bytes).1 = none ↔ pbMsg.SenderID ≤ 255) ∧
    ((tssRoundOneMessage.Unmarshal decode trom bytes).1 = none →
      (tssRoundOneMessage.Unmarshal decode trom bytes).2 =
        { senderID := pbMsg.SenderID, payload := pbMsg.Payload,
          sessionID := pbMsg.SessionID }) := by
  unfold tssRoundOneMessage.Unmarshal
  rw [hdecode]
  simp only
  rcases hv : validateMemberIndex pbMsg.SenderID with _ | err
  · have hle := (validateMemberIndex_eq_none_iff _).1 hv
    simp only [true_iff]
    exact ⟨hle, fun _ => by rw [toMemberIndex_of_le _ hle]⟩
  · have hgt : ¬ pbMsg.SenderID ≤ 255 := by
      intro hle
      rw [(validateMemberIndex_eq_none_iff _).2 hle] at hv
      exact absurd hv (by simp)
    simp only
    exact ⟨⟨fun h => absurd h (by simp), fun h => absurd h hgt⟩,
      fun h => absurd h (by simp)⟩

/-- `tssRoundThreeMessage.Unmarshal` succeeds exactly when the sender ID is at
most `255`, and then stores it unchanged. -/
theorem tssRoundThreeMessage_unmarshal_spec
    (decode : List Nat → Except String pb.TSSRoundThreeMessage)
    (trtm : tssRoundThreeMessage) (bytes : List Nat) (pbMsg : pb.TSSRoundThreeMessage)
    (hdecode : decode bytes = .ok pbMsg) :
    ((tssRoundThreeMessage.Unmarshal decode trtm bytes).1 = none ↔ pbMsg.SenderID ≤ 255) ∧
    ((tssRoundThreeMessage.Unmarshal decode trtm bytes).1 = none →
      (tssRoundThreeMessage.Unmarshal decode trtm bytes).2 =
        { senderID := pbMsg.SenderID, payload := pbMsg.Payload,
          sessionID := pbMsg.SessionID }) := by
  unfold tssRoundThreeMessage.Unmarshal
  rw [hdecode]
  simp only
  rcases hv : validateMemberIndex pbMsg.SenderID with _ | err
  · have hle := (validateMemberIndex_eq_none_iff _).1 hv
    simp only [true_iff]
    exact ⟨hle, fun _ => by rw [toMemberIndex_of_le _ hle]⟩
  · have hgt : ¬ pbMsg.SenderID ≤ 255 := by
      intro hle
      rw [(validateMemberIndex_eq_none_iff _).2 hle] at hv
      exact absurd hv (by simp)
    simp only
    exact ⟨⟨fun h => absurd h (by simp), fun h => absurd h hgt⟩,
      fun h => absurd h (by simp)⟩

/-- C32: `validateMemberIndex(protoIndex)` returns an error if and only if
`protoIndex > group.MaxMemberIndex` (`255`). So whenever `Unmarshal` of an
`ephemeralPublicKeyMessage` or of a TSS round message succeeds on a decoded
protobuf message, the stored sender ID equals the wire value, the keys of the
stored receiver / public-key map are exactly the wire keys, and (the wire keys
being distinct, as in a map) every entry is found under its wire key: nothing
is truncated; `Unmarshal` of a message carrying a sender ID or a map key above
`255` fails. -/
theorem c32_member_index_validation {PublicKey : Type}
    (UnmarshalPublicKey : List Nat → Except String PublicKey) :
    (∀ protoIndex, (validateMemberIndex protoIndex).isSome = true ↔ protoIndex > 255) ∧
    (∀ decode (epkm : ephemeralPublicKeyMessage PublicKey) bytes pbMsg,
      decode bytes = .ok pbMsg →
      ((ephemeralPublicKeyMessage.Unmarshal decode UnmarshalPublicKey epkm bytes).1 = none →
        (ephemeralPublicKeyMessage.Unmarshal decode UnmarshalPublicKey epkm bytes).2.senderID
          = pbMsg.SenderID ∧
        (∀ k, ((ephemeralPublicKeyMessage.Unmarshal decode UnmarshalPublicKey epkm
            bytes).2.ephemeralPublicKeys k).isSome = true ↔
          ∃ e ∈ pbMsg.EphemeralPublicKeys, e.1 = k) ∧
        ((pbMsg.EphemeralPublicKeys.map Prod.fst).Nodup →
          ∀ e ∈ pbMsg.EphemeralPublicKeys, ∃ publicKey,
            UnmarshalPublicKey e.2 = .ok publicKey ∧
            (ephemeralPublicKeyMessage.Unmarshal decode UnmarshalPublicKey epkm
              bytes).2.ephemeralPublicKeys e.1 = some publicKey)) ∧
      ((pbMsg.SenderID > 255 ∨ ∃ e ∈ pbMsg.EphemeralPublicKeys, e.1 > 255) →
        ((ephemeralPublicKeyMessage.Unmarshal decode UnmarshalPublicKey epkm
          bytes).1).isSome = true)) ∧
    (∀ decode trom bytes pbMsg, decode bytes = .ok pbMsg →
      ((tssRoundOneMessage.Unmarshal decode trom bytes).1 = none →
        (tssRoundOneMessage.Unmarshal decode trom bytes).2.senderID = pbMsg.SenderID) ∧
      (pbMsg.SenderID > 255 →
        ((tssRoundOneMessage.Unmarshal decode trom bytes).1).isSome = true)) ∧
    (∀ decode trtm bytes pbMsg, decode bytes = .ok pbMsg →
      ((tssRoundTwoMessage.Unmarshal decode trtm bytes).1 = none →
        (tssRoundTwoMessage.Unmarshal decode trtm bytes).2.senderID = pbMsg.SenderID ∧
        (∀ k, ((tssRoundTwoMessage.Unmarshal decode trtm bytes).2.peersPayload k).isSome
            = true ↔ ∃ e ∈ pbMsg.PeersPayload, e.1 = k) ∧
        ((pbMsg.PeersPayload.map Prod.fst).Nodup →
          ∀ e ∈ pbMsg.PeersPayload,
            (tssRoundTwoMessage.Unmarshal decode trtm bytes).2.peersPayload e.1
              = some e.2)) ∧
      ((pbMsg.SenderID > 255 ∨ ∃ e ∈ pbMsg.PeersPayload, e.1 > 255) →
        ((tssRoundTwoMessage.Unmarshal decode trtm bytes).1).isSome = true)) ∧
    (∀ decode trtm bytes pbMsg, decode bytes = .ok pbMsg →
      ((tssRoundThreeMessage.Unmarshal decode trtm bytes).1 = none →
        (tssRoundThreeMessage.Unmarshal decode trtm bytes).2.senderID = pbMsg.SenderID) ∧
      (pbMsg.SenderID > 255 →
        ((tssRoundThreeMessage.Unmarshal decode trtm bytes).1).isSome = true)) := by
  refine ⟨validateMemberIndex_isSome_iff, ?_, ?_, ?_, ?_⟩
  · intro decode epkm bytes pbMsg hdecode
    refine ⟨?_, ephemeralPublicKeyMessage_unmarshal_error decode UnmarshalPublicKey epkm
      bytes pbMsg hdecode⟩
    intro hok
    obtain ⟨_, heq, hmap⟩ := ephemeralPublicKeyMessage_unmarshal_ok decode
      UnmarshalPublicKey epkm bytes pbMsg hdecode hok
    rw [heq]
    have hloop : unmarshalPublicKeyMapLoop UnmarshalPublicKey pbMsg.EphemeralPublicKeys
        MemberMap.empty =
        ((unmarshalPublicKeyMap UnmarshalPublicKey pbMsg.EphemeralPublicKeys).1, none) := by
      rw [← hmap]
      rfl
    obtain ⟨_, h2, _, h4⟩ := unmarshalPublicKeyMapLoop_ok UnmarshalPublicKey _ _ _ hloop
    refine ⟨rfl, ?_, h4⟩
    intro k
    rw [h2 k]
    simp [MemberMap.empty]
  · intro decode trom bytes pbMsg hdecode
    obtain ⟨hiff, hval⟩ := tssRoundOneMessage_unmarshal_spec decode trom bytes pbMsg hdecode
    refine ⟨fun hok => by rw [hval hok], ?_⟩
    intro hgt
    rcases hr : (tssRoundOneMessage.Unmarshal decode trom bytes).1 with _ | err
    · have := hiff.1 hr
      omega
    · rfl
  · intro decode trtm bytes pbMsg hdecode
    obtain ⟨hiff, hval⟩ := tssRoundTwoMessage_unmarshal_spec decode trtm bytes pbMsg hdecode
    refine ⟨?_, ?_⟩
    · intro hok
      obtain ⟨peersPayload, hloop, heq⟩ := hval hok
      rw [heq]
      obtain ⟨_, h2, _, h4⟩ := peersPayloadLoop_ok _ _ _ hloop
      refine ⟨rfl, ?_, h4⟩
      intro k
      rw [h2 k]
      simp [MemberMap.empty]
    · intro hbad
      rcases hr : (tssRoundTwoMessage.Unmarshal decode trtm bytes).1 with _ | err
      · obtain ⟨hle, hall⟩ := hiff.1 hr
        rcases hbad with hgt | ⟨e, he, hgt⟩
        · omega
        · have := hall e he
          omega
      · rfl
  · intro decode trtm bytes pbMsg hdecode
    obtain ⟨hiff, hval⟩ := tssRoundThreeMessage_unmarshal_spec decode trtm bytes pbMsg hdecode
    refine ⟨fun hok => by rw [hval hok], ?_⟩
    intro hgt
    rcases hr : (tssRoundThreeMessage.Unmarshal decode trtm bytes).1 with _ | err
    · have := hiff.1 hr
      omega
    · rfl

/-- C32 on a round-two message from sender `3` with payloads for the receivers
`1` and `2` (it is unmarshaled, with sender ID `3`), and on one from sender
`300` (it is refused). -/
theorem c32_member_index_validation_witness :
    (tssRoundTwoMessage.Unmarshal (fun _ => .ok ⟨3, [7], [(1, [10]), (2, [20])], "s"⟩)
      ⟨0, [], MemberMap.empty, ""⟩ [0]).1 = none ∧
    (tssRoundTwoMessage.Unmarshal (fun _ => .ok ⟨3, [7], [(1, [10]), (2, [20])], "s"⟩)
      ⟨0, [], MemberMap.empty, ""⟩ [0]).2.senderID = 3 ∧
    ((tssRoundTwoMessage.Unmarshal (fun _ => .ok ⟨300, [7], [(1, [10]), (2, [20])], "s"⟩)
      ⟨0, [], MemberMap.empty, ""⟩ [0]).1).isSome = true :=
  ⟨by decide,
    ((((c32_member_index_validation (fun bytes => Except.ok bytes)).2.2.2.1
      (fun _ => .ok ⟨3, [7], [(1, [10]), (2, [20])], "s"⟩) ⟨0, [], MemberMap.empty, ""⟩ [0]
      ⟨3, [7], [(1, [10]), (2, [20])], "s"⟩ rfl).1) (by decide)).1,
    ((c32_member_index_validation (fun bytes => Except.ok bytes)).2.2.2.1
      (fun _ => .ok ⟨300, [7], [(1, [10]), (2, [20])], "s"⟩) ⟨0, [], MemberMap.empty, ""⟩ [0]
      ⟨300, [7], [(1, [10]), (2, [20])], "s"⟩ rfl).2 (Or.inl (by decide))⟩

end Dkg

namespace Tecdsa

/-! ## Completeness of the commitment -/

/-- With the three draws made, `GenerateCommitment` returns the commitment
`g2 * digest + (h + pubKey) * r` and the secret with `r`. -/
theorem generateCommitment_ok {G1 G2 GT : Type} [AddCommGroup G1] [AddCommGroup G2]
    [AddCommGroup GT] (bn : Bn256 G1 G2 GT) (sha256Sum256 : List Nat → List Nat)
    (randomPubKey : Except String (Int × G2)) (randomR : Except String (Int × G1))
    (randomH : Except String (Int × G2)) (secret : List Nat)
    (commitment : Commitment G2) (s : Secret)
    (h : GenerateCommitment bn sha256Sum256 randomPubKey randomR randomH secret
      = .ok (commitment, s)) :
    s.secret = secret ∧
    commitment.commitment =
      (hash256BigInt sha256Sum256 secret % Order) • bn.g2
        + s.r • (commitment.h + commitment.pubKey) := by
  unfold GenerateCommitment at h
  rcases randomPubKey with err | ⟨k1, pubKey⟩
  · exact absurd h (by simp)
  · rcases randomR with err | ⟨r, p⟩
    · exact absurd h (by simp)
    · rcases randomH with err | ⟨k2, point⟩
      · exact absurd h (by simp)
      · simp only [Except.ok.injEq, Prod.mk.injEq] at h
        obtain ⟨hc, hs⟩ := h
        subst hc
        subst hs
        exact ⟨rfl, rfl⟩

/-- The two pairings that `ValidateCommitment` compares are equal on a
commitment of the form `g2 * digest + (h + pubKey) * r`. -/
theorem pairings_match {G1 G2 GT : Type} [AddCommGroup G1] [AddCommGroup G2]
    [AddCommGroup GT] (bn : Bn256 G1 G2 GT) (digest r : Int) (he : G2) :
    bn.Pair (r • bn.g1) he =
      bn.Pair ((1 : Int) • bn.g1) (digest • bn.g2 + r • he + -(digest • bn.g2)) := by
  rw [one_smul, add_neg_cancel_comm, map_zsmul, map_zsmul]
  rfl

/-- C33: commitment completeness. For every secret byte string and every
outcome of the random draws in `GenerateCommitment`, `ValidateCommitment`
applied to the `Commitment` and `Secret` that `GenerateCommitment` returned
yields `(true, nil)`: the returned commitment is
`g2 * digest + (h + pubKey) * r`, so by the bilinearity of the pairing
`pairing(g1 * r, h + pubKey)` equals `pairing(g1, commitment - g2 * digest)`.
`GenerateCommitment` returns the two values whenever the three draws succeed. -/
theorem c33_commitment_completeness {G1 G2 GT : Type} [AddCommGroup G1]
    [AddCommGroup G2] [AddCommGroup GT] (bn : Bn256 G1 G2 GT)
    (sha256Sum256 : List Nat → List Nat) (secret : List Nat) :
    (∀ (randomPubKey : Except String (Int × G2)) (randomR : Except String (Int × G1))
        (randomH : Except String (Int × G2)) (commitment : Commitment G2) (s : Secret),
      GenerateCommitment bn sha256Sum256 randomPubKey randomR randomH secret
        = .ok (commitment, s) →
      ValidateCommitment bn sha256Sum256 commitment s = (true, none) ∧
      commitment.commitment =
        (hash256BigInt sha256Sum256 secret % Order) • bn.g2
          + s.r • (commitment.h + commitment.pubKey) ∧
      bn.Pair (s.r • bn.g1) (commitment.h + commitment.pubKey) =
        bn.Pair ((1 : Int) • bn.g1)
          (commitment.commitment
            + -((hash256BigInt sha256Sum256 secret % Order) • bn.g2))) ∧
    (∀ (k1 : Int) (pubKey : G2) (r : Int) (point : G1) (k2 : Int) (h : G2),
      ∃ commitment s,
        GenerateCommitment bn sha256Sum256 (.ok (k1, pubKey)) (.ok (r, point))
          (.ok (k2, h)) secret = .ok (commitment, s) ∧
        commitment.pubKey = pubKey ∧ commitment.h = h ∧ s.r = r ∧ s.secret = secret ∧
        ValidateCommitment bn sha256Sum256 commitment s = (true, none)) := by
  have hcomplete : ∀ (randomPubKey : Except String (Int × G2))
      (randomR : Except String (Int × G1)) (randomH : Except String (Int × G2))
      (commitment : Commitment G2) (s : Secret),
      GenerateCommitment bn sha256Sum256 randomPubKey randomR randomH secret
        = .ok (commitment, s) →
      ValidateCommitment bn sha256Sum256 commitment s = (true, none) ∧
      commitment.commitment =
        (hash256BigInt sha256Sum256 secret % Order) • bn.g2
          + s.r • (commitment.h + commitment.pubKey) ∧
      bn.Pair (s.r • bn.g1) (commitment.h + commitment.pubKey) =
        bn.Pair ((1 : Int) • bn.g1)
          (commitment.commitment
            + -((hash256BigInt sha256Sum256 secret % Order) • bn.g2)) := by
    intro randomPubKey randomR randomH commitment s hgen
    obtain ⟨hsecret, hform⟩ := generateCommitment_ok bn sha256Sum256 randomPubKey randomR
      randomH secret commitment s hgen
    have hpair : bn.Pair (s.r • bn.g1) (commitment.h + commitment.pubKey) =
        bn.Pair ((1 : Int) • bn.g1)
          (commitment.commitment
            + -((hash256BigInt sha256Sum256 secret % Order) • bn.g2)) := by
      rw [hform]
      exact pairings_match bn _ _ _
    refine ⟨?_, hform, hpair⟩
    unfold ValidateCommitment
    simp only [hsecret, hpair, ne_eq, not_true_eq_false, if_false]
  refine ⟨hcomplete, ?_⟩
  intro k1 pubKey r point k2 h
  refine ⟨{ pubKey := pubKey, h := h,
            commitment := (hash256BigInt sha256Sum256 secret % Order) • bn.g2
              + r • (h + pubKey) }, { secret := secret, r := r }, rfl, rfl, rfl, rfl, rfl, ?_⟩
  exact (hcomplete (.ok (k1, pubKey)) (.ok (r, point)) (.ok (k2, h)) _ _ rfl).1

/-- C33 over the integers with the product as pairing, the draws `2`, `3` and
`5`, and a digest function that returns 32 bytes `0xff`. -/
theorem c33_commitment_completeness_witness :
    GenerateCommitment exampleBn256 (fun _ => List.replicate 32 255) (.ok (2, 2))
        (.ok (3, 3)) (.ok (5, 5)) [1, 2, 3] =
      .ok ({ pubKey := 2, h := 5,
             commitment :=
               (hash256BigInt (fun _ => List.replicate 32 255) [1, 2, 3] % Order) • (1 : Int)
                 + (3 : Int) • ((5 : Int) + 2) },
           { secret := [1, 2, 3], r := 3 }) ∧
    ValidateCommitment exampleBn256 (fun _ => List.replicate 32 255)
        { pubKey := 2, h := 5,
          commitment :=
            (hash256BigInt (fun _ => List.replicate 32 255) [1, 2, 3] % Order) • (1 : Int)
              + (3 : Int) • ((5 : Int) + 2) }
        { secret := [1, 2, 3], r := 3 } = (true, none) :=
  ⟨rfl,
    ((c33_commitment_completeness exampleBn256 (fun _ => List.replicate 32 255)
      [1, 2, 3]).1 (.ok (2, 2)) (.ok (3, 3)) (.ok (5, 5)) _ _ rfl).1⟩

end Tecdsa

namespace Tbtc

open Go

/-! ## The fallback, once used -/

/-- The fast path is closed once the fallback has been used or the attempt
counter has passed `5`. -/
theorem fastPathConditions_false_of (drl : dkgRetryLoop)
    (h : 0 < drl.randomRetryCounter ∨ 5 < drl.attemptCounter) :
    fastPathConditions drl = false := by
  rw [← Bool.not_eq_true, fastPathConditions_iff]
  rintro ⟨h1, h2, _⟩
  omega

/-- A `requalify` that lets the loop continue without the fast path has called
the primitive with the current counter and advanced the counter. -/
theorem requalify_fallback (ext : RetryExternals) (x d : dkgRetryLoop) (q1 : AddressSet)
    (hfast : fastPathConditions x = false) (h : requalify ext x = .next d q1) :
    ∃ operators, randomSelection ext x = (operators, none) ∧
      q1 = Addresses.Set operators ∧
      d = { x with randomRetryCounter := (x.randomRetryCounter + 1) % uint64Size } := by
  obtain ⟨hd, hq, herr⟩ := requalify_next ext x d q1 h
  rw [qualifiedOperatorsSet_fallback ext x hfast] at hd hq herr
  rcases hsel : randomSelection ext x with ⟨operators, _ | err⟩
  · rw [hsel] at hd hq
    exact ⟨operators, rfl, hq, hd⟩
  · rw [hsel] at herr
    exact absurd herr (by simp)

/-- An iteration that continues, made with a positive random retry counter
or reaching an attempt counter above `5`, has obtained the next qualified set
from the primitive, called with the counter the iteration began with. -/
theorem iteration_next_fallback (ext : RetryExternals) (ctx : Nat → Bool)
    (f : dkgAttemptParams → AttemptReturn) (drl : dkgRetryLoop) (q : AddressSet)
    (d : dkgRetryLoop) (q1 : AddressSet)
    (h : (iteration ext ctx f drl q).2 = .next d q1)
    (hcond : 0 < drl.randomRetryCounter ∨ 5 < (drl.attemptCounter + 1) % uint64Size) :
    ∃ operators,
      ext.EvaluateRetryParticipantsForKeyGeneration drl.selectedOperators
          drl.randomRetrySeed drl.randomRetryCounter
          (drl.chainConfig.GroupQuorum % (uint64Size : Int)).toNat = (operators, none) ∧
      q1 = Addresses.Set operators ∧
      d.randomRetryCounter = (drl.randomRetryCounter + 1) % uint64Size := by
  obtain ⟨hreq, _⟩ := iteration_next_counter ext ctx f drl q d q1 h
  obtain ⟨_, hsel, hcfg, hcounter, _, hseed, _⟩ :=
    (iteration_counters ext ctx f drl q).1 d (by rw [h]; rfl)
  have hfast : fastPathConditions
      ({ d with randomRetryCounter := drl.randomRetryCounter } : dkgRetryLoop) = false := by
    apply fastPathConditions_false_of
    rcases hcond with hc | hc
    · exact Or.inl hc
    · right
      show 5 < d.attemptCounter
      rw [hcounter]
      exact hc
  obtain ⟨operators, hrandom, hq, hd⟩ := requalify_fallback ext _ d q1 hfast hreq
  refine ⟨operators, ?_, hq, ?_⟩
  · rw [← hrandom]
    simp only [randomSelection]
    rw [hsel, hcfg, hseed]
  · rw [hd]

/-- Once the counter is positive, and as long as it does not wrap, every
iteration after which the loop is still running was a successful execution of
the fallback: after `fuel` iterations the counter has advanced by `fuel` and
the current qualified set is the one the primitive returned for the counter
value before the last increment. -/
theorem startLoop_fallback_forever (ext : RetryExternals) (ctx : Nat → Bool)
    (f : dkgAttemptParams → AttemptReturn) :
    ∀ (fuel : Nat) (drl : dkgRetryLoop) (q : AddressSet) (d : dkgRetryLoop)
      (q1 : AddressSet),
      0 < drl.randomRetryCounter → drl.randomRetryCounter + fuel < uint64Size →
      (startLoop ext ctx f fuel drl q).2 = .next d q1 →
      d.randomRetryCounter = drl.randomRetryCounter + fuel ∧
      d.selectedOperators = drl.selectedOperators ∧
      d.randomRetrySeed = drl.randomRetrySeed ∧
      d.chainConfig = drl.chainConfig ∧
      (0 < fuel → ∃ operators,
        ext.EvaluateRetryParticipantsForKeyGeneration drl.selectedOperators
            drl.randomRetrySeed (drl.randomRetryCounter + fuel - 1)
            (drl.chainConfig.GroupQuorum % (uint64Size : Int)).toNat = (operators, none) ∧
        q1 = Addresses.Set operators) := by
  intro fuel
  induction fuel with
  | zero =>
    intro drl q d q1 _ _ h
    simp only [startLoop, LoopStep.next.injEq] at h
    rw [← h.1]
    exact ⟨rfl, rfl, rfl, rfl, fun h0 => absurd h0 (by decide)⟩
  | succ fuel ih =>
    intro drl q d q1 hpos hlt h
    rw [startLoop_step_succ] at h
    rcases hi : (iteration ext ctx f drl q).2 with
      ⟨d1, q2⟩ | ⟨result, endBlock, err, d1⟩ | _
    · rw [hi] at h
      simp only at h
      obtain ⟨operators, heval, hq2, hcount⟩ :=
        iteration_next_fallback ext ctx f drl q d1 q2 hi (Or.inl hpos)
      obtain ⟨_, hsel, hcfg, _, _, hseed, _⟩ :=
        (iteration_counters ext ctx f drl q).1 d1 (by rw [hi]; rfl)
      have hcount1 : d1.randomRetryCounter = drl.randomRetryCounter + 1 := by
        rw [hcount]
        exact Nat.mod_eq_of_lt (by omega)
      obtain ⟨h1, h2, h3, h4, h5⟩ := ih d1 q2 d q1 (by omega) (by omega) h
      refine ⟨by omega, h2.trans hsel, h3.trans hseed, h4.trans hcfg, fun _ => ?_⟩
      by_cases hfuel : fuel = 0
      · subst hfuel
        simp only [startLoop, LoopStep.next.injEq] at h
        refine ⟨operators, ?_, by rw [← h.2]; exact hq2⟩
        rw [← heval]
        rfl
      · obtain ⟨operators1, heval1, hq1⟩ := h5 (by omega)
        refine ⟨operators1, ?_, hq1⟩
        rw [← heval1, hsel, hseed, hcfg, hcount1]
        congr 2
        omega
    · rw [hi] at h
      exact absurd h (by simp)
    · rw [hi] at h
      exact absurd h (by simp)

/-- As long as the counter does not wrap, the successful executions of the
fallback use consecutive counter values, starting with the counter the run
began with. -/
theorem fallbackCounters_eq (ext : RetryExternals) (ctx : Nat → Bool)
    (f : dkgAttemptParams → AttemptReturn) :
    ∀ (fuel : Nat) (drl : dkgRetryLoop) (q : AddressSet),
      drl.randomRetryCounter + fuel < uint64Size →
      fallbackCounters ext ctx f fuel drl q =
        List.range' drl.randomRetryCounter (successfulFallbacks ext ctx f fuel drl q) := by
  intro fuel
  induction fuel with
  | zero =>
    intro drl q _
    simp [fallbackCounters, successfulFallbacks]
  | succ fuel ih =>
    intro drl q hlt
    rw [fallbackCounters, successfulFallbacks]
    rcases hi : (iteration ext ctx f drl q).2 with
      ⟨d1, q1⟩ | ⟨result, endBlock, err, d1⟩ | _
    · simp only
      obtain ⟨_, hcount⟩ := iteration_next_counter ext ctx f drl q d1 q1 hi
      by_cases hs : fallbackSucceeds ext
          { d1 with randomRetryCounter := drl.randomRetryCounter } = true
      · rw [if_pos hs] at hcount
        rw [if_pos hs, if_pos hs]
        have hcount1 : d1.randomRetryCounter = drl.randomRetryCounter + 1 := by
          rw [hcount]
          exact Nat.mod_eq_of_lt (by omega)
        rw [ih d1 q1 (by omega), hcount1, Nat.add_comm 1, List.range'_succ]
        rfl
      · rw [if_neg hs] at hcount
        rw [if_neg hs, if_neg hs]
        rw [ih d1 q1 (by omega), hcount, Nat.zero_add, List.nil_append]
    · simp
    · simp

/-- In the example run every iteration is a successful execution of the
fallback: the loop continues with the first four operators and the counter
advanced in `uint` arithmetic. -/
theorem exampleRun_iteration (drl : dkgRetryLoop) (q : AddressSet)
    (hinv : exampleRunInvariant drl q) :
    ∃ d, (iteration exampleRetryExternals (fun _ => false) exampleOtherErrorAttemptFn
        drl q).2 = .next d ["A", "B", "C", "D"] ∧
      exampleRunInvariant d ["A", "B", "C", "D"] ∧
      d.randomRetryCounter = (drl.randomRetryCounter + 1) % uint64Size := by
  obtain ⟨hm, hsel, hin, hcfg, hdelay, hfrequency, hfactor, hq⟩ := hinv
  have hskip : ∃ excl, excludedMembersLoop drl.memberIndex q 0 drl.selectedOperators []
      = (excl, false) := by
    rw [hm, hsel]
    rcases hq with hq | hq
    · rw [hq]
      exact ⟨[], by decide⟩
    · rw [hq]
      exact ⟨[5], by decide⟩
  rcases iteration_cases exampleRetryExternals (fun _ => false) exampleOtherErrorAttemptFn
    drl q with ⟨hc, _⟩ | ⟨_, hp, _⟩ | ⟨_, b, _, hi⟩
  · exact absurd hc (by simp)
  · exfalso
    unfold nextAttemptStartBlock at hp
    simp only [hfrequency] at hp
    split at hp
    · simp at hp
    · simp at hp
  · rcases hi with ⟨excl, he, _⟩ | ⟨excl, _, hi⟩
    · obtain ⟨excl1, he1⟩ := hskip
      rw [he1] at he
      simp at he
    · rw [hi]
      have hfast : fastPathConditions
          ({ drl with attemptCounter := (drl.attemptCounter + 1) % uint64Size,
                      attemptStartBlock := b } : dkgRetryLoop) = false := by
        rw [← Bool.not_eq_true, fastPathConditions_iff]
        rintro ⟨_, _, h3, _⟩
        exact h3 hin
      have hrandom : randomSelection exampleRetryExternals
          ({ drl with attemptCounter := (drl.attemptCounter + 1) % uint64Size,
                      attemptStartBlock := b } : dkgRetryLoop)
          = (["A", "B", "C", "D"], none) := by
        simp only [randomSelection, exampleRetryExternals, hsel, hcfg]
        decide
      have hqos := qualifiedOperatorsSet_fallback exampleRetryExternals _ hfast
      rw [hrandom] at hqos
      simp only at hqos
      have hset : Addresses.Set ["A", "B", "C", "D"] = ["A", "B", "C", "D"] := by decide
      rw [hset] at hqos
      refine ⟨{ drl with attemptCounter := (drl.attemptCounter + 1) % uint64Size,
                         attemptStartBlock := b,
                         randomRetryCounter := (drl.randomRetryCounter + 1) % uint64Size },
        ?_, ⟨hm, hsel, hin, hcfg, hdelay, hfrequency, hfactor, Or.inr rfl⟩, rfl⟩
      show requalify exampleRetryExternals _ = _
      unfold requalify
      rw [hqos]

/-- After `n` iterations of the example run the loop is still running and the
counter has advanced by `n` in `uint` arithmetic. -/
theorem exampleRun_counter :
    ∀ (n : Nat) (drl : dkgRetryLoop) (q : AddressSet), exampleRunInvariant drl q →
      drl.randomRetryCounter < uint64Size →
      ∃ d q1, (startLoop exampleRetryExternals (fun _ => false) exampleOtherErrorAttemptFn
          n drl q).2 = .next d q1 ∧
        d.randomRetryCounter = (drl.randomRetryCounter + n) % uint64Size := by
  intro n
  induction n with
  | zero =>
    intro drl q _ hlt
    exact ⟨drl, q, rfl, by rw [Nat.add_zero, Nat.mod_eq_of_lt hlt]⟩
  | succ n ih =>
    intro drl q hinv hlt
    obtain ⟨d1, hi, hinv1, hcount⟩ := exampleRun_iteration drl q hinv
    have hpos : 0 < uint64Size := by unfold uint64Size; exact Nat.two_pow_pos 64
    obtain ⟨d, q1, hrun, hd⟩ := ih d1 ["A", "B", "C", "D"] hinv1
      (by rw [hcount]; exact Nat.mod_lt _ hpos)
    refine ⟨d, q1, ?_, ?_⟩
    · rw [startLoop_step_succ, hi]
      exact hrun
    · rw [hd, hcount, Nat.mod_add_mod, Nat.add_assoc, Nat.add_comm 1 n]

/-- C34, as stated, fails in a run that is long enough to wrap the counter:
the example loop of member `1`, with attempts that always fail without
reporting an inactive member, uses the fallback in every iteration; after
`2^64 - 1` iterations `randomRetryCounter` is `2^64 - 1` and after one more it
is `0`, so it has decreased (and the counter value `0` is then used a second
time). The single step from a state with the largest counter shows the
same. -/
theorem c34_counter_wraps_in_long_run :
    (∃ d q1, (start exampleRetryExternals (fun _ => false) exampleOtherErrorAttemptFn
        18446744073709551615 (exampleRetryLoop 1)).2 = .next d q1 ∧
      d.randomRetryCounter = 18446744073709551615) ∧
    (∃ d q1, (start exampleRetryExternals (fun _ => false) exampleOtherErrorAttemptFn
        18446744073709551616 (exampleRetryLoop 1)).2 = .next d q1 ∧
      d.randomRetryCounter = 0) ∧
    ((iteration exampleRetryExternals (fun _ => false) exampleOtherErrorAttemptFn
        { exampleRetryLoop 1 with attemptCounter := 6,
                                  randomRetryCounter := 18446744073709551615 }
        ["A", "B", "C", "D"]).2.state?.map (fun d => d.randomRetryCounter) = some 0) := by
  have hinv : exampleRunInvariant (exampleRetryLoop 1)
      (Addresses.Set (exampleRetryLoop 1).selectedOperators) := by
    unfold exampleRunInvariant
    decide
  have hlt : (exampleRetryLoop 1).randomRetryCounter < uint64Size := by decide
  refine ⟨?_, ?_, by decide⟩
  · obtain ⟨d, q1, hrun, hd⟩ := exampleRun_counter 18446744073709551615 (exampleRetryLoop 1)
      (Addresses.Set (exampleRetryLoop 1).selectedOperators) hinv hlt
    refine ⟨d, q1, hrun, ?_⟩
    rw [hd]
    decide
  · obtain ⟨d, q1, hrun, hd⟩ := exampleRun_counter 18446744073709551616 (exampleRetryLoop 1)
      (Addresses.Set (exampleRetryLoop 1).selectedOperators) hinv hlt
    refine ⟨d, q1, hrun, ?_⟩
    rw [hd]
    decide

/-- C34, amended: once the random-retry fallback has been used it is used for
ever after, as long as the counter does not wrap. In every run of `start` of
`fuel` iterations from a state with `randomRetryCounter + fuel < 2^64` the
counter does not decrease (an iteration leaves it or advances it by `1` in
`uint` arithmetic); from a state with `randomRetryCounter > 0` every iteration
after which the loop is still running has obtained the qualified set from the
random-selection primitive, with the counter advanced by `1` each time; for a
loop built by `newDkgRetryLoop` and fewer than `2^64` iterations the `k`-th
successful fallback uses the counter value `k - 1`; and every qualified set
computed when `attemptCounter > 5`, or with a positive counter, comes from the
fallback regardless of the inactivity evidence. -/
theorem c34_fallback_for_ever (ext : RetryExternals) (ctx : Nat → Bool)
    (f : dkgAttemptParams → AttemptReturn) :
    (∀ (fuel : Nat) (drl : dkgRetryLoop) (q : AddressSet) (d : dkgRetryLoop),
      drl.randomRetryCounter + fuel < 2 ^ 64 →
      (startLoop ext ctx f fuel drl q).2.state? = some d →
      drl.randomRetryCounter ≤ d.randomRetryCounter) ∧
    (∀ (drl : dkgRetryLoop) (q : AddressSet) (d : dkgRetryLoop),
      (iteration ext ctx f drl q).2.state? = some d →
      d.randomRetryCounter = drl.randomRetryCounter ∨
        d.randomRetryCounter = (drl.randomRetryCounter + 1) % 2 ^ 64) ∧
    (∀ (fuel : Nat) (drl : dkgRetryLoop) (q : AddressSet) (d : dkgRetryLoop)
        (q1 : AddressSet),
      0 < drl.randomRetryCounter → drl.randomRetryCounter + fuel < 2 ^ 64 →
      (startLoop ext ctx f fuel drl q).2 = .next d q1 →
      d.randomRetryCounter = drl.randomRetryCounter + fuel ∧
      (0 < fuel → ∃ operators,
        ext.EvaluateRetryParticipantsForKeyGeneration drl.selectedOperators
            drl.randomRetrySeed (drl.randomRetryCounter + fuel - 1)
            (drl.chainConfig.GroupQuorum % (2 ^ 64 : Int)).toNat = (operators, none) ∧
        q1 = Addresses.Set operators)) ∧
    (∀ (sha256Sum256 : List Nat → List Nat) (seed : Int) (initialStartBlock : Nat)
        (memberIndex : MemberIndex) (selectedOperators : List Address)
        (chainConfig : ChainConfig) (fuel : Nat),
      fuel < 2 ^ 64 →
      fallbackCounters ext ctx f fuel
          (newDkgRetryLoop sha256Sum256 seed initialStartBlock memberIndex selectedOperators
            chainConfig) (Addresses.Set selectedOperators) =
        List.range (successfulFallbacks ext ctx f fuel
          (newDkgRetryLoop sha256Sum256 seed initialStartBlock memberIndex selectedOperators
            chainConfig) (Addresses.Set selectedOperators))) ∧
    (∀ (drl : dkgRetryLoop) (q : AddressSet) (d : dkgRetryLoop) (q1 : AddressSet),
      (0 < drl.randomRetryCounter ∨ 5 < (drl.attemptCounter + 1) % 2 ^ 64) →
      (iteration ext ctx f drl q).2 = .next d q1 →
      ∃ operators,
        ext.EvaluateRetryParticipantsForKeyGeneration drl.selectedOperators
            drl.randomRetrySeed drl.randomRetryCounter
            (drl.chainConfig.GroupQuorum % (2 ^ 64 : Int)).toNat = (operators, none) ∧
        q1 = Addresses.Set operators) ∧
    (∀ (drl : dkgRetryLoop) (set : AddressSet) (d : dkgRetryLoop),
      (0 < drl.randomRetryCounter ∨ 5 < drl.attemptCounter) →
      qualifiedOperatorsSet ext drl = ((set, none), d) →
      ∃ operators,
        ext.EvaluateRetryParticipantsForKeyGeneration drl.selectedOperators
            drl.randomRetrySeed drl.randomRetryCounter
            (drl.chainConfig.GroupQuorum % (2 ^ 64 : Int)).toNat = (operators, none) ∧
        set = Addresses.Set operators) := by
  have h64 : (2 : Nat) ^ 64 = uint64Size := rfl
  have h64i : (2 : Int) ^ 64 = (uint64Size : Int) := by
    unfold uint64Size
    norm_num
  rw [h64i, h64]
  refine ⟨?_, ?_, ?_, ?_, ?_, ?_⟩
  · intro fuel drl q d hlt h
    rw [startLoop_counter_exact ext ctx f fuel drl q d hlt h]
    exact Nat.le_add_right _ _
  · intro drl q d h
    rcases hi : (iteration ext ctx f drl q).2 with
      ⟨d1, q1⟩ | ⟨result, endBlock, err, d1⟩ | _
    · rw [hi] at h
      simp only [LoopStep.state?, Option.some.injEq] at h
      subst h
      obtain ⟨_, hcount⟩ := iteration_next_counter ext ctx f drl q d1 q1 hi
      split at hcount
      · exact Or.inr hcount
      · exact Or.inl hcount
    · rw [hi] at h
      simp only [LoopStep.state?, Option.some.injEq] at h
      subst h
      exact Or.inl (iteration_returned_counter ext ctx f drl q result endBlock err d1 hi)
    · rw [hi] at h
      simp [LoopStep.state?] at h
  · intro fuel drl q d q1 hpos hlt h
    obtain ⟨h1, _, _, _, h5⟩ := startLoop_fallback_forever ext ctx f fuel drl q d q1 hpos hlt h
    exact ⟨h1, h5⟩
  · intro sha256Sum256 seed initialStartBlock memberIndex selectedOperators chainConfig
      fuel hfuel
    have h0 : (newDkgRetryLoop sha256Sum256 seed initialStartBlock memberIndex
        selectedOperators chainConfig).randomRetryCounter = 0 := rfl
    rw [fallbackCounters_eq ext ctx f fuel _ _ (by rw [h0, Nat.zero_add]; exact hfuel), h0,
      List.range_eq_range']
  · intro drl q d q1 hcond h
    obtain ⟨operators, heval, hq, _⟩ := iteration_next_fallback ext ctx f drl q d q1 h hcond
    exact ⟨operators, heval, hq⟩
  · intro drl set d hcond h
    have hfast := fastPathConditions_false_of drl hcond
    rw [qualifiedOperatorsSet_fallback ext drl hfast] at h
    unfold randomSelection at h
    rcases hsel : ext.EvaluateRetryParticipantsForKeyGeneration drl.selectedOperators
        drl.randomRetrySeed drl.randomRetryCounter
        (drl.chainConfig.GroupQuorum % (uint64Size : Int)).toNat with ⟨operators, _ | err⟩
    · rw [hsel] at h
      simp only [Prod.mk.injEq, and_true] at h
      exact ⟨operators, rfl, h.1.symm⟩
    · rw [hsel] at h
      simp at h

/-- C34 on the example loop with attempts that report one more inactive member
each time: in four iterations the fallback succeeds three times, with the
counter values `0`, `1` and `2`. -/
theorem c34_fallback_for_ever_witness :
    (4 < 2 ^ 64) ∧
    successfulFallbacks exampleRetryExternals (fun _ => false) exampleFailingAttemptFn 4
        (newDkgRetryLoop (fun _ => List.replicate 32 255) 12345 1000 1
          ["A", "B", "C", "D", "E"] exampleChainConfig)
        (Addresses.Set ["A", "B", "C", "D", "E"]) = 3 ∧
    fallbackCounters exampleRetryExternals (fun _ => false) exampleFailingAttemptFn 4
        (newDkgRetryLoop (fun _ => List.replicate 32 255) 12345 1000 1
          ["A", "B", "C", "D", "E"] exampleChainConfig)
        (Addresses.Set ["A", "B", "C", "D", "E"]) =
      List.range (successfulFallbacks exampleRetryExternals (fun _ => false)
        exampleFailingAttemptFn 4
        (newDkgRetryLoop (fun _ => List.replicate 32 255) 12345 1000 1
          ["A", "B", "C", "D", "E"] exampleChainConfig)
        (Addresses.Set ["A", "B", "C", "D", "E"])) :=
  ⟨by decide, by decide,
    (c34_fallback_for_ever exampleRetryExternals (fun _ => false)
      exampleFailingAttemptFn).2.2.2.1 (fun _ => List.replicate 32 255) 12345 1000 1
      ["A", "B", "C", "D", "E"] exampleChainConfig 4 (by decide)⟩

end Tbtc
